import Mathlib

/-!
Verification development for the FitosBot Santorini engine.

The definitions below are a shallow embedding of the Python sources
(`Board.py`, `Move.py`, `evaluate.py`, `search.py`): mutable state becomes
explicit state passing (`Board → ... → Board`), fallible code returns
`Except String`, Python `int` becomes `Int`, list indexing uses `getD`
(all uses are in range under the board well-formedness predicate).
-/

namespace FitosBot

/-- The ten god powers, numbered as in `Board.py` (`class God(Enum)`). -/
inductive God where
  | APOLLO
  | ARTEMIS
  | ATHENA
  | ATLAS
  | DEMETER
  | HEPHAESTUS
  | HERMES
  | MINOTAUR
  | PAN
  | PROMETHEUS
deriving DecidableEq, Repr

/-- `God(value)` used by the parser: numeric value 0..9 to god, as in the enum. -/
def God.ofNat? : Nat → Option God
  | 0 => some .APOLLO
  | 1 => some .ARTEMIS
  | 2 => some .ATHENA
  | 3 => some .ATLAS
  | 4 => some .DEMETER
  | 5 => some .HEPHAESTUS
  | 6 => some .HERMES
  | 7 => some .MINOTAUR
  | 8 => some .PAN
  | 9 => some .PROMETHEUS
  | _ => none

/-- The per-god move payloads of `Move.py`, one constructor per concrete class.
`AthenaMove`, `PanMove` and `MinotaurMove` subclass `ApolloMove`, and
`HephaestusMove` subclasses `DemeterMove`; the subclass relation is modelled by
the `apollo_view` / `demeter_view` functions below. -/
inductive MoveKind where
  | apollo (from_sq to_sq build_sq : Nat)
  | artemis (from_sq to_sq build_sq : Nat) (mid_sq : Option Nat)
  | athena (from_sq to_sq build_sq : Nat)
  | atlas (from_sq to_sq build_sq : Nat) (dome : Bool) (orig_h : Option Int)
  | demeter (from_sq to_sq build_sq_1 : Nat) (build_sq_2 : Option Nat)
  | hephaestus (from_sq to_sq build_sq_1 : Nat) (build_sq_2 : Option Nat)
  | hermes (from_sq : Nat) (squares : List Nat) (build_sq : Nat)
  | minotaur (from_sq to_sq build_sq : Nat) (pushed : Bool)
  | pan (from_sq to_sq build_sq : Nat)
  | prometheus (from_sq to_sq build_sq : Nat) (optional_build : Option Nat)
deriving DecidableEq, Repr

/-- A move value: the god-specific payload plus the `had_athena_flag` slot that
`generate_moves` stamps and `unmake_move` reads (`Move.py`, class `Move`). -/
structure Move where
  kind : MoveKind
  had_athena_flag : Bool := false
deriving DecidableEq, Repr

/-- `move.from_sq` (a field of every move class). -/
def MoveKind.from_sq : MoveKind → Nat
  | .apollo f _ _ => f
  | .artemis f _ _ _ => f
  | .athena f _ _ => f
  | .atlas f _ _ _ _ => f
  | .demeter f _ _ _ => f
  | .hephaestus f _ _ _ => f
  | .hermes f _ _ => f
  | .minotaur f _ _ _ => f
  | .pan f _ _ => f
  | .prometheus f _ _ _ => f

/-- `move.final_sq` (property of every move class; for Hermes the last square
of the walk, or `from_sq` when the walk is empty). -/
def MoveKind.final_sq : MoveKind → Nat
  | .apollo _ t _ => t
  | .artemis _ t _ _ => t
  | .athena _ t _ => t
  | .atlas _ t _ _ _ => t
  | .demeter _ t _ _ => t
  | .hephaestus _ t _ _ => t
  | .hermes f sqs _ => sqs.getLast?.getD f
  | .minotaur _ t _ _ => t
  | .pan _ t _ => t
  | .prometheus _ t _ _ => t

/-- Python `isinstance(move, ApolloMove)`: true for `ApolloMove` and its
subclasses `AthenaMove`, `PanMove`, `MinotaurMove`; yields the shared
`(from_sq, to_sq, build_sq)` fields. -/
def apollo_view : MoveKind → Option (Nat × Nat × Nat)
  | .apollo f t b => some (f, t, b)
  | .athena f t b => some (f, t, b)
  | .pan f t b => some (f, t, b)
  | .minotaur f t b _ => some (f, t, b)
  | _ => none

/-- Python `isinstance(move, DemeterMove)`: true for `DemeterMove` and its
subclass `HephaestusMove`; yields `(from_sq, to_sq, build_sq_1, build_sq_2)`. -/
def demeter_view : MoveKind → Option (Nat × Nat × Nat × Option Nat)
  | .demeter f t b1 b2 => some (f, t, b1, b2)
  | .hephaestus f t b1 b2 => some (f, t, b1, b2)
  | _ => none

/-- `_god_move_match(god, move)` of `Board.py`: the (god → move class) pairing,
with Python subclass semantics for the Apollo and Demeter families. -/
def god_move_match (god : God) (k : MoveKind) : Bool :=
  match god with
  | .APOLLO => (apollo_view k).isSome
  | .ARTEMIS => match k with | .artemis .. => true | _ => false
  | .ATHENA => match k with | .athena .. => true | _ => false
  | .ATLAS => match k with | .atlas .. => true | _ => false
  | .DEMETER => (demeter_view k).isSome
  | .HEPHAESTUS => match k with | .hephaestus .. => true | _ => false
  | .HERMES => match k with | .hermes .. => true | _ => false
  | .MINOTAUR => match k with | .minotaur .. => true | _ => false
  | .PAN => match k with | .pan .. => true | _ => false
  | .PROMETHEUS => match k with | .prometheus .. => true | _ => false

/-- Modelled from the spec: the adjacency relation of the `NEIGHBOURS` table
imported from `constants.py`, a file of this repository that is not under
`src/`.  Per the spec (§3, "Adjacency"): for each square the at most 8
king-move neighbours inside the 5×5 grid (row = sq / 5, col = sq % 5). -/
def kingAdj (a b : Nat) : Bool :=
  a ≠ b && ((a / 5 : Int) - (b / 5 : Int)).natAbs ≤ 1
    && ((a % 5 : Int) - (b % 5 : Int)).natAbs ≤ 1

/-- Modelled from the spec: `NEIGHBOURS[sq]` from `constants.py` (not under
`src/`): the list of king-move neighbours of `sq` inside the 5×5 board. -/
def NEIGHBOURS (sq : Nat) : List Nat :=
  (List.range 25).filter (fun t => kingAdj sq t)

/-- The mutable game state of `Board.py` (`class Board`), as a record:
25 block heights, the 4 worker squares (slots 0,1 Gray and 2,3 Blue),
side to move (+1 Gray / −1 Blue), the two gods, Athena's flag, Pan's
transient height diff, and the `won` flag. -/
structure Board where
  blocks : List Int
  workers : List Nat
  turn : Int
  gods : God × God
  prevent_up_next_turn : Bool
  last_move_height_diff : Int
  won : Bool
deriving DecidableEq, Repr

/-- `self.blocks[sq]` (all uses are in range for well-formed boards). -/
def Board.blockAt (b : Board) (sq : Nat) : Int := b.blocks.getD sq 0

/-- `self.workers[i]` (all uses are in range: the list has 4 entries). -/
def Board.workerAt (b : Board) (i : Nat) : Nat := b.workers.getD i 0

/-- `Board.is_free`: not occupied by a worker and fewer than 4 blocks tall. -/
def is_free (b : Board) (square : Nat) : Bool :=
  !(b.workers.contains square) && b.blockAt square < 4

/-- `_calculate_push_square(from_sq, to_sq)`: the square in a straight line
beyond `to_sq` from `from_sq`, or `None` when it leaves the board. -/
def calculate_push_square (from_sq to_sq : Nat) : Option Nat :=
  let dx : Int := (to_sq % 5 : Int) - (from_sq % 5 : Int)
  let dy : Int := (to_sq / 5 : Int) - (from_sq / 5 : Int)
  let push_row : Int := (to_sq / 5 : Int) + dy
  let push_col : Int := (to_sq % 5 : Int) + dx
  if push_row < 0 || push_row > 4 || push_col < 0 || push_col > 4 then
    none
  else
    some (push_row * 5 + push_col).toNat

/-- `_adj_ok(from_sq, to_sq)`: `to_sq in NEIGHBOURS[from_sq]`. -/
def adj_ok (from_sq to_sq : Nat) : Bool :=
  (NEIGHBOURS from_sq).contains to_sq

/-- `_which_worker_is_here(sq)`: index of the first worker standing on `sq`. -/
def which_worker_is_here (b : Board) (sq : Nat) : Option Nat :=
  b.workers.findIdx? (· = sq)

/-- `_is_opponent_worker(worker_index)`; the argument is an `Option` because
Python call sites may pass `None` (then `None in (2,3)` is `False`). -/
def is_opponent_worker (b : Board) (w : Option Nat) : Bool :=
  match w with
  | none => false
  | some i => if b.turn = 1 then i == 2 || i == 3 else i == 0 || i == 1

/-- `_worker_belongs_to_current_player(sq)`. -/
def worker_belongs_to_current_player (b : Board) (sq : Nat) : Bool :=
  if b.turn = 1 then sq == b.workerAt 0 || sq == b.workerAt 1
  else sq == b.workerAt 2 || sq == b.workerAt 3

/-- `_attempts_to_move_up(move)`: the final square is strictly higher. -/
def attempts_to_move_up (b : Board) (k : MoveKind) : Bool :=
  b.blockAt k.final_sq > b.blockAt k.from_sq

/-- `_move_worker(move)`: set the first worker standing on `from_sq` to
`final_sq` (the Python loop breaks after the first match). -/
def move_worker_list (ws : List Nat) (from_sq final_sq : Nat) : List Nat :=
  match ws with
  | [] => []
  | w :: rest =>
    if w = from_sq then final_sq :: rest
    else w :: move_worker_list rest from_sq final_sq

/-- `_height_ok(from_sq, to_sq)`: climb of at most one level. -/
def height_ok (b : Board) (from_sq to_sq : Nat) : Bool :=
  b.blockAt to_sq - b.blockAt from_sq ≤ 1

/-- `_build_ok_sq(from_sq, to_sq, build_sq)`. -/
def build_ok_sq (b : Board) (from_sq to_sq build_sq : Nat) : Bool :=
  (NEIGHBOURS to_sq).contains build_sq && to_sq ≠ build_sq
    && (from_sq == build_sq || is_free b build_sq)

/-- `_move_checks_sq(from_sq, final_sq)`. -/
def move_checks_sq (b : Board) (from_sq final_sq : Nat) : Bool :=
  height_ok b from_sq final_sq && adj_ok from_sq final_sq && is_free b final_sq

/-- `_complete_checks_sq(from_sq, to_sq, build_sq)`. -/
def complete_checks_sq (b : Board) (from_sq to_sq build_sq : Nat) : Bool :=
  move_checks_sq b from_sq to_sq && build_ok_sq b from_sq to_sq build_sq

/-- The god of the side to move (`self.gods[0]` if Gray else `self.gods[1]`). -/
def current_god (b : Board) : God :=
  if b.turn = 1 then b.gods.1 else b.gods.2

/-- `_apollo_move_is_valid` (fields shared by the `ApolloMove` family). -/
def apollo_move_is_valid (b : Board) (f t bd : Nat) : Bool :=
  if !(height_ok b f t && adj_ok f t) then false
  else
    let occupant := which_worker_is_here b t
    if occupant.isSome then
      if !(is_opponent_worker b occupant) then false
      else apollo_valid_tail b f t bd occupant
    else
      if b.blockAt t == 4 then false
      else apollo_valid_tail b f t bd occupant
where
  /-- the trailing `build_ok` / swap-build check shared by both branches -/
  apollo_valid_tail (b : Board) (f t bd : Nat) (occupant : Option Nat) : Bool :=
    if !(build_ok_sq b f t bd) then false
    else if is_opponent_worker b occupant && f == bd then false
    else true

/-- `_artemis_move_is_valid`. -/
def artemis_move_is_valid (b : Board) (f t bd : Nat) (mid : Option Nat) : Bool :=
  match mid with
  | none =>
    if !(height_ok b f t && adj_ok f t && is_free b t) then false
    else artemis_build b f t bd
  | some m =>
    if !(move_checks_sq b f m) then false
    else if !(move_checks_sq b m t) then false
    else if t == f then false
    else artemis_build b f t bd
where
  artemis_build (b : Board) (f t bd : Nat) : Bool :=
    if !(build_ok_sq b f t bd) then false else true

/-- `_athena_move_is_valid`. -/
def athena_move_is_valid (b : Board) (f t bd : Nat) : Bool :=
  complete_checks_sq b f t bd

/-- `_atlas_move_is_valid`. -/
def atlas_move_is_valid (b : Board) (f t bd : Nat) : Bool :=
  complete_checks_sq b f t bd

/-- `_demeter_move_is_valid`. -/
def demeter_move_is_valid (b : Board) (f t b1 : Nat) (b2 : Option Nat) : Bool :=
  if !(complete_checks_sq b f t b1) then false
  else
    match b2 with
    | none => true
    | some s =>
      if s == b1 then false
      else if !(build_ok_sq b f t s) then false
      else true

/-- `_hephaestus_move_is_valid`. -/
def hephaestus_move_is_valid (b : Board) (f t b1 : Nat) (b2 : Option Nat) : Bool :=
  if !(complete_checks_sq b f t b1) then false
  else
    match b2 with
    | none => true
    | some s =>
      if s != b1 || b.blockAt s ≥ 2 then false
      else if !(build_ok_sq b f t s) then false
      else true

/-- the step loop of `_hermes_move_is_valid`: every square of the walk is at
the starting height and each step is a legal single-step move. -/
def hermes_steps (b : Board) (sh : Int) : Nat → List Nat → Bool
  | _, [] => true
  | current, nxt :: rest =>
    if b.blockAt nxt != sh then false
    else if !(move_checks_sq b current nxt) then false
    else hermes_steps b sh nxt rest

/-- `_hermes_move_is_valid`. -/
def hermes_move_is_valid (b : Board) (f : Nat) (squares : List Nat) (bd : Nat) : Bool :=
  let fin := squares.getLast?.getD f
  if squares.length == 1 then complete_checks_sq b f fin bd
  else
    if !(hermes_steps b (b.blockAt f) f squares) then false
    else if !(build_ok_sq b f fin bd) then false
    else true

/-- `_minotaur_move_is_valid`. -/
def minotaur_move_is_valid (b : Board) (f t bd : Nat) : Bool :=
  if !(height_ok b f t && adj_ok f t) then false
  else
    let occupant := which_worker_is_here b t
    match occupant with
    | some occ =>
      if !(is_opponent_worker b (some occ)) then false
      else
        match calculate_push_square f t with
        | none => false
        | some push =>
          if !(is_free b push) then false
          else
            if !(build_ok_sq b f t bd) || push == bd then false
            else true
    | none =>
      if b.blockAt t == 4 then false
      else
        if !(build_ok_sq b f t bd) then false
        else true

/-- `_pan_move_is_valid`. -/
def pan_move_is_valid (b : Board) (f t bd : Nat) : Bool :=
  complete_checks_sq b f t bd

/-- `_prometheus_move_is_valid`. -/
def prometheus_move_is_valid (b : Board) (f t bd : Nat) (opt : Option Nat) : Bool :=
  match opt with
  | none => complete_checks_sq b f t bd
  | some ob =>
    if !(build_ok_sq b f f ob) then false
    else if b.blockAt t + (if t = ob then 1 else 0) > b.blockAt f then false
    else if !(complete_checks_sq b f t bd) then false
    else true

/-- the god-specific dispatch of `Board.move_is_valid` — the
`elif isinstance(...) and current_god == ...` chain, which collapses to a
match on the current god with the Python subclass semantics through the
views. -/
def dispatch_valid (b : Board) (god : God) (k : MoveKind) : Bool :=
  match god with
    | .APOLLO =>
      match apollo_view k with
      | some (f, t, bd) => apollo_move_is_valid b f t bd
      | none => false
    | .ARTEMIS =>
      match k with
      | .artemis f t bd mid => artemis_move_is_valid b f t bd mid
      | _ => false
    | .ATHENA =>
      match k with
      | .athena f t bd => athena_move_is_valid b f t bd
      | _ => false
    | .ATLAS =>
      match k with
      | .atlas f t bd _ _ => atlas_move_is_valid b f t bd
      | _ => false
    | .DEMETER =>
      match demeter_view k with
      | some (f, t, b1, b2) => demeter_move_is_valid b f t b1 b2
      | none => false
    | .HEPHAESTUS =>
      match k with
      | .hephaestus f t b1 b2 => hephaestus_move_is_valid b f t b1 b2
      | _ => false
    | .HERMES =>
      match k with
      | .hermes f sqs bd => hermes_move_is_valid b f sqs bd
      | _ => false
    | .MINOTAUR =>
      match k with
      | .minotaur f t bd _ => minotaur_move_is_valid b f t bd
      | _ => false
    | .PAN =>
      match k with
      | .pan f t bd => pan_move_is_valid b f t bd
      | _ => false
    | .PROMETHEUS =>
      match k with
      | .prometheus f t bd opt => prometheus_move_is_valid b f t bd opt
      | _ => false

/-- `Board.move_is_valid(move)`: the basic checks followed by the
god-specific dispatch. -/
def move_is_valid (b : Board) (m : Move) : Bool :=
  let god := current_god b
  if !(god_move_match god m.kind) then false
  else if !(worker_belongs_to_current_player b m.kind.from_sq) then false
  else if b.prevent_up_next_turn && attempts_to_move_up b m.kind then false
  else dispatch_valid b god m.kind

/-- `self.blocks[sq] += 1` (in range for well-formed boards). -/
def inc_block (b : Board) (sq : Nat) : Board :=
  { b with blocks := b.blocks.set sq (b.blockAt sq + 1) }

/-- `self.blocks[sq] = v`. -/
def set_block (b : Board) (sq : Nat) (v : Int) : Board :=
  { b with blocks := b.blocks.set sq v }

/-- `self.blocks[sq] -= 1` (`_decrement_block`). -/
def dec_block (b : Board) (sq : Nat) : Board :=
  { b with blocks := b.blocks.set sq (b.blockAt sq - 1) }

/-- `_move_worker(move)` applied to a board. -/
def move_worker (b : Board) (from_sq final_sq : Nat) : Board :=
  { b with workers := move_worker_list b.workers from_sq final_sq }

/-- `_apollo_make_move`: swap an opponent occupant back to `from_sq` (if
any), move the active worker, build. -/
def apollo_make_move (b : Board) (f t bd : Nat) : Except String Board :=
  match b.workers.findIdx? (· = f) with
  | none => Except.error "from square has no worker"
  | some orig_index =>
    match which_worker_is_here b t with
    | some occ =>
      if !(is_opponent_worker b (some occ)) then
        Except.error "Apollo cannot swap with allied worker"
      else
        Except.ok (inc_block
          { b with workers := (b.workers.set occ f).set orig_index t } bd)
    | none =>
      Except.ok (inc_block { b with workers := b.workers.set orig_index t } bd)

/-- the stepping loop of `_artemis_make_move`: each square of the path must be
unoccupied at the moment the worker steps onto it. -/
def artemis_walk (b : Board) (i : Nat) : List Nat → Except String Board
  | [] => pure b
  | sq :: rest =>
    if (which_worker_is_here b sq).isSome then
      throw "Artemis invalid: move path occupied!"
    else artemis_walk { b with workers := b.workers.set i sq } i rest

/-- `_artemis_make_move`.  When no worker stands on `from_sq` the Python loop
finds nothing and only the build happens. -/
def artemis_make_move (b : Board) (f t bd : Nat) (mid : Option Nat) :
    Except String Board :=
  match b.workers.findIdx? (· = f) with
  | some i =>
    match artemis_walk b i (mid.toList ++ [t]) with
    | Except.error e => Except.error e
    | Except.ok b' => Except.ok (inc_block b' bd)
  | none => Except.ok (inc_block b bd)

/-- `_athena_make_move` (the height diff is read after the worker moves but
before the build, exactly as in the source). -/
def athena_make_move (b : Board) (f t bd : Nat) : Board :=
  let b := move_worker b f t
  let from_h := b.blockAt f
  let to_h := b.blockAt t
  let b := { b with last_move_height_diff := to_h - from_h }
  inc_block b bd

/-- `_atlas_make_move`. -/
def atlas_make_move (b : Board) (f t bd : Nat) (dome : Bool) : Board :=
  let b := move_worker b f t
  if dome then set_block b bd 4 else inc_block b bd

/-- `_demeter_make_move` (also used for `_hephaestus_make_move`, whose body
is identical). -/
def demeter_make_move (b : Board) (f t b1 : Nat) (b2 : Option Nat) : Board :=
  let b := move_worker b f t
  let b := inc_block b b1
  match b2 with
  | some s => inc_block b s
  | none => b

/-- `_hermes_make_move`. -/
def hermes_make_move (b : Board) (f fin bd : Nat) : Board :=
  inc_block (move_worker b f fin) bd

/-- `_minotaur_make_move`. -/
def minotaur_make_move (b : Board) (f t bd : Nat) : Except String Board :=
  match which_worker_is_here b t with
  | some occ =>
    if !(is_opponent_worker b (some occ)) then
      Except.error "Minotaur cannot push allied worker"
    else
      match calculate_push_square f t with
      | none => Except.error "Invalid Minotaur push destination"
      | some push =>
        if !(is_free b push) then Except.error "Invalid Minotaur push destination"
        else
          Except.ok (inc_block
            (move_worker { b with workers := b.workers.set occ push } f t) bd)
  | none => Except.ok (inc_block (move_worker b f t) bd)

/-- `_pan_make_move` (the arrival height is read after the build, exactly as
in the source; the build square differs from `to_sq` for valid moves). -/
def pan_make_move (b : Board) (f t bd : Nat) : Board :=
  let from_height := b.blockAt f
  let b := move_worker b f t
  let b := inc_block b bd
  let to_height := b.blockAt t
  { b with last_move_height_diff := to_height - from_height }

/-- `_prometheus_make_move`. -/
def prometheus_make_move (b : Board) (f t bd : Nat) (opt : Option Nat) : Board :=
  let b := match opt with
    | some ob => inc_block b ob
    | none => b
  inc_block (move_worker b f t) bd

/-- `_make_move_for_god`: dispatch on god and move class (with Python
subclass semantics). -/
def make_move_for_god (b : Board) (god : God) (k : MoveKind) :
    Except String Board :=
  match god with
  | .APOLLO =>
    match apollo_view k with
    | some (f, t, bd) => apollo_make_move b f t bd
    | none => throw "Unrecognized god/move combination in make_move"
  | .ARTEMIS =>
    match k with
    | .artemis f t bd mid => artemis_make_move b f t bd mid
    | _ => throw "Unrecognized god/move combination in make_move"
  | .ATHENA =>
    match k with
    | .athena f t bd => pure (athena_make_move b f t bd)
    | _ => throw "Unrecognized god/move combination in make_move"
  | .ATLAS =>
    match k with
    | .atlas f t bd dome _ => pure (atlas_make_move b f t bd dome)
    | _ => throw "Unrecognized god/move combination in make_move"
  | .DEMETER =>
    match demeter_view k with
    | some (f, t, b1, b2) => pure (demeter_make_move b f t b1 b2)
    | none => throw "Unrecognized god/move combination in make_move"
  | .HEPHAESTUS =>
    match k with
    | .hephaestus f t b1 b2 => pure (demeter_make_move b f t b1 b2)
    | _ => throw "Unrecognized god/move combination in make_move"
  | .HERMES =>
    match k with
    | .hermes f sqs bd => pure (hermes_make_move b f (sqs.getLast?.getD f) bd)
    | _ => throw "Unrecognized god/move combination in make_move"
  | .MINOTAUR =>
    match k with
    | .minotaur f t bd _ => minotaur_make_move b f t bd
    | _ => throw "Unrecognized god/move combination in make_move"
  | .PAN =>
    match k with
    | .pan f t bd => pure (pan_make_move b f t bd)
    | _ => throw "Unrecognized god/move combination in make_move"
  | .PROMETHEUS =>
    match k with
    | .prometheus f t bd opt => pure (prometheus_make_move b f t bd opt)
    | _ => throw "Unrecognized god/move combination in make_move"

/-- `Board.make_move(move)`: validity check, reset of the transient diff,
god-specific apply, Athena-flag update, `won` update (read from the heights
AFTER the god-specific apply, as in the source), and turn flip. -/
def make_move (b : Board) (m : Move) : Except String Board := do
  if !(move_is_valid b m) then throw "Invalid move"
  else do
    let god := current_god b
    let b0 := { b with last_move_height_diff := 0 }
    let b1 ← make_move_for_god b0 god m.kind
    let flag := god == God.ATHENA && b1.last_move_height_diff > 0
    let b2 := { b1 with prevent_up_next_turn := flag }
    let w := b2.blockAt m.kind.from_sq < b2.blockAt m.kind.final_sq
      && b2.blockAt m.kind.final_sq == 3
    pure { b2 with won := w, turn := -b2.turn }

/-- `_find_active_worker_undo(to_sq)`: index of this player's worker now at
`to_sq` (the membership test is on the square, as in the source). -/
def find_active_worker_undo (b : Board) (to_sq : Nat) : Except String Nat :=
  match (List.range 4).find?
      (fun i => b.workerAt i == to_sq && worker_belongs_to_current_player b to_sq) with
  | some i => pure i
  | none => throw "Failed to find active worker at square"

/-- `_undo_opponent_push(from_sq, to_sq)`: move a pushed opponent back from
the push square to `to_sq` (when the push square exists and is occupied by an
opponent). -/
def undo_opponent_push (b : Board) (from_sq to_sq : Nat) : Board :=
  let opp_index := match calculate_push_square from_sq to_sq with
    | some p => which_worker_is_here b p
    | none => none
  match opp_index with
  | some k =>
    if is_opponent_worker b (some k) then
      { b with workers := b.workers.set k to_sq }
    else b
  | none => b

/-- `_undo_apollo_move`. -/
def undo_apollo_move (b : Board) (f t bd : Nat) : Except String Board := do
  let b := dec_block b bd
  let active ← find_active_worker_undo b t
  let b := match which_worker_is_here b f with
    | some k =>
      if is_opponent_worker b (some k) then
        { b with workers := b.workers.set k t }
      else b
    | none => b
  pure { b with workers := b.workers.set active f }

/-- `_undo_artemis_move`. -/
def undo_artemis_move (b : Board) (f t bd : Nat) : Except String Board := do
  let b := dec_block b bd
  let active ← find_active_worker_undo b t
  pure { b with workers := b.workers.set active f }

/-- `_undo_athena_move` (note: it clears the Athena flag unconditionally,
after `unmake_move` already restored it from `had_athena_flag`). -/
def undo_athena_move (b : Board) (f t bd : Nat) : Except String Board := do
  let b := dec_block b bd
  let active ← find_active_worker_undo b t
  let b := { b with workers := b.workers.set active f }
  pure { b with prevent_up_next_turn := false }

/-- `_undo_atlas_move` (the block is restored from `move.orig_h`; a missing
`orig_h` would poison the Python blocks list with `None`, modelled as an
error). -/
def undo_atlas_move (b : Board) (f t bd : Nat) (orig_h : Option Int) :
    Except String Board := do
  let active ← find_active_worker_undo b t
  let b := { b with workers := b.workers.set active f }
  match orig_h with
  | some h => pure (set_block b bd h)
  | none => throw "orig_h missing"

/-- `_undo_demeter_move` (also `_undo_hephaestus_move`, whose body is
identical). -/
def undo_demeter_move (b : Board) (f t b1 : Nat) (b2 : Option Nat) :
    Except String Board := do
  let b := match b2 with
    | some s => dec_block b s
    | none => b
  let b := dec_block b b1
  let active ← find_active_worker_undo b t
  pure { b with workers := b.workers.set active f }

/-- `_undo_hermes_move`. -/
def undo_hermes_move (b : Board) (f : Nat) (squares : List Nat) (bd : Nat) :
    Except String Board := do
  let b := dec_block b bd
  match squares with
  | [] => pure b
  | _ => do
    let fin := squares.getLast?.getD f
    let active ← find_active_worker_undo b fin
    pure { b with workers := b.workers.set active f }

/-- `_undo_minotaur_move`. -/
def undo_minotaur_move (b : Board) (f t bd : Nat) (pushed : Bool) :
    Except String Board := do
  let b := dec_block b bd
  let active ← find_active_worker_undo b t
  let b := { b with workers := b.workers.set active f }
  pure (if pushed then undo_opponent_push b f t else b)

/-- `_undo_pan_move` (clears `last_move_height_diff` to 0, not to the value
it held before the move). -/
def undo_pan_move (b : Board) (f t bd : Nat) : Except String Board := do
  let b := dec_block b bd
  let active ← find_active_worker_undo b t
  let b := { b with workers := b.workers.set active f }
  pure { b with last_move_height_diff := 0 }

/-- `_undo_prometheus_move`. -/
def undo_prometheus_move (b : Board) (f t bd : Nat) (opt : Option Nat) :
    Except String Board := do
  let b := dec_block b bd
  let active ← find_active_worker_undo b t
  let b := { b with workers := b.workers.set active f }
  pure (match opt with
    | some ob => dec_block b ob
    | none => b)

/-- `Board.unmake_move(move)`: flip the turn back, check the move class
against the mover's god, clear `won`, restore the flag from
`had_athena_flag`, then run the exact-class undo function. -/
def unmake_move (b : Board) (m : Move) : Except String Board := do
  let b := { b with turn := -b.turn }
  let god := current_god b
  if !(god_move_match god m.kind) then
    throw "Move type does not match god"
  else do
    let b := { b with won := false, prevent_up_next_turn := m.had_athena_flag }
    match m.kind with
    | .apollo f t bd => undo_apollo_move b f t bd
    | .artemis f t bd _ => undo_artemis_move b f t bd
    | .athena f t bd => undo_athena_move b f t bd
    | .atlas f t bd _ orig => undo_atlas_move b f t bd orig
    | .demeter f t b1 b2 => undo_demeter_move b f t b1 b2
    | .hephaestus f t b1 b2 => undo_demeter_move b f t b1 b2
    | .hermes f sqs bd => undo_hermes_move b f sqs bd
    | .minotaur f t bd pushed => undo_minotaur_move b f t bd pushed
    | .pan f t bd => undo_pan_move b f t bd
    | .prometheus f t bd opt => undo_prometheus_move b f t bd opt

/-- the per-neighbour body of `_player_has_any_valid_move`'s inner loop. -/
def any_move_via (b : Board) (god : God) (wpos to_sq : Nat) : Bool :=
  if b.blockAt to_sq == 4 then false
  else
    let from_h := b.blockAt wpos
    let to_h := b.blockAt to_sq
    if god == God.HERMES && is_free b to_sq then true
    else if to_h - from_h > 1 then false
    else if to_h - from_h == 1 && b.prevent_up_next_turn then false
    else
      match which_worker_is_here b to_sq with
      | none => true
      | some occupant =>
        if god == God.APOLLO && is_opponent_worker b (some occupant) then
          (NEIGHBOURS to_sq).any (fun nei => nei ≠ wpos && is_free b nei)
        else if god == God.MINOTAUR && is_opponent_worker b (some occupant) then
          match calculate_push_square wpos to_sq with
          | some push => is_free b push
          | none => false
        else false

/-- `_player_has_any_valid_move(side)`. -/
def player_has_any_valid_move (b : Board) (side : Int) : Bool :=
  let god := if side = 1 then b.gods.1 else b.gods.2
  let worker_indices : List Nat := if side = 1 then [0, 1] else [2, 3]
  worker_indices.any (fun wi =>
    let wpos := b.workerAt wi
    (NEIGHBOURS wpos).any (fun to_sq => any_move_via b god wpos to_sq))

/-- `Board.check_state()`: +1 Gray wins, −1 Blue wins, 0 ongoing. -/
def check_state (b : Board) : Int :=
  let last_player := -b.turn
  if b.won then (if last_player = 1 then 1 else -1)
  else if b.last_move_height_diff ≤ -2
      && (if last_player = 1 then b.gods.1 else b.gods.2) == God.PAN then
    (if last_player = 1 then 1 else -1)
  else if !(player_has_any_valid_move b b.turn) then -b.turn
  else 0

/-- `_get_worker_index()`: the two squares of the side to move. -/
def get_worker_index (b : Board) : List Nat :=
  if b.turn = 1 then b.workers.take 2 else b.workers.drop 2

/-- `_get_build_sq(from_sq, to_sq)`. -/
def get_build_sq (b : Board) (from_sq to_sq : Nat) : List Nat :=
  (NEIGHBOURS to_sq).filter
    (fun bd => (is_free b bd || bd == from_sq) && bd ≠ to_sq)

/-- `_generate_moves_athena`. -/
def generate_moves_athena (b : Board) : List MoveKind :=
  (get_worker_index b).flatMap (fun f =>
    ((NEIGHBOURS f).filter
        (fun t => is_free b t && b.blockAt t - b.blockAt f ≤ 1)).flatMap
      (fun t => (get_build_sq b f t).map (fun bd => MoveKind.athena f t bd)))

/-- `_generate_moves_apollo`. -/
def generate_moves_apollo (b : Board) : List MoveKind :=
  (get_worker_index b).flatMap (fun f =>
    (NEIGHBOURS f).flatMap (fun t =>
      let occupant := which_worker_is_here b t
      if b.blockAt t == 4
          || (occupant.isSome && !(is_opponent_worker b occupant))
          || b.blockAt t - b.blockAt f > 1 then []
      else
        ((NEIGHBOURS t).filter (fun bd =>
            (if bd = f then occupant == none && !(b.blockAt bd == 4)
             else is_free b bd) && bd ≠ t)).map
          (fun bd => MoveKind.apollo f t bd)))

/-- `_generate_moves_artemis`. -/
def generate_moves_artemis (b : Board) : List MoveKind :=
  (get_worker_index b).flatMap (fun f =>
    ((NEIGHBOURS f).filter
        (fun t => is_free b t && b.blockAt t - b.blockAt f ≤ 1)).flatMap
      (fun t =>
        (get_build_sq b f t).map (fun bd => MoveKind.artemis f t bd none)
          ++ ((NEIGHBOURS t).filter (fun s2 =>
                is_free b s2 && b.blockAt s2 - b.blockAt t ≤ 1 && s2 ≠ f)).flatMap
            (fun s2 => (get_build_sq b f s2).map
              (fun bd => MoveKind.artemis f s2 bd (some t)))))

/-- `_generate_moves_atlas`. -/
def generate_moves_atlas (b : Board) : List MoveKind :=
  (get_worker_index b).flatMap (fun f =>
    ((NEIGHBOURS f).filter
        (fun t => is_free b t && b.blockAt t - b.blockAt f ≤ 1)).flatMap
      (fun t => (get_build_sq b f t).flatMap (fun bd =>
        let from_h := b.blockAt bd
        MoveKind.atlas f t bd false (some from_h)
          :: if !(b.blockAt bd == 4) then [MoveKind.atlas f t bd true (some from_h)]
             else [])))

/-- `_generate_moves_demeter` (note: the build pair ranges over the full
square of the build list, so unordered pairs occur in both orders). -/
def generate_moves_demeter (b : Board) : List MoveKind :=
  (get_worker_index b).flatMap (fun f =>
    ((NEIGHBOURS f).filter
        (fun t => is_free b t && b.blockAt t - b.blockAt f ≤ 1)).flatMap
      (fun t =>
        let builds := get_build_sq b f t
        builds.flatMap (fun b1 => builds.map (fun b2 =>
          if b1 = b2 then MoveKind.demeter f t b1 none
          else MoveKind.demeter f t b1 (some b2)))))

/-- `_generate_moves_hephaestus`. -/
def generate_moves_hephaestus (b : Board) : List MoveKind :=
  (get_worker_index b).flatMap (fun f =>
    ((NEIGHBOURS f).filter
        (fun t => is_free b t && b.blockAt t - b.blockAt f ≤ 1)).flatMap
      (fun t => (get_build_sq b f t).flatMap (fun bd =>
        [MoveKind.hephaestus f t bd none, MoveKind.hephaestus f t bd (some bd)])))

/-- `_generate_moves_pan`. -/
def generate_moves_pan (b : Board) : List MoveKind :=
  (get_worker_index b).flatMap (fun f =>
    ((NEIGHBOURS f).filter
        (fun t => is_free b t && b.blockAt t - b.blockAt f ≤ 1)).flatMap
      (fun t => (get_build_sq b f t).map (fun bd => MoveKind.pan f t bd)))

/-- the neighbour scan of one popped entry of `_generate_moves_hermes`'s
depth-first walk: returns the moves it emits, the new stack entries in
encounter order, and the updated visited set. -/
def hermes_expand (b : Board) (f : Nat) (from_h : Int) (path visited : List Nat) :
    List Nat → (List MoveKind × List (Nat × List Nat) × List Nat)
  | [] => ([], [], visited)
  | nei :: rest =>
    if visited.contains nei || path.contains nei || !(is_free b nei)
        || b.blockAt nei != from_h then
      hermes_expand b f from_h path visited rest
    else
      let new_path := path ++ [nei]
      let emitted := (get_build_sq b f nei).map
        (fun bd => MoveKind.hermes f new_path.tail bd)
      let (ems, pushes, vis) := hermes_expand b f from_h path (nei :: visited) rest
      (emitted ++ ems, (nei, new_path) :: pushes, vis)

/-- the stack loop of `_generate_moves_hermes`'s depth-first walk.  A square
enters the stack at most once (the visited set guards every push), so at most
26 entries are ever popped; fuel 64 therefore never runs out. -/
def hermes_dfs (b : Board) (f : Nat) (from_h : Int) :
    Nat → List Nat → List (Nat × List Nat) → List MoveKind
  | 0, _, _ => []
  | _ + 1, _, [] => []
  | fuel + 1, visited, (cur, path) :: rest =>
    let (ems, pushes, vis) := hermes_expand b f from_h path visited (NEIGHBOURS cur)
    ems ++ hermes_dfs b f from_h fuel vis (pushes.reverse ++ rest)

/-- `_generate_moves_hermes`: single steps, the no-move option, and the
multi-step walks over squares at the starting height. -/
def generate_moves_hermes (b : Board) : List MoveKind :=
  (get_worker_index b).flatMap (fun f =>
    let from_h := b.blockAt f
    ((NEIGHBOURS f).filter
        (fun t => is_free b t && b.blockAt t - from_h ≤ 1)).flatMap
      (fun t => (get_build_sq b f t).map (fun bd => MoveKind.hermes f [t] bd))
    ++ (get_build_sq b f f).map (fun bd => MoveKind.hermes f [] bd)
    ++ hermes_dfs b f from_h 64 [] [(f, [f])])

/-- `_generate_moves_minotaur`. -/
def generate_moves_minotaur (b : Board) : List MoveKind :=
  (get_worker_index b).flatMap (fun f =>
    let from_h := b.blockAt f
    (NEIGHBOURS f).flatMap (fun t =>
      let occupant := which_worker_is_here b t
      if occupant.isSome && !(is_opponent_worker b occupant) then []
      else if b.blockAt t == 4 || b.blockAt t - from_h > 1 then []
      else
        let push : Option Nat :=
          if occupant.isSome && is_opponent_worker b occupant then
            calculate_push_square f t
          else none
        if occupant.isSome && is_opponent_worker b occupant then
          match push with
          | none => []
          | some p =>
            if !(is_free b p) || b.blockAt p == 4 then []
            else
              ((get_build_sq b f t).filter (fun bd => !(p == bd))).map
                (fun bd => MoveKind.minotaur f t bd true)
        else
          (get_build_sq b f t).map (fun bd => MoveKind.minotaur f t bd false)))

/-- `_generate_moves_prometheus`. -/
def generate_moves_prometheus (b : Board) : List MoveKind :=
  (get_worker_index b).flatMap (fun f =>
    let from_h := b.blockAt f
    ((NEIGHBOURS f).filter
        (fun t => is_free b t && b.blockAt t - from_h ≤ 1)).flatMap
      (fun t => (get_build_sq b f t).map (fun bd => MoveKind.prometheus f t bd none))
    ++ ((get_build_sq b f f).filter (fun ob => !(b.blockAt ob == 4))).flatMap
      (fun ob =>
        ((NEIGHBOURS f).filter
            (fun t => is_free b t && !(b.blockAt t > from_h))).flatMap
          (fun t =>
            ((get_build_sq b f t).filter
                (fun bd => !(b.blockAt bd == 3 && bd = ob))).map
              (fun bd => MoveKind.prometheus f t bd (some ob)))))

/-- the god dispatch of `Board.generate_moves()` (the `raw_moves` list). -/
def generate_moves_raw (b : Board) : List MoveKind :=
  match (if b.turn = 1 then b.gods.1 else b.gods.2) with
  | .APOLLO => generate_moves_apollo b
  | .ARTEMIS => generate_moves_artemis b
  | .ATHENA => generate_moves_athena b
  | .ATLAS => generate_moves_atlas b
  | .DEMETER => generate_moves_demeter b
  | .HEPHAESTUS => generate_moves_hephaestus b
  | .HERMES => generate_moves_hermes b
  | .MINOTAUR => generate_moves_minotaur b
  | .PAN => generate_moves_pan b
  | .PROMETHEUS => generate_moves_prometheus b

/-- `Board.generate_moves()`: god dispatch, legality filter, and the
`had_athena_flag` stamp. -/
def generate_moves (b : Board) : List Move :=
  ((generate_moves_raw b).filter (fun k => move_is_valid b ⟨k, false⟩)).map
    (fun k => ⟨k, b.prevent_up_next_turn⟩)

/-! ### Position parsing (`Board.parse_position`) -/

/-- Python `int(c)` on a single ASCII character: a decimal digit `'0'..'9'`,
else an error.  Python's `int` additionally accepts non-ASCII Unicode decimal
digits (for example `int('４') = 4`), which this ASCII table omits, so the
embedding agrees with the source exactly on ASCII characters; the
parser-format theorem below is therefore stated for ASCII strings only. -/
def charDigit? (c : Char) : Option Nat :=
  if '0' ≤ c && c ≤ '9' then some (c.toNat - '0'.toNat) else none

/-- The parsing state while scanning the 25 (height, worker) pairs:
blocks so far, worker slots so far, gray count, blue count. -/
abbrev ParseSt := List Int × List Nat × Nat × Nat

/-- One iteration of the `for i in range(25)` loop of `parse_position`. -/
def parse_one (cs : List Char) (i : Nat) : ParseSt → Except String ParseSt :=
  fun (blocks, workers, ng, nb) =>
    match charDigit? (cs.getD (2 * i) ' ') with
    | none => throw "invalid literal for int"
    | some h =>
      if h > 4 then throw "Invalid block height"
      else
        let blocks := blocks.set i (h : Int)
        let wc := cs.getD (2 * i + 1) ' '
        if wc = 'G' then
          if ng ≥ 2 then throw "Invalid position: More than 2 gray workers found"
          else pure (blocks, workers.set ng i, ng + 1, nb)
        else if wc = 'B' then
          if nb ≥ 2 then throw "Invalid position: More than 2 blue workers found"
          else pure (blocks, workers.set (2 + nb) i, ng, nb + 1)
        else if wc = 'N' then pure (blocks, workers, ng, nb)
        else throw "Invalid worker code"

/-- The square-scanning loop, squares `i, i+1, ...` for `count` steps. -/
def parse_squares (cs : List Char) : Nat → Nat → ParseSt → Except String ParseSt
  | _, 0, st => pure st
  | i, count + 1, st => do
    let st' ← parse_one cs i st
    parse_squares cs (i + 1) count st'

/-- `God(int(c))` of `parse_position`: a digit naming a god, else an error
(the Python `except` re-raises with the "Invalid god indices" message). -/
def parse_god (c : Char) : Except String God :=
  match charDigit? c with
  | none => Except.error "Invalid god indices"
  | some v =>
    match God.ofNat? v with
    | none => Except.error "Invalid god indices"
    | some g => Except.ok g

/-- `Board.parse_position` composed with the `Board.__init__` defaults: parse
a 54-character position string into a board.  Note that the final
(athena-flag) character is compared against `'1'` with no `else` branch, so
any other character is accepted and leaves the flag false. -/
def parse_position (cs : List Char) : Except String Board := do
  if cs.length ≠ 54 then throw "Invalid position: Expected length 54"
  else do
    let (blocks, workers, ng, nb) ←
      parse_squares cs 0 25 (List.replicate 25 (0 : Int), List.replicate 4 0, 0, 0)
    if ng ≠ 2 || nb ≠ 2 then throw "Invalid worker count"
    else do
      let turn : Int ←
        if cs.getD 50 ' ' = '0' then pure 1
        else if cs.getD 50 ' ' = '1' then pure (-1)
        else throw "Invalid turn"
      let g0 ← parse_god (cs.getD 51 ' ')
      let g1 ← parse_god (cs.getD 52 ' ')
      let flag := cs.getD 53 ' ' == '1'
      pure ⟨blocks, workers, turn, (g0, g1), flag, 0, false⟩

/-! ### Static evaluation (`evaluate.py`) and search (`search.py`) -/

/-- `POS_GAPS` of `evaluate.py` (the last row really ends `0,1,2,1,2`). -/
def POS_GAPS : List Int :=
  [0, 1, 2, 1, 0,
   1, 2, 3, 2, 1,
   2, 3, 4, 3, 2,
   1, 2, 3, 2, 1,
   0, 1, 2, 1, 2]

/-- `PARAMS.posScore` with `centrality_gap = 20`. -/
def posScore : List Int := POS_GAPS.map (fun x => 20 * x)

/-- `PARAMS.heightScore` with `h2_gap = 250`. -/
def heightScore : List Int := [0, 100, 250 + 100, 250 + 50]

/-- `PARAMS.sameHeightSupport` with `sh1 = 60, sh2 = 30`. -/
def sameHeightSupport : List Int := [0, 60, 60 + 30]

/-- `PARAMS.nextHeightSupport` with `nh1 = 80, nh2 = 40`. -/
def nextHeightSupport : List Int := [0, 80, 80 + 40]

/-- `PARAMS.prevHeightSupport` with `ph1 = 20, ph2 = 10` (inverted scoring). -/
def prevHeightSupport : List Int := [0, 10, 20 + 10]

/-- `PARAMS.nextNextHeightSupport` with `nn1 = 25, nn2 = 15`. -/
def nextNextHeightSupport : List Int := [0, 15, 25 + 15]

/-- The neighbour scan of `score_worker`: counts of free neighbours at the
same height, one above, one below, and two above. -/
def support_counts (b : Board) (height : Int) : List Nat → Nat × Nat × Nat × Nat
  | [] => (0, 0, 0, 0)
  | n :: rest =>
    let (s, nx, pv, nn) := support_counts b height rest
    if is_free b n then
      let h := b.blockAt n
      if h == height then (s + 1, nx, pv, nn)
      else if h == height + 1 then (s, nx + 1, pv, nn)
      else if h == height - 1 then (s, nx, pv + 1, nn)
      else if h == height + 2 then (s, nx, pv, nn + 1)
      else (s, nx, pv, nn)
    else (s, nx, pv, nn)

/-- `score_worker` inside `score_position` (with the default `PARAMS`). -/
def score_worker (b : Board) (worker_pos : Nat) : Int :=
  let square := b.workerAt worker_pos
  let height := b.blockAt square
  let p_score := posScore.getD square 0
  let h_score := heightScore.getD height.toNat 0
  let (s0, n0, p0, nn0) := support_counts b height (NEIGHBOURS square)
  let same_h := min s0 2
  let next_h := min n0 2
  let prev_h : Nat :=
    if height ≠ 0 then
      if same_h = 0 then min p0 2
      else if same_h = 1 then (if p0 ≥ 1 then 1 else 0)
      else 0
    else 0
  let same_h := if height = 0 then 0 else same_h
  let next_next_h : Nat :=
    if height < 2 then
      if next_h = 0 then min nn0 2
      else if next_h = 1 then (if nn0 ≥ 1 then 1 else 0)
      else 0
    else 0
  let support := sameHeightSupport.getD same_h 0 + nextHeightSupport.getD next_h 0
    + prevHeightSupport.getD prev_h 0 + nextNextHeightSupport.getD next_next_h 0
  p_score + h_score + support

/-- `score_position(board)` with the default parameters (`TEMPO = 50`). -/
def score_position (b : Board) : Int :=
  let tempo_score : Int := if b.turn = 1 then 50 else 0
  score_worker b 0 + score_worker b 1 - score_worker b 2 - score_worker b 3
    + tempo_score

/-- `search.py`'s `evaluate(board)`: the static score times the side to move. -/
def evaluate (b : Board) : Int := score_position b * b.turn

/-- `MATE` of `search.py`. -/
def MATE : Int := 10000

/-- `numDoubleNeighbors` of `search.py`. -/
def numDoubleNeighbors : List Int :=
  [9, 12, 15, 12, 9,
   12, 16, 20, 16, 12,
   15, 20, 25, 20, 15,
   12, 16, 20, 16, 12,
   9, 12, 15, 12, 9]

/-- `score_moves(moves, board)`: pair every move with its ordering score. -/
def score_moves (b : Board) (moves : List Move) : List (Move × Int) :=
  moves.map (fun mv =>
    (mv, (b.blockAt mv.kind.final_sq - b.blockAt mv.kind.from_sq) * 10
      + (numDoubleNeighbors.getD mv.kind.final_sq 0
          - numDoubleNeighbors.getD mv.kind.from_sq 0)))

/-- index of the first maximum of a score list (`pick_move`'s scan uses a
strict comparison, so the earliest maximum wins). -/
def first_max_idx (l : List Int) : Nat :=
  match l with
  | [] => 0
  | x :: xs => go xs x 0 1
where
  go : List Int → Int → Nat → Nat → Nat
    | [], _, bi, _ => bi
    | y :: ys, bs, bi, i =>
      if y > bs then go ys y i (i + 1) else go ys bs bi (i + 1)

/-- `pick_move`'s swap of positions `0` and `j` of the move array. -/
def swap_front (l : List (Move × Int)) (j : Nat) : List (Move × Int) :=
  match l with
  | [] => []
  | x :: _ =>
    match l.get? j with
    | some y => (l.set 0 y).set j x
    | none => l

/-- The visit order produced by repeatedly applying `pick_move` at positions
`0, 1, 2, …` of the (mutable) move array, as a list (fuel is the array
length, so it never runs out). -/
def sel_sort : Nat → List (Move × Int) → List (Move × Int)
  | 0, _ => []
  | _ + 1, [] => []
  | fuel + 1, l =>
    match swap_front l (first_max_idx (l.map (·.2))) with
    | [] => []
    | x :: rest => x :: sel_sort fuel rest

/-- The `for i in range(len(moves))` loop of `search`, threading the board
through make/unmake exactly as the mutable code does.  `rec` is the
recursive call at `depth − 1`. -/
def search_loop (rec : Board → Int → Int → Except String Int) (b : Board) :
    List (Move × Int) → Int → Int → Int → Except String Int
  | [], alpha, _, _ => pure alpha
  | (mv, _) :: rest, alpha, beta, max_score => do
    let b' ← make_move b mv
    let s ← rec b' (-beta) (-alpha)
    let curr := -s
    let b2 ← unmake_move b' mv
    if curr > max_score then
      if curr > alpha then
        if curr ≥ beta then pure beta
        else search_loop rec b2 rest curr beta curr
      else search_loop rec b2 rest alpha beta curr
    else search_loop rec b2 rest alpha beta max_score

/-- `search(search_info, depth, alpha, beta)` of `search.py`, with the time
management modelled as a never-expiring clock (the node counter and the
`end_time` check only ever abort the search, and the claims under scrutiny
concern the value returned when no abort happens; `bestMove` bookkeeping is
likewise score-irrelevant). -/
def search (depth : Nat) (b : Board) (alpha beta : Int) : Except String Int :=
  if check_state b ≠ 0 then pure (evaluate b)
  else
    match depth with
    | 0 => pure (evaluate b)
    | d + 1 =>
      let moves := generate_moves b
      if moves.isEmpty then pure (-MATE - ((d : Int) + 1))
      else
        let scored := score_moves b moves
        search_loop (search d) b (sel_sort scored.length scored) alpha beta
          (-MATE * 100)

/-! ### List helpers for `getD` and `set` -/

theorem getD_set_self {α : Type} (l : List α) (i : Nat) (v d : α)
    (h : i < l.length) : (l.set i v).getD i d = v := by
  simp [List.getD_eq_getElem?_getD, List.getElem?_set_self h]

theorem getD_set_ne {α : Type} (l : List α) {i j : Nat} (v d : α) (h : i ≠ j) :
    (l.set i v).getD j d = l.getD j d := by
  simp [List.getD_eq_getElem?_getD, List.getElem?_set_ne h]

theorem set_getD_self {α : Type} (l : List α) (i : Nat) (d : α)
    (h : i < l.length) : l.set i (l.getD i d) = l := by
  have he : l.getD i d = l[i] := by
    simp [List.getD_eq_getElem?_getD, List.getElem?_eq_getElem h]
  rw [he]
  apply List.ext_getElem?
  intro j
  by_cases hij : i = j
  · subst hij
    rw [List.getElem?_set_self h]
    exact (List.getElem?_eq_getElem h).symm
  · rw [List.getElem?_set_ne hij]

theorem getD_mem {l : List Nat} {j : Nat} (h : j < l.length) : l.getD j 0 ∈ l := by
  rw [List.getD_eq_getElem?_getD, List.getElem?_eq_getElem h]
  exact List.getElem_mem h

theorem nodup_getD_ne {ws : List Nat} (hnd : ws.Nodup) {i j : Nat}
    (hi : i < ws.length) (hj : j < ws.length) (hij : i ≠ j) :
    ws.getD i 0 ≠ ws.getD j 0 := by
  rw [List.getD_eq_getElem?_getD, List.getD_eq_getElem?_getD,
    List.getElem?_eq_getElem hi, List.getElem?_eq_getElem hj]
  simpa using fun he => hij ((hnd.getElem_inj_iff).mp he)

/-! ### Small `Except` helpers -/

theorem except_pure {α : Type} (a : α) : (pure a : Except String α) = Except.ok a := rfl

theorem except_throw {α : Type} (e : String) :
    (throw e : Except String α) = Except.error e := rfl

theorem except_bind_ok {α β : Type} (a : α) (f : α → Except String β) :
    (Except.ok a >>= f) = f a := rfl

theorem except_bind_error {α β : Type} (e : String) (f : α → Except String β) :
    ((Except.error e : Except String α) >>= f) = Except.error e := rfl

theorem except_ok_of_toOption {α : Type} {e : Except String α} {a : α}
    (h : e.toOption = some a) : e = Except.ok a := by
  cases e with
  | error err => simp [Except.toOption] at h
  | ok v => simp [Except.toOption] at h; rw [h]

/-! ### Board invariants -/

/-- The board invariants of the spec (§3): 25 heights in `[0,4]`, four
workers on four distinct on-board squares, none standing on a dome, and the
side to move is `±1`. -/
def board_wf (b : Board) : Prop :=
  b.blocks.length = 25 ∧ b.workers.length = 4 ∧
    (∀ h ∈ b.blocks, 0 ≤ h ∧ h ≤ 4) ∧ b.workers.Nodup ∧
    (∀ w ∈ b.workers, w < 25 ∧ b.blockAt w ≤ 3) ∧
    (b.turn = 1 ∨ b.turn = -1)

instance (b : Board) : Decidable (board_wf b) := by
  unfold board_wf; infer_instance

/-! ### Basic facts about the adjacency table and workers -/

theorem kingAdj_iff {a b : Nat} :
    kingAdj a b = true ↔
      a ≠ b ∧ ((a / 5 : Int) - (b / 5 : Int)).natAbs ≤ 1
        ∧ ((a % 5 : Int) - (b % 5 : Int)).natAbs ≤ 1 := by
  simp [kingAdj, and_assoc]

theorem natAbs_sub_comm (a b : Int) : (a - b).natAbs = (b - a).natAbs := by
  rw [← Int.natAbs_neg, neg_sub]

theorem mem_NEIGHBOURS {a n : Nat} :
    n ∈ NEIGHBOURS a ↔ n < 25 ∧ kingAdj a n = true := by
  simp [NEIGHBOURS, List.mem_filter]

theorem NEIGHBOURS_lt25 {a n : Nat} (h : n ∈ NEIGHBOURS a) : n < 25 :=
  (mem_NEIGHBOURS.mp h).1

theorem NEIGHBOURS_ne {a n : Nat} (h : n ∈ NEIGHBOURS a) : n ≠ a :=
  fun he => ((kingAdj_iff.mp (mem_NEIGHBOURS.mp h).2).1 he.symm)

theorem NEIGHBOURS_symm {a n : Nat} (ha : a < 25) (h : n ∈ NEIGHBOURS a) :
    a ∈ NEIGHBOURS n := by
  obtain ⟨hn, hk⟩ := mem_NEIGHBOURS.mp h
  obtain ⟨hne, h1, h2⟩ := kingAdj_iff.mp hk
  exact mem_NEIGHBOURS.mpr ⟨ha, kingAdj_iff.mpr
    ⟨fun he => hne he.symm, by rw [natAbs_sub_comm]; exact h1,
      by rw [natAbs_sub_comm]; exact h2⟩⟩

theorem which_worker_none_iff {b : Board} {sq : Nat} :
    which_worker_is_here b sq = none ↔ sq ∉ b.workers := by
  simp [which_worker_is_here, List.findIdx?_eq_none_iff]
  constructor
  · intro h hm; exact absurd rfl (h sq hm)
  · intro h x hx he; exact h (he ▸ hx)

theorem which_worker_isSome_iff {b : Board} {sq : Nat} :
    (which_worker_is_here b sq).isSome ↔ sq ∈ b.workers := by
  rcases hw : which_worker_is_here b sq with _ | i
  · simpa using which_worker_none_iff.mp hw
  · simp only [Option.isSome_some, true_iff]
    have := List.findIdx?_eq_some_iff_getElem.mp hw
    obtain ⟨hlt, hp, _⟩ := this
    have : b.workers[i] = sq := by simpa using hp
    exact this ▸ List.getElem_mem hlt

theorem which_worker_spec {b : Board} {sq : Nat} {i : Nat}
    (h : which_worker_is_here b sq = some i) :
    i < b.workers.length ∧ b.workers.getD i 0 = sq ∧
      ∀ j < i, b.workers.getD j 0 ≠ sq := by
  obtain ⟨hlt, hp, hmin⟩ := List.findIdx?_eq_some_iff_getElem.mp h
  refine ⟨hlt, ?_, ?_⟩
  · simp only [List.getD_eq_getElem?_getD, List.getElem?_eq_getElem hlt]
    simpa using hp
  · intro j hj
    have hjl : j < b.workers.length := lt_trans hj hlt
    have := hmin j hj
    simp only [List.getD_eq_getElem?_getD, List.getElem?_eq_getElem hjl]
    simpa using this

/-! ### Facts about the board mutators -/

@[simp] theorem inc_block_workers (b : Board) (sq : Nat) :
    (inc_block b sq).workers = b.workers := rfl
@[simp] theorem inc_block_turn (b : Board) (sq : Nat) :
    (inc_block b sq).turn = b.turn := rfl
@[simp] theorem inc_block_gods (b : Board) (sq : Nat) :
    (inc_block b sq).gods = b.gods := rfl
@[simp] theorem inc_block_flag (b : Board) (sq : Nat) :
    (inc_block b sq).prevent_up_next_turn = b.prevent_up_next_turn := rfl
@[simp] theorem inc_block_diff (b : Board) (sq : Nat) :
    (inc_block b sq).last_move_height_diff = b.last_move_height_diff := rfl
@[simp] theorem inc_block_won (b : Board) (sq : Nat) :
    (inc_block b sq).won = b.won := rfl
@[simp] theorem inc_block_blocks (b : Board) (sq : Nat) :
    (inc_block b sq).blocks = b.blocks.set sq (b.blockAt sq + 1) := rfl

@[simp] theorem dec_block_workers (b : Board) (sq : Nat) :
    (dec_block b sq).workers = b.workers := rfl
@[simp] theorem dec_block_turn (b : Board) (sq : Nat) :
    (dec_block b sq).turn = b.turn := rfl
@[simp] theorem dec_block_flag (b : Board) (sq : Nat) :
    (dec_block b sq).prevent_up_next_turn = b.prevent_up_next_turn := rfl
@[simp] theorem dec_block_diff (b : Board) (sq : Nat) :
    (dec_block b sq).last_move_height_diff = b.last_move_height_diff := rfl
@[simp] theorem dec_block_won (b : Board) (sq : Nat) :
    (dec_block b sq).won = b.won := rfl
@[simp] theorem dec_block_blocks (b : Board) (sq : Nat) :
    (dec_block b sq).blocks = b.blocks.set sq (b.blockAt sq - 1) := rfl

@[simp] theorem set_block_workers (b : Board) (sq : Nat) (v : Int) :
    (set_block b sq v).workers = b.workers := rfl
@[simp] theorem set_block_blocks (b : Board) (sq : Nat) (v : Int) :
    (set_block b sq v).blocks = b.blocks.set sq v := rfl

@[simp] theorem move_worker_blocks (b : Board) (f t : Nat) :
    (move_worker b f t).blocks = b.blocks := rfl
@[simp] theorem move_worker_turn (b : Board) (f t : Nat) :
    (move_worker b f t).turn = b.turn := rfl
@[simp] theorem move_worker_workers (b : Board) (f t : Nat) :
    (move_worker b f t).workers = move_worker_list b.workers f t := rfl
@[simp] theorem move_worker_flag (b : Board) (f t : Nat) :
    (move_worker b f t).prevent_up_next_turn = b.prevent_up_next_turn := rfl
@[simp] theorem move_worker_diff (b : Board) (f t : Nat) :
    (move_worker b f t).last_move_height_diff = b.last_move_height_diff := rfl
@[simp] theorem move_worker_won (b : Board) (f t : Nat) :
    (move_worker b f t).won = b.won := rfl
@[simp] theorem move_worker_gods (b : Board) (f t : Nat) :
    (move_worker b f t).gods = b.gods := rfl

theorem blockAt_set_self {b : Board} {sq : Nat} (v : Int)
    (h : sq < b.blocks.length) : (set_block b sq v).blockAt sq = v :=
  getD_set_self _ _ _ _ h

theorem blockAt_set_ne {b : Board} {sq j : Nat} (v : Int) (h : sq ≠ j) :
    (set_block b sq v).blockAt j = b.blockAt j :=
  getD_set_ne _ _ _ h

theorem dec_inc_blocks {b : Board} {sq : Nat} (h : sq < b.blocks.length) :
    (b.blocks.set sq (b.blockAt sq + 1)).set sq
        ((b.blocks.set sq (b.blockAt sq + 1)).getD sq 0 - 1) = b.blocks := by
  rw [getD_set_self _ _ _ _ h, List.set_set]
  have : b.blockAt sq + 1 - 1 = b.blockAt sq := by ring
  rw [this]
  exact set_getD_self b.blocks sq 0 h

/-- `_move_worker` replaces the first occurrence of `from_sq`; under
`Nodup` this is `set` at the slot holding it. -/
theorem move_worker_list_eq_set {ws : List Nat} {f : Nat} (t : Nat) {j : Nat}
    (hj : j < ws.length) (hw : ws.getD j 0 = f) (hnd : ws.Nodup) :
    move_worker_list ws f t = ws.set j t := by
  induction ws generalizing j with
  | nil => simp at hj
  | cons w rest ih =>
    cases j with
    | zero =>
      have : w = f := by simpa using hw
      unfold move_worker_list
      rw [if_pos this]
      rfl
    | succ n =>
      have hn : n < rest.length := by simpa using hj
      have hf : f ∈ rest := by
        have := getD_mem hn
        rwa [show rest.getD n 0 = f from by simpa using hw] at this
      have hwne : w ≠ f := fun he => (List.nodup_cons.mp hnd).1 (he ▸ hf)
      unfold move_worker_list
      rw [if_neg hwne, ih hn (by simpa using hw) (List.nodup_cons.mp hnd).2]
      rfl

/-- `move.from_sq` does belong to a slot of the current player. -/
theorem belongs_slot {b : Board} {f : Nat}
    (hbel : worker_belongs_to_current_player b f = true) :
    ∃ j, j < 4 ∧ b.workers.getD j 0 = f ∧
      ((b.turn = 1 ∧ (j = 0 ∨ j = 1)) ∨ (b.turn ≠ 1 ∧ (j = 2 ∨ j = 3))) := by
  unfold worker_belongs_to_current_player at hbel
  by_cases ht : b.turn = 1
  · rw [if_pos ht] at hbel
    rcases (by simpa using hbel : f = b.workerAt 0 ∨ f = b.workerAt 1) with h | h
    · exact ⟨0, by omega, h.symm, Or.inl ⟨ht, Or.inl rfl⟩⟩
    · exact ⟨1, by omega, h.symm, Or.inl ⟨ht, Or.inr rfl⟩⟩
  · rw [if_neg ht] at hbel
    rcases (by simpa using hbel : f = b.workerAt 2 ∨ f = b.workerAt 3) with h | h
    · exact ⟨2, by omega, h.symm, Or.inr ⟨ht, Or.inl rfl⟩⟩
    · exact ⟨3, by omega, h.symm, Or.inr ⟨ht, Or.inr rfl⟩⟩

/-- `_find_active_worker_undo` returns the slot `j` when the square `t` sits
in slot `j` only and belongs to the current player. -/
theorem find_active_eq {b : Board} {t : Nat} {j : Nat}
    (hj : j < 4) (hw : b.workerAt j = t)
    (huniq : ∀ i, i < 4 → i ≠ j → b.workerAt i ≠ t)
    (hbel : worker_belongs_to_current_player b t = true) :
    find_active_worker_undo b t = Except.ok j := by
  unfold find_active_worker_undo
  have hfind : (List.range 4).find?
      (fun i => b.workerAt i == t && worker_belongs_to_current_player b t) = some j := by
    have hr : List.range 4 = [0, 1, 2, 3] := by decide
    rw [hr]
    interval_cases j
    · simp [List.find?, hw, hbel]
    · have h0 : (b.workerAt 0 == t) = false :=
        beq_eq_false_iff_ne.mpr (huniq 0 (by omega) (by omega))
      simp [List.find?, hw, hbel, h0]
    · have h0 : (b.workerAt 0 == t) = false :=
        beq_eq_false_iff_ne.mpr (huniq 0 (by omega) (by omega))
      have h1 : (b.workerAt 1 == t) = false :=
        beq_eq_false_iff_ne.mpr (huniq 1 (by omega) (by omega))
      simp [List.find?, hw, hbel, h0, h1]
    · have h0 : (b.workerAt 0 == t) = false :=
        beq_eq_false_iff_ne.mpr (huniq 0 (by omega) (by omega))
      have h1 : (b.workerAt 1 == t) = false :=
        beq_eq_false_iff_ne.mpr (huniq 1 (by omega) (by omega))
      have h2 : (b.workerAt 2 == t) = false :=
        beq_eq_false_iff_ne.mpr (huniq 2 (by omega) (by omega))
      simp [List.find?, hw, hbel, h0, h1, h2]
  rw [hfind]
  rfl

/-! ### Decompositions of the validity predicates -/

theorem adj_ok_iff {f t : Nat} : adj_ok f t = true ↔ t ∈ NEIGHBOURS f := by
  simp [adj_ok]

theorem is_free_iff {b : Board} {sq : Nat} :
    is_free b sq = true ↔ sq ∉ b.workers ∧ b.blockAt sq < 4 := by
  simp [is_free]

theorem height_ok_iff {b : Board} {f t : Nat} :
    height_ok b f t = true ↔ b.blockAt t - b.blockAt f ≤ 1 := by
  simp [height_ok]

theorem build_ok_sq_iff {b : Board} {f t bd : Nat} :
    build_ok_sq b f t bd = true ↔
      bd ∈ NEIGHBOURS t ∧ t ≠ bd ∧ (f = bd ∨ is_free b bd = true) := by
  simp [build_ok_sq, and_assoc]

theorem move_checks_sq_iff {b : Board} {f t : Nat} :
    move_checks_sq b f t = true ↔
      b.blockAt t - b.blockAt f ≤ 1 ∧ t ∈ NEIGHBOURS f ∧ is_free b t = true := by
  simp [move_checks_sq, height_ok, adj_ok, and_assoc]

theorem complete_checks_sq_iff {b : Board} {f t bd : Nat} :
    complete_checks_sq b f t bd = true ↔
      move_checks_sq b f t = true ∧ build_ok_sq b f t bd = true := by
  simp [complete_checks_sq]

theorem move_is_valid_true {b : Board} {m : Move} :
    move_is_valid b m = true ↔
      god_move_match (current_god b) m.kind = true ∧
        worker_belongs_to_current_player b m.kind.from_sq = true ∧
        (b.prevent_up_next_turn && attempts_to_move_up b m.kind) = false ∧
        dispatch_valid b (current_god b) m.kind = true := by
  unfold move_is_valid
  by_cases h1 : god_move_match (current_god b) m.kind <;>
    by_cases h2 : worker_belongs_to_current_player b m.kind.from_sq <;>
    by_cases h3 : (b.prevent_up_next_turn && attempts_to_move_up b m.kind) = true <;>
    simp [h1, h2, h3]

/-! ### Worker-slot helpers for the apply/undo analysis -/

theorem mem_set_cases {ws : List Nat} {j : Nat} {v w : Nat}
    (hw : w ∈ ws.set j v) : w = v ∨ ∃ i, i < ws.length ∧ i ≠ j ∧ ws.getD i 0 = w := by
  obtain ⟨i, hi, hwi⟩ := List.mem_iff_getElem.mp hw
  by_cases hij : i = j
  · subst hij
    rw [List.getElem_set_self] at hwi
    exact Or.inl hwi.symm
  · right
    have hil : i < ws.length := by simpa using hi
    refine ⟨i, hil, hij, ?_⟩
    rw [List.getElem_set_ne (fun he => hij he.symm)] at hwi
    simp [List.getD_eq_getElem?_getD, List.getElem?_eq_getElem hil, hwi]

theorem getD_set_board {b : Board} {j : Nat} {v i : Nat} :
    (b.workers.set j v).getD i 0 = if j = i ∧ j < b.workers.length then v
      else b.workers.getD i 0 := by
  by_cases hji : j = i
  · subst hji
    by_cases hl : j < b.workers.length
    · simp [getD_set_self _ _ _ _ hl, hl]
    · have : b.workers.set j v = b.workers := List.set_eq_of_length_le (by omega)
      simp [this, hl]
  · simp [getD_set_ne _ _ _ hji, hji]

/-- decomposition of a successful `make_move` into its three stages. -/
theorem make_move_ok {b : Board} {m : Move} {b1 : Board}
    (h : make_move b m = Except.ok b1) :
    move_is_valid b m = true ∧
      ∃ b', make_move_for_god { b with last_move_height_diff := 0 }
          (current_god b) m.kind = Except.ok b' ∧
        b1 = { b' with
          prevent_up_next_turn :=
            (current_god b == God.ATHENA && decide (b'.last_move_height_diff > 0)),
          won := (decide (b'.blockAt m.kind.from_sq < b'.blockAt m.kind.final_sq)
            && (b'.blockAt m.kind.final_sq == 3)),
          turn := -b'.turn } := by
  unfold make_move at h
  by_cases hv : move_is_valid b m
  · rw [if_neg (by simp [hv])] at h
    dsimp only at h
    refine ⟨hv, ?_⟩
    cases hg : make_move_for_god { b with last_move_height_diff := 0 }
        (current_god b) m.kind with
    | error e =>
      rw [hg, except_bind_error] at h
      exact Except.noConfusion h
    | ok b' =>
      rw [hg, except_bind_ok] at h
      rw [except_pure] at h
      exact ⟨b', rfl, (Except.ok.inj h).symm⟩
  · rw [if_pos (by simp [hv]), except_throw] at h
    exact Except.noConfusion h

theorem workers_move_spec {b : Board} {f : Nat} (fin : Nat)
    (hlen : b.workers.length = 4) (hnd : b.workers.Nodup)
    (hbel : worker_belongs_to_current_player b f = true)
    (hfin : fin ∉ b.workers) :
    ∃ j, j < 4 ∧ b.workers.getD j 0 = f ∧
      ((b.turn = 1 ∧ (j = 0 ∨ j = 1)) ∨ (b.turn ≠ 1 ∧ (j = 2 ∨ j = 3))) ∧
      move_worker_list b.workers f fin = b.workers.set j fin ∧
      (b.workers.set j fin).Nodup := by
  obtain ⟨j, hj4, hgd, hside⟩ := belongs_slot hbel
  exact ⟨j, hj4, hgd, hside,
    move_worker_list_eq_set fin (hlen ▸ hj4) hgd hnd, hnd.set hfin⟩

/-- After the move, `_find_active_worker_undo` finds the moved worker and
setting it back restores the original workers list.  The board `c` is any
board whose workers are `ws.set j fin` and whose turn again matches the
mover's side. -/
theorem undo_worker_restore {c : Board} {ws : List Nat} {j f fin : Nat}
    (hws : c.workers = ws.set j fin)
    (hlen : ws.length = 4) (hj : j < 4)
    (hgd : ws.getD j 0 = f) (hfin : fin ∉ ws)
    (hside : (c.turn = 1 ∧ (j = 0 ∨ j = 1)) ∨ (c.turn ≠ 1 ∧ (j = 2 ∨ j = 3))) :
    find_active_worker_undo c fin = Except.ok j ∧ c.workers.set j f = ws := by
  have hjl : j < ws.length := hlen ▸ hj
  have hat : c.workerAt j = fin := by
    unfold Board.workerAt
    rw [hws]
    exact getD_set_self _ _ _ _ hjl
  have hother : ∀ i, i < 4 → i ≠ j → c.workerAt i ≠ fin := by
    intro i hi hij
    unfold Board.workerAt
    rw [hws, getD_set_ne _ _ _ (fun he => hij he.symm)]
    intro he
    exact hfin (he ▸ getD_mem (hlen ▸ hi))
  have hbel : worker_belongs_to_current_player c fin = true := by
    unfold worker_belongs_to_current_player
    rcases hside with ⟨ht, hj01⟩ | ⟨ht, hj23⟩
    · rw [if_pos ht]
      rcases hj01 with rfl | rfl
      · simp [hat.symm, Board.workerAt]
      · simp [hat.symm, Board.workerAt]
    · rw [if_neg ht]
      rcases hj23 with rfl | rfl
      · simp [hat.symm, Board.workerAt]
      · simp [hat.symm, Board.workerAt]
  refine ⟨find_active_eq hj hat hother hbel, ?_⟩
  rw [hws, List.set_set]
  exact hgd ▸ set_getD_self ws j 0 hjl

theorem heights_after_set {b' : Board} {ws : List Nat} {j fin : Nat}
    (hws : b'.workers = ws.set j fin) (hlen : ws.length = 4)
    (hfin : b'.blockAt fin ≤ 3)
    (hothers : ∀ i, i < 4 → i ≠ j → b'.blockAt (ws.getD i 0) ≤ 3) :
    ∀ w ∈ b'.workers, b'.blockAt w ≤ 3 := by
  intro w hw
  rw [hws] at hw
  rcases mem_set_cases hw with rfl | ⟨i, hi, hij, hiw⟩
  · exact hfin
  · exact hiw ▸ hothers i (hlen ▸ hi) hij

theorem blockAt_after_build {b' b : Board} {bd x : Nat} {v : Int}
    (hbl : b'.blocks = b.blocks.set bd v) (hne : bd ≠ x) :
    b'.blockAt x = b.blockAt x := by
  unfold Board.blockAt
  rw [hbl]
  exact getD_set_ne _ _ _ hne

theorem blockAt_le3_of_mem {b : Board}
    (hwk : ∀ w ∈ b.workers, w < 25 ∧ b.blockAt w ≤ 3) {i : Nat}
    (hi : i < b.workers.length) : b.blockAt (b.workers.getD i 0) ≤ 3 :=
  (hwk _ (getD_mem hi)).2

theorem moved_invariants {b b' : Board} {f fin : Nat}
    (hwf : board_wf b)
    (hbel : worker_belongs_to_current_player b f = true)
    (hfin_nw : fin ∉ b.workers)
    (hws : b'.workers = move_worker_list b.workers f fin)
    (hfinle : b'.blockAt fin ≤ 3)
    (hkeep : ∀ x, x ∈ b.workers → x ≠ f → b'.blockAt x = b.blockAt x) :
    b'.workers.Nodup ∧ ∀ w ∈ b'.workers, b'.blockAt w ≤ 3 := by
  obtain ⟨hb25, hw4, hblocks, hnd, hwk, hturn⟩ := hwf
  obtain ⟨j, hj4, hgd, hside, hmwl, hnd'⟩ := workers_move_spec fin hw4 hnd hbel hfin_nw
  refine ⟨by rw [hws, hmwl]; exact hnd', ?_⟩
  refine heights_after_set (hws.trans hmwl) hw4 hfinle ?_
  intro i hi hij
  have hmem : b.workers.getD i 0 ∈ b.workers := getD_mem (hw4 ▸ hi)
  have hne : b.workers.getD i 0 ≠ f :=
    hgd ▸ nodup_getD_ne hnd (hw4 ▸ hi) (hw4 ▸ hj4) hij
  rw [hkeep _ hmem hne]
  exact (hwk _ hmem).2

@[simp] theorem reset_diff_workers (b : Board) (v : Int) :
    ({ b with last_move_height_diff := v } : Board).workers = b.workers := rfl
@[simp] theorem reset_diff_blocks (b : Board) (v : Int) :
    ({ b with last_move_height_diff := v } : Board).blocks = b.blocks := rfl
@[simp] theorem reset_diff_turn (b : Board) (v : Int) :
    ({ b with last_move_height_diff := v } : Board).turn = b.turn := rfl
@[simp] theorem reset_diff_gods (b : Board) (v : Int) :
    ({ b with last_move_height_diff := v } : Board).gods = b.gods := rfl
@[simp] theorem reset_diff_flag (b : Board) (v : Int) :
    ({ b with last_move_height_diff := v } : Board).prevent_up_next_turn
      = b.prevent_up_next_turn := rfl
@[simp] theorem reset_diff_won (b : Board) (v : Int) :
    ({ b with last_move_height_diff := v } : Board).won = b.won := rfl
@[simp] theorem reset_diff_blockAt (b : Board) (v : Int) (x : Nat) :
    ({ b with last_move_height_diff := v } : Board).blockAt x = b.blockAt x := rfl

/-! ### Record forms of the pure god applies -/

theorem athena_make_move_eq (c : Board) (f t bd : Nat) :
    athena_make_move c f t bd =
      { c with workers := move_worker_list c.workers f t,
               blocks := c.blocks.set bd (c.blockAt bd + 1),
               last_move_height_diff := c.blockAt t - c.blockAt f } := rfl

theorem pan_make_move_eq (c : Board) (f t bd : Nat) :
    pan_make_move c f t bd =
      { c with workers := move_worker_list c.workers f t,
               blocks := c.blocks.set bd (c.blockAt bd + 1),
               last_move_height_diff :=
                 (c.blocks.set bd (c.blockAt bd + 1)).getD t 0 - c.blockAt f } := rfl

theorem atlas_make_move_eq (c : Board) (f t bd : Nat) (dome : Bool) :
    atlas_make_move c f t bd dome =
      { c with workers := move_worker_list c.workers f t,
               blocks := if dome then c.blocks.set bd 4
                 else c.blocks.set bd (c.blockAt bd + 1) } := by
  cases dome <;> rfl

theorem demeter_make_move_eq (c : Board) (f t b1 : Nat) (b2 : Option Nat) :
    demeter_make_move c f t b1 b2 =
      { c with workers := move_worker_list c.workers f t,
               blocks := match b2 with
                 | some s => (c.blocks.set b1 (c.blockAt b1 + 1)).set s
                     ((c.blocks.set b1 (c.blockAt b1 + 1)).getD s 0 + 1)
                 | none => c.blocks.set b1 (c.blockAt b1 + 1) } := by
  cases b2 <;> rfl

theorem hermes_make_move_eq (c : Board) (f fin bd : Nat) :
    hermes_make_move c f fin bd =
      { c with workers := move_worker_list c.workers f fin,
               blocks := c.blocks.set bd (c.blockAt bd + 1) } := rfl

theorem prometheus_make_move_eq (c : Board) (f t bd : Nat) (opt : Option Nat) :
    prometheus_make_move c f t bd opt =
      { c with workers := move_worker_list c.workers f t,
               blocks := match opt with
                 | some ob => ((c.blocks.set ob (c.blockAt ob + 1)).set bd
                     ((c.blocks.set ob (c.blockAt ob + 1)).getD bd 0 + 1))
                 | none => c.blocks.set bd (c.blockAt bd + 1) } := by
  cases opt <;> rfl

/-! ### Worker invariants after each god's apply (towards claim C9) -/

/-- The worker part of the board invariants: pairwise-distinct squares, none
of them at height 4. -/
@[reducible] def inv_ok (c : Board) : Prop :=
  c.workers.Nodup ∧ ∀ w ∈ c.workers, c.blockAt w ≤ 3

theorem blockAt_le4 {b : Board} (hbl : ∀ h ∈ b.blocks, 0 ≤ h ∧ h ≤ 4)
    (hlen : b.blocks.length = 25) {t : Nat} (ht : t < 25) : b.blockAt t ≤ 4 := by
  have hm : b.blockAt t ∈ b.blocks := by
    unfold Board.blockAt
    rw [List.getD_eq_getElem?_getD, List.getElem?_eq_getElem (by omega)]
    exact List.getElem_mem (by omega)
  exact (hbl _ hm).2

/-- What the single build of the apply functions does to the heights under the
worker squares: the final square keeps its (pre-build) height and every other
worker square is untouched. -/
theorem set_build_heights (b' : Board) {b : Board} {f t bd : Nat} {v : Int}
    (hth : b.blockAt t ≤ 3)
    (hbl : b'.blocks = b.blocks.set bd v)
    (hbdt : t ≠ bd) (hbdf : f = bd ∨ is_free b bd = true) :
    b'.blockAt t ≤ 3 ∧ ∀ x ∈ b.workers, x ≠ f → b'.blockAt x = b.blockAt x := by
  refine ⟨?_, ?_⟩
  · rw [blockAt_after_build hbl (fun he => hbdt he.symm)]
    exact hth
  · intro x hx hxf
    refine blockAt_after_build hbl ?_
    rcases hbdf with rfl | hfr
    · exact fun he => hxf he.symm
    · exact fun he => (is_free_iff.mp hfr).1 (he ▸ hx)

/-- The same for the two-build gods (Demeter, Hephaestus). -/
theorem set2_build_heights (b' : Board) {b : Board} {f t s1 s2 : Nat} {v1 v2 : Int}
    (hth : b.blockAt t ≤ 3)
    (hbl : b'.blocks = (b.blocks.set s1 v1).set s2 v2)
    (h1t : t ≠ s1) (h2t : t ≠ s2)
    (h1f : f = s1 ∨ is_free b s1 = true) (h2f : f = s2 ∨ is_free b s2 = true) :
    b'.blockAt t ≤ 3 ∧ ∀ x ∈ b.workers, x ≠ f → b'.blockAt x = b.blockAt x := by
  have key : ∀ x : Nat, s1 ≠ x → s2 ≠ x → b'.blockAt x = b.blockAt x := by
    intro x hx1 hx2
    unfold Board.blockAt
    rw [hbl, getD_set_ne _ _ _ hx2, getD_set_ne _ _ _ hx1]
  refine ⟨?_, ?_⟩
  · rw [key t (fun he => h1t he.symm) (fun he => h2t he.symm)]
    exact hth
  · intro x hx hxf
    refine key x ?_ ?_
    · rcases h1f with rfl | hfr
      · exact fun he => hxf he.symm
      · exact fun he => (is_free_iff.mp hfr).1 (he ▸ hx)
    · rcases h2f with rfl | hfr
      · exact fun he => hxf he.symm
      · exact fun he => (is_free_iff.mp hfr).1 (he ▸ hx)

/-- Variant of `moved_invariants` for applies that write the worker slot with
`List.set` directly (Artemis, Apollo without an occupant). -/
theorem set_invariants {b b' : Board} {f fin j : Nat}
    (hwf : board_wf b)
    (hj : j < 4) (hgd : b.workers.getD j 0 = f)
    (hfin_nw : fin ∉ b.workers)
    (hws : b'.workers = b.workers.set j fin)
    (hfinle : b'.blockAt fin ≤ 3)
    (hkeep : ∀ x ∈ b.workers, x ≠ f → b'.blockAt x = b.blockAt x) :
    inv_ok b' := by
  obtain ⟨hb25, hw4, hblocks, hnd, hwk, hturn⟩ := hwf
  refine ⟨by rw [hws]; exact hnd.set hfin_nw, ?_⟩
  refine heights_after_set hws hw4 hfinle ?_
  intro i hi hij
  have hmem : b.workers.getD i 0 ∈ b.workers := getD_mem (hw4 ▸ hi)
  have hne : b.workers.getD i 0 ≠ f :=
    hgd ▸ nodup_getD_ne hnd (hw4 ▸ hi) (hw4 ▸ hj) hij
  rw [hkeep _ hmem hne]
  exact (hwk _ hmem).2

/-- A move that stays put (an empty Hermes walk) keeps the worker list; the
build lands on a free square, off every worker. -/
theorem stay_invariants (b' : Board) {b : Board} {f bd : Nat} {v : Int}
    (hwf : board_wf b) (hbel : worker_belongs_to_current_player b f = true)
    (hws : b'.workers = move_worker_list b.workers f f)
    (hbl : b'.blocks = b.blocks.set bd v)
    (hbd : bd ∉ b.workers) :
    inv_ok b' := by
  obtain ⟨hb25, hw4, hblocks, hnd, hwk, hturn⟩ := hwf
  obtain ⟨j, hj4, hgd, hside⟩ := belongs_slot hbel
  have hmw : move_worker_list b.workers f f = b.workers := by
    rw [move_worker_list_eq_set f (hw4 ▸ hj4) hgd hnd, ← hgd,
      set_getD_self b.workers j 0 (hw4 ▸ hj4)]
  refine ⟨?_, ?_⟩
  · rw [hws, hmw]
    exact hnd
  · intro w hw
    rw [hws, hmw] at hw
    rw [blockAt_after_build hbl (fun he => hbd (he ▸ hw))]
    exact (hwk _ hw).2

theorem athena_apply_invariants {b : Board} {f t bd : Nat} (hwf : board_wf b)
    (hbel : worker_belongs_to_current_player b f = true)
    (hval : athena_move_is_valid b f t bd = true) :
    inv_ok (athena_make_move { b with last_move_height_diff := 0 } f t bd) := by
  obtain ⟨hmc, hbo⟩ :=
    complete_checks_sq_iff.mp (hval : complete_checks_sq b f t bd = true)
  obtain ⟨hh, hadjN, hfree⟩ := move_checks_sq_iff.mp hmc
  obtain ⟨hbdN, hbdt, hbdf⟩ := build_ok_sq_iff.mp hbo
  obtain ⟨htnw, hth⟩ := is_free_iff.mp hfree
  have hsb := set_build_heights
    (athena_make_move { b with last_move_height_diff := 0 } f t bd)
    (show b.blockAt t ≤ 3 by omega) rfl hbdt hbdf
  exact moved_invariants hwf hbel htnw rfl hsb.1 hsb.2

theorem pan_apply_invariants {b : Board} {f t bd : Nat} (hwf : board_wf b)
    (hbel : worker_belongs_to_current_player b f = true)
    (hval : pan_move_is_valid b f t bd = true) :
    inv_ok (pan_make_move { b with last_move_height_diff := 0 } f t bd) := by
  obtain ⟨hmc, hbo⟩ :=
    complete_checks_sq_iff.mp (hval : complete_checks_sq b f t bd = true)
  obtain ⟨hh, hadjN, hfree⟩ := move_checks_sq_iff.mp hmc
  obtain ⟨hbdN, hbdt, hbdf⟩ := build_ok_sq_iff.mp hbo
  obtain ⟨htnw, hth⟩ := is_free_iff.mp hfree
  have hsb := set_build_heights
    (pan_make_move { b with last_move_height_diff := 0 } f t bd)
    (show b.blockAt t ≤ 3 by omega) rfl hbdt hbdf
  exact moved_invariants hwf hbel htnw rfl hsb.1 hsb.2

theorem atlas_apply_invariants {b : Board} {f t bd : Nat} {dome : Bool}
    (hwf : board_wf b)
    (hbel : worker_belongs_to_current_player b f = true)
    (hval : atlas_move_is_valid b f t bd = true) :
    inv_ok (atlas_make_move { b with last_move_height_diff := 0 } f t bd dome) := by
  obtain ⟨hmc, hbo⟩ :=
    complete_checks_sq_iff.mp (hval : complete_checks_sq b f t bd = true)
  obtain ⟨hh, hadjN, hfree⟩ := move_checks_sq_iff.mp hmc
  obtain ⟨hbdN, hbdt, hbdf⟩ := build_ok_sq_iff.mp hbo
  obtain ⟨htnw, hth⟩ := is_free_iff.mp hfree
  cases dome with
  | true =>
    have hsb := set_build_heights
      (atlas_make_move { b with last_move_height_diff := 0 } f t bd true)
      (show b.blockAt t ≤ 3 by omega) rfl hbdt hbdf
    exact moved_invariants hwf hbel htnw rfl hsb.1 hsb.2
  | false =>
    have hsb := set_build_heights
      (atlas_make_move { b with last_move_height_diff := 0 } f t bd false)
      (show b.blockAt t ≤ 3 by omega) rfl hbdt hbdf
    exact moved_invariants hwf hbel htnw rfl hsb.1 hsb.2

/-- What `_demeter_move_is_valid` guarantees, as a conjunction. -/
theorem demeter_valid_parts {b : Board} {f t b1 : Nat} {ob : Option Nat}
    (h : demeter_move_is_valid b f t b1 ob = true) :
    complete_checks_sq b f t b1 = true ∧
      ∀ s, ob = some s → build_ok_sq b f t s = true := by
  unfold demeter_move_is_valid at h
  by_cases hc : complete_checks_sq b f t b1 = true
  · rw [if_neg (by simp [hc])] at h
    refine ⟨hc, ?_⟩
    rintro s rfl
    dsimp only at h
    split_ifs at h with h1 h2
    simpa using h2
  · rw [if_pos (by simp [hc])] at h
    simp at h

/-- What `_hephaestus_move_is_valid` guarantees, as a conjunction. -/
theorem hephaestus_valid_parts {b : Board} {f t b1 : Nat} {ob : Option Nat}
    (h : hephaestus_move_is_valid b f t b1 ob = true) :
    complete_checks_sq b f t b1 = true ∧
      ∀ s, ob = some s → build_ok_sq b f t s = true := by
  unfold hephaestus_move_is_valid at h
  by_cases hc : complete_checks_sq b f t b1 = true
  · rw [if_neg (by simp [hc])] at h
    refine ⟨hc, ?_⟩
    rintro s rfl
    dsimp only at h
    split_ifs at h with h1 h2
    simpa using h2
  · rw [if_pos (by simp [hc])] at h
    simp at h

/-- Worker invariants after `_demeter_make_move` (also the apply of
Hephaestus, whose body is identical). -/
theorem demeter_apply_invariants {b : Board} {f t b1 : Nat} {ob : Option Nat}
    (hwf : board_wf b)
    (hbel : worker_belongs_to_current_player b f = true)
    (h1 : complete_checks_sq b f t b1 = true)
    (h2 : ∀ s, ob = some s → build_ok_sq b f t s = true) :
    inv_ok (demeter_make_move { b with last_move_height_diff := 0 } f t b1 ob) := by
  obtain ⟨hmc, hbo⟩ := complete_checks_sq_iff.mp h1
  obtain ⟨hh, hadjN, hfree⟩ := move_checks_sq_iff.mp hmc
  obtain ⟨hbdN, hbdt, hbdf⟩ := build_ok_sq_iff.mp hbo
  obtain ⟨htnw, hth⟩ := is_free_iff.mp hfree
  cases ob with
  | none =>
    have hsb := set_build_heights
      (demeter_make_move { b with last_move_height_diff := 0 } f t b1 none)
      (show b.blockAt t ≤ 3 by omega) rfl hbdt hbdf
    exact moved_invariants hwf hbel htnw rfl hsb.1 hsb.2
  | some s =>
    obtain ⟨hsN, hst, hsf⟩ := build_ok_sq_iff.mp (h2 s rfl)
    have hsb := set2_build_heights
      (demeter_make_move { b with last_move_height_diff := 0 } f t b1 (some s))
      (show b.blockAt t ≤ 3 by omega) rfl hbdt hst hbdf hsf
    exact moved_invariants hwf hbel htnw rfl hsb.1 hsb.2

/-- What `_prometheus_move_is_valid` guarantees when the optional build is
taken. -/
theorem prometheus_valid_some {b : Board} {f t bd ob : Nat}
    (h : prometheus_move_is_valid b f t bd (some ob) = true) :
    build_ok_sq b f f ob = true ∧
      ¬(b.blockAt t + (if t = ob then 1 else 0) > b.blockAt f) ∧
      complete_checks_sq b f t bd = true := by
  unfold prometheus_move_is_valid at h
  dsimp only at h
  by_cases h1 : (!build_ok_sq b f f ob) = true
  · rw [if_pos h1] at h
    simp at h
  · rw [if_neg h1] at h
    by_cases h2 : b.blockAt t + (if t = ob then 1 else 0) > b.blockAt f
    · rw [if_pos h2] at h
      simp at h
    · rw [if_neg h2] at h
      by_cases h3 : (!complete_checks_sq b f t bd) = true
      · rw [if_pos h3] at h
        simp at h
      · exact ⟨by simpa using h1, h2, by simpa using h3⟩

theorem prometheus_apply_invariants {b : Board} {f t bd : Nat} {opt : Option Nat}
    (hwf : board_wf b)
    (hbel : worker_belongs_to_current_player b f = true)
    (hval : prometheus_move_is_valid b f t bd opt = true) :
    inv_ok (prometheus_make_move { b with last_move_height_diff := 0 } f t bd opt) := by
  cases opt with
  | none =>
    obtain ⟨hmc, hbo⟩ :=
      complete_checks_sq_iff.mp (hval : complete_checks_sq b f t bd = true)
    obtain ⟨hh, hadjN, hfree⟩ := move_checks_sq_iff.mp hmc
    obtain ⟨hbdN, hbdt, hbdf⟩ := build_ok_sq_iff.mp hbo
    obtain ⟨htnw, hth⟩ := is_free_iff.mp hfree
    have hsb := set_build_heights
      (prometheus_make_move { b with last_move_height_diff := 0 } f t bd none)
      (show b.blockAt t ≤ 3 by omega) rfl hbdt hbdf
    exact moved_invariants hwf hbel htnw rfl hsb.1 hsb.2
  | some ob =>
    obtain ⟨hbo1, hhgt, hcc⟩ := prometheus_valid_some hval
    obtain ⟨hmc, hbo⟩ := complete_checks_sq_iff.mp hcc
    obtain ⟨hh, hadjN, hfree⟩ := move_checks_sq_iff.mp hmc
    obtain ⟨hbdN, hbdt, hbdf⟩ := build_ok_sq_iff.mp hbo
    obtain ⟨htnw, hth⟩ := is_free_iff.mp hfree
    obtain ⟨hobN, hobne, hobff⟩ := build_ok_sq_iff.mp hbo1
    have hobfree : is_free b ob = true := by
      rcases hobff with he | hfr
      · exact absurd he hobne
      · exact hfr
    have hobnw : ob ∉ b.workers := (is_free_iff.mp hobfree).1
    have hoblt : ob < 25 := NEIGHBOURS_lt25 hobN
    obtain ⟨hb25, hw4, hblocks, hnd, hwk, hturn⟩ := hwf
    obtain ⟨j, hj4, hgd, hside⟩ := belongs_slot hbel
    have hfmem : f ∈ b.workers := hgd ▸ getD_mem (hw4 ▸ hj4)
    have hfle : b.blockAt f ≤ 3 := (hwk _ hfmem).2
    have key : ∀ x : Nat, ob ≠ x → bd ≠ x →
        (prometheus_make_move { b with last_move_height_diff := 0 } f t bd
          (some ob)).blockAt x = b.blockAt x := by
      intro x h1x h2x
      show ((b.blocks.set ob (b.blockAt ob + 1)).set bd _).getD x 0 = b.blockAt x
      rw [getD_set_ne _ _ _ h2x, getD_set_ne _ _ _ h1x]
      rfl
    have hfin : (prometheus_make_move { b with last_move_height_diff := 0 } f t bd
        (some ob)).blockAt t ≤ 3 := by
      by_cases hot : ob = t
      · subst hot
        have hhgt2 : b.blockAt ob + 1 ≤ b.blockAt f := by
          rw [if_pos rfl] at hhgt
          omega
        show ((b.blocks.set ob (b.blockAt ob + 1)).set bd _).getD ob 0 ≤ 3
        rw [getD_set_ne _ _ _ (fun he => hbdt he.symm),
          getD_set_self _ _ _ _ (show ob < b.blocks.length by omega)]
        omega
      · rw [key t hot (fun he => hbdt he.symm)]
        omega
    have hkeep : ∀ x ∈ b.workers, x ≠ f →
        (prometheus_make_move { b with last_move_height_diff := 0 } f t bd
          (some ob)).blockAt x = b.blockAt x := by
      intro x hx hxf
      refine key x (fun he => hobnw (he ▸ hx)) ?_
      rcases hbdf with rfl | hfr
      · exact fun he => hxf he.symm
      · exact fun he => (is_free_iff.mp hfr).1 (he ▸ hx)
    exact moved_invariants ⟨hb25, hw4, hblocks, hnd, hwk, hturn⟩ hbel htnw rfl hfin hkeep

/-- every square of a Hermes walk that passes `hermes_steps` is free. -/
theorem hermes_steps_free {b : Board} {sh : Int} {l : List Nat} :
    ∀ cur, hermes_steps b sh cur l = true → ∀ sq ∈ l, is_free b sq = true := by
  induction l with
  | nil =>
    intro cur h sq hsq
    simp at hsq
  | cons x rest ih =>
    intro cur h sq hsq
    unfold hermes_steps at h
    split_ifs at h with h1 h2
    rcases List.mem_cons.mp hsq with rfl | hmem
    · exact (move_checks_sq_iff.mp (by simpa using h2)).2.2
    · exact ih x h sq hmem

theorem hermes_apply_invariants {b : Board} {f : Nat} {sqs : List Nat} {bd : Nat}
    (hwf : board_wf b) (hbel : worker_belongs_to_current_player b f = true)
    (hval : hermes_move_is_valid b f sqs bd = true) :
    inv_ok (hermes_make_move { b with last_move_height_diff := 0 } f
      (sqs.getLast?.getD f) bd) := by
  unfold hermes_move_is_valid at hval
  dsimp only at hval
  by_cases hl : (sqs.length == 1) = true
  · rw [if_pos hl] at hval
    obtain ⟨hmc, hbo⟩ := complete_checks_sq_iff.mp hval
    obtain ⟨hh, hadjN, hfree⟩ := move_checks_sq_iff.mp hmc
    obtain ⟨hbdN, hbdt, hbdf⟩ := build_ok_sq_iff.mp hbo
    obtain ⟨htnw, hth⟩ := is_free_iff.mp hfree
    have hsb := set_build_heights
      (hermes_make_move { b with last_move_height_diff := 0 } f
        (sqs.getLast?.getD f) bd)
      (show b.blockAt (sqs.getLast?.getD f) ≤ 3 by omega) rfl hbdt hbdf
    exact moved_invariants hwf hbel htnw rfl hsb.1 hsb.2
  · rw [if_neg hl] at hval
    split_ifs at hval with h1 h2
    · have hsteps : hermes_steps b (b.blockAt f) f sqs = true := by simpa using h1
      have hbo : build_ok_sq b f (sqs.getLast?.getD f) bd = true := by simpa using h2
      obtain ⟨hbdN, hbdt, hbdf⟩ := build_ok_sq_iff.mp hbo
      cases sqs with
      | nil =>
        have hbdfree : is_free b bd = true := by
          rcases hbdf with he | hfr
          · exact absurd he hbdt
          · exact hfr
        exact stay_invariants
          (hermes_make_move { b with last_move_height_diff := 0 } f
            (([] : List Nat).getLast?.getD f) bd) hwf hbel rfl rfl
          (is_free_iff.mp hbdfree).1
      | cons x rest =>
        have hne2 : (x :: rest : List Nat) ≠ [] := by simp
        have hfm : (x :: rest).getLast?.getD f ∈ (x :: rest) := by
          rw [List.getLast?_eq_getLast _ hne2]
          exact List.getLast_mem hne2
        obtain ⟨htnw, hth⟩ := is_free_iff.mp (hermes_steps_free f hsteps _ hfm)
        have hsb := set_build_heights
          (hermes_make_move { b with last_move_height_diff := 0 } f
            ((x :: rest).getLast?.getD f) bd)
          (show b.blockAt ((x :: rest).getLast?.getD f) ≤ 3 by omega) rfl hbdt hbdf
        exact moved_invariants hwf hbel htnw rfl hsb.1 hsb.2

theorem getD_eq_getElem {l : List Nat} {k : Nat} (hk : k < l.length) :
    l.getD k 0 = l[k] := by
  simp [List.getD_eq_getElem?_getD, List.getElem?_eq_getElem hk]

/-- Setting two distinct slots, where the value placed at `occ` is either fresh
or the old value of slot `i` and the value placed at `i` is the old value of
slot `occ`, keeps the list duplicate-free (the Apollo swap and the Minotaur
push). -/
theorem nodup_set_set {ws : List Nat} {i occ u v : Nat}
    (hnd : ws.Nodup) (hio : i ≠ occ) (hi : i < ws.length) (hocc : occ < ws.length)
    (hu : u ∉ ws ∨ u = ws.getD i 0) (hv : v = ws.getD occ 0) (huv : u ≠ v) :
    ((ws.set occ u).set i v).Nodup := by
  have hgi : ws.getD i 0 = ws[i] := getD_eq_getElem hi
  have hgo : ws.getD occ 0 = ws[occ] := getD_eq_getElem hocc
  have hlen : ((ws.set occ u).set i v).length = ws.length := by simp
  have hinj : ∀ {x y : Nat}, x < ws.length → y < ws.length →
      ws.getD x 0 = ws.getD y 0 → x = y := by
    intro x y hx hy he
    rw [getD_eq_getElem hx, getD_eq_getElem hy] at he
    exact (hnd.getElem_inj_iff).mp he
  have hval : ∀ (k : Nat), k < ws.length →
      ((ws.set occ u).set i v)[k]? =
        some (if k = i then v else if k = occ then u else ws.getD k 0) := by
    intro k hk
    by_cases hki : k = i
    · subst hki
      rw [List.getElem?_set_self (by simpa using hk)]
      simp
    · rw [List.getElem?_set_ne (fun he => hki he.symm)]
      by_cases hko : k = occ
      · subst hko
        rw [List.getElem?_set_self hk]
        simp [hki]
      · rw [List.getElem?_set_ne (fun he => hko he.symm),
          List.getElem?_eq_getElem hk, if_neg hki, if_neg hko, getD_eq_getElem hk]
  rw [List.nodup_iff_getElem?_ne_getElem?]
  intro a c hac hc
  have hc' : a < ws.length ∧ c < ws.length := by
    rw [hlen] at hc
    exact ⟨by omega, hc⟩
  rw [hval a hc'.1, hval c hc'.2]
  intro hcon
  have heq := Option.some.inj hcon
  by_cases hai : a = i
  · rw [if_pos hai] at heq
    by_cases hbi : c = i
    · exact absurd (hai.trans hbi.symm) (by omega)
    · rw [if_neg hbi] at heq
      by_cases hbo : c = occ
      · rw [if_pos hbo] at heq
        exact huv heq.symm
      · rw [if_neg hbo] at heq
        rw [hv] at heq
        exact hbo (hinj hocc hc'.2 heq).symm
  · rw [if_neg hai] at heq
    by_cases hao : a = occ
    · rw [if_pos hao] at heq
      by_cases hbi : c = i
      · rw [if_pos hbi] at heq
        exact huv heq
      · rw [if_neg hbi] at heq
        by_cases hbo : c = occ
        · exact absurd (hao.trans hbo.symm) (by omega)
        · rw [if_neg hbo] at heq
          rcases hu with hnm | hui
          · exact hnm (by rw [heq]; exact getD_mem hc'.2)
          · rw [hui] at heq
            exact hbi (hinj hi hc'.2 heq).symm
    · rw [if_neg hao] at heq
      by_cases hbi : c = i
      · rw [if_pos hbi] at heq
        rw [hv] at heq
        exact hao (hinj hc'.1 hocc heq)
      · rw [if_neg hbi] at heq
        by_cases hbo : c = occ
        · rw [if_pos hbo] at heq
          rcases hu with hnm | hui
          · exact hnm (by rw [← heq]; exact getD_mem hc'.1)
          · rw [hui] at heq
            exact hai (hinj hc'.1 hi heq)
        · rw [if_neg hbo] at heq
          exact absurd (hinj hc'.1 hc'.2 heq) (by omega)

/-- Membership in a doubly-written list, remembering which slot survived. -/
theorem mem_set_set {ws : List Nat} {i occ u v w : Nat}
    (hw : w ∈ (ws.set occ u).set i v) :
    w = v ∨ w = u ∨ ∃ k, k < ws.length ∧ k ≠ i ∧ k ≠ occ ∧ ws.getD k 0 = w := by
  rcases mem_set_cases hw with rfl | ⟨k, hk, hki, hkw⟩
  · exact Or.inl rfl
  · have hk' : k < ws.length := by simpa using hk
    by_cases hko : occ = k
    · subst hko
      rw [getD_set_self _ _ _ _ hk'] at hkw
      exact Or.inr (Or.inl hkw.symm)
    · rw [getD_set_ne _ _ _ hko] at hkw
      exact Or.inr (Or.inr ⟨k, hk', hki, fun he => hko he.symm, hkw⟩)

/-- `_which_worker_is_here` at the slot of a known worker (unique by
`Nodup`). -/
theorem which_worker_slot {b : Board} {f j : Nat}
    (hnd : b.workers.Nodup) (hj : j < b.workers.length)
    (hgd : b.workers.getD j 0 = f) :
    which_worker_is_here b f = some j := by
  have hje : b.workers[j] = f := by
    rw [← hgd]
    exact (getD_eq_getElem hj).symm ▸ rfl
  unfold which_worker_is_here
  rw [List.findIdx?_eq_some_iff_getElem]
  refine ⟨hj, by simp [hje], ?_⟩
  intro k hk
  have hkl : k < b.workers.length := lt_trans hk hj
  simp only [decide_eq_true_eq]
  intro he
  exact absurd ((hnd.getElem_inj_iff).mp (he.trans hje.symm)) (by omega)

/-- the opponent's worker indices, from `_is_opponent_worker`. -/
theorem opponent_slot {b : Board} {occ : Nat}
    (h : is_opponent_worker b (some occ) = true) :
    (b.turn = 1 ∧ (occ = 2 ∨ occ = 3)) ∨ (b.turn ≠ 1 ∧ (occ = 0 ∨ occ = 1)) := by
  unfold is_opponent_worker at h
  dsimp only at h
  by_cases ht : b.turn = 1
  · rw [if_pos ht] at h
    exact Or.inl ⟨ht, by simpa using h⟩
  · rw [if_neg ht] at h
    exact Or.inr ⟨ht, by simpa using h⟩

/-- the mover's slot and an opponent slot never coincide. -/
theorem mover_ne_opponent {b : Board} {j occ : Nat}
    (hside : (b.turn = 1 ∧ (j = 0 ∨ j = 1)) ∨ (b.turn ≠ 1 ∧ (j = 2 ∨ j = 3)))
    (hopp : is_opponent_worker b (some occ) = true) : j ≠ occ := by
  rcases opponent_slot hopp with ⟨ht, ho⟩ | ⟨ht, ho⟩ <;>
    rcases hside with ⟨ht2, hj⟩ | ⟨ht2, hj⟩ <;> omega

/-- What `_apollo_move_is_valid` guarantees, split by the occupant of the
destination square. -/
theorem apollo_valid_parts {b : Board} {f t bd : Nat}
    (h : apollo_move_is_valid b f t bd = true) :
    t ∈ NEIGHBOURS f ∧
      (which_worker_is_here b t = none →
        b.blockAt t ≠ 4 ∧ build_ok_sq b f t bd = true) ∧
      (∀ occ, which_worker_is_here b t = some occ →
        is_opponent_worker b (some occ) = true ∧
          build_ok_sq b f t bd = true ∧ f ≠ bd) := by
  simp only [apollo_move_is_valid, apollo_move_is_valid.apollo_valid_tail] at h
  by_cases h0 : (height_ok b f t && adj_ok f t) = true
  · rw [if_neg (by simp [h0])] at h
    refine ⟨adj_ok_iff.mp (((Bool.and_eq_true _ _).mp h0).2), ?_, ?_⟩
    · intro hocc
      rw [hocc] at h
      rw [if_neg (by simp)] at h
      by_cases h4 : (b.blockAt t == 4) = true
      · rw [if_pos h4] at h
        simp at h
      · rw [if_neg h4] at h
        by_cases hb1 : (!build_ok_sq b f t bd) = true
        · rw [if_pos hb1] at h
          simp at h
        · exact ⟨by simpa using h4, by simpa using hb1⟩
    · intro occ hocc
      rw [hocc] at h
      rw [if_pos (by simp)] at h
      by_cases hop : (!is_opponent_worker b (some occ)) = true
      · rw [if_pos hop] at h
        simp at h
      · rw [if_neg hop] at h
        by_cases hb1 : (!build_ok_sq b f t bd) = true
        · rw [if_pos hb1] at h
          simp at h
        · rw [if_neg hb1] at h
          have hopp : is_opponent_worker b (some occ) = true := by simpa using hop
          by_cases hfb : (is_opponent_worker b (some occ) && (f == bd)) = true
          · rw [if_pos hfb] at h
            simp at h
          · refine ⟨hopp, by simpa using hb1, ?_⟩
            intro he
            exact hfb (by simp [hopp, he])
  · rw [if_pos (by simp [h0])] at h
    simp at h

/-- What `_minotaur_move_is_valid` guarantees, split by the occupant of the
destination square. -/
theorem minotaur_valid_parts {b : Board} {f t bd : Nat}
    (h : minotaur_move_is_valid b f t bd = true) :
    t ∈ NEIGHBOURS f ∧
      (which_worker_is_here b t = none →
        b.blockAt t ≠ 4 ∧ build_ok_sq b f t bd = true) ∧
      (∀ occ, which_worker_is_here b t = some occ →
        is_opponent_worker b (some occ) = true ∧
          ∃ push, calculate_push_square f t = some push ∧ is_free b push = true ∧
            build_ok_sq b f t bd = true ∧ push ≠ bd) := by
  simp only [minotaur_move_is_valid] at h
  by_cases h0 : (height_ok b f t && adj_ok f t) = true
  · rw [if_neg (by simp [h0])] at h
    refine ⟨adj_ok_iff.mp (((Bool.and_eq_true _ _).mp h0).2), ?_, ?_⟩
    · intro hocc
      rw [hocc] at h
      dsimp only at h
      by_cases h4 : (b.blockAt t == 4) = true
      · rw [if_pos h4] at h
        simp at h
      · rw [if_neg h4] at h
        by_cases hb1 : (!build_ok_sq b f t bd) = true
        · rw [if_pos hb1] at h
          simp at h
        · exact ⟨by simpa using h4, by simpa using hb1⟩
    · intro occ hocc
      rw [hocc] at h
      dsimp only at h
      by_cases hop : (!is_opponent_worker b (some occ)) = true
      · rw [if_pos hop] at h
        simp at h
      · rw [if_neg hop] at h
        cases hcp : calculate_push_square f t with
        | none =>
          rw [hcp] at h
          simp at h
        | some push =>
          rw [hcp] at h
          dsimp only at h
          by_cases hfr : (!is_free b push) = true
          · rw [if_pos hfr] at h
            simp at h
          · rw [if_neg hfr] at h
            by_cases hbb : (!build_ok_sq b f t bd || (push == bd)) = true
            · rw [if_pos hbb] at h
              simp at h
            · have hparts : build_ok_sq b f t bd = true ∧ push ≠ bd := by
                simpa using hbb
              exact ⟨by simpa using hop,
                push, rfl, by simpa using hfr, hparts.1, hparts.2⟩
  · rw [if_pos (by simp [h0])] at h
    simp at h

/-- What `_artemis_move_is_valid` guarantees for a one-step move. -/
theorem artemis_valid_none {b : Board} {f t bd : Nat}
    (h : artemis_move_is_valid b f t bd none = true) :
    is_free b t = true ∧ t ∈ NEIGHBOURS f ∧ build_ok_sq b f t bd = true := by
  simp only [artemis_move_is_valid, artemis_move_is_valid.artemis_build] at h
  by_cases h0 : (height_ok b f t && adj_ok f t && is_free b t) = true
  · rw [if_neg (by simp [h0])] at h
    obtain ⟨h01, h02⟩ := (Bool.and_eq_true _ _).mp h0
    by_cases hb1 : (!build_ok_sq b f t bd) = true
    · rw [if_pos hb1] at h
      simp at h
    · exact ⟨h02, adj_ok_iff.mp ((Bool.and_eq_true _ _).mp h01).2, by simpa using hb1⟩
  · rw [if_pos (by simp [h0])] at h
    simp at h

/-- What `_artemis_move_is_valid` guarantees for a two-step move. -/
theorem artemis_valid_some {b : Board} {f t bd m : Nat}
    (h : artemis_move_is_valid b f t bd (some m) = true) :
    move_checks_sq b f m = true ∧ move_checks_sq b m t = true ∧
      build_ok_sq b f t bd = true := by
  simp only [artemis_move_is_valid, artemis_move_is_valid.artemis_build] at h
  by_cases h1 : (!move_checks_sq b f m) = true
  · rw [if_pos h1] at h
    simp at h
  · rw [if_neg h1] at h
    by_cases h2 : (!move_checks_sq b m t) = true
    · rw [if_pos h2] at h
      simp at h
    · rw [if_neg h2] at h
      by_cases h3 : (t == f) = true
      · rw [if_pos h3] at h
        simp at h
      · rw [if_neg h3] at h
        by_cases h4 : (!build_ok_sq b f t bd) = true
        · rw [if_pos h4] at h
          simp at h
        · exact ⟨by simpa using h1, by simpa using h2, by simpa using h4⟩

theorem artemis_apply_invariants {b : Board} {f t bd : Nat} {mid : Option Nat}
    {b' : Board} (hwf : board_wf b)
    (hbel : worker_belongs_to_current_player b f = true)
    (hval : artemis_move_is_valid b f t bd mid = true)
    (h : artemis_make_move { b with last_move_height_diff := 0 } f t bd mid
      = Except.ok b') :
    inv_ok b' := by
  obtain ⟨hb25, hw4, hblocks, hnd, hwk, hturn⟩ := hwf
  obtain ⟨j, hj4, hgd, hside⟩ := belongs_slot hbel
  have hjl : j < b.workers.length := hw4 ▸ hj4
  have hidx : which_worker_is_here b f = some j := which_worker_slot hnd hjl hgd
  have hidx' : ({ b with last_move_height_diff := 0 } : Board).workers.findIdx?
      (· = f) = some j := hidx
  unfold artemis_make_move at h
  rw [hidx'] at h
  dsimp only at h
  cases mid with
  | none =>
    obtain ⟨hfree_t, hadjN, hbo⟩ := artemis_valid_none hval
    obtain ⟨htnw, hth4⟩ := is_free_iff.mp hfree_t
    obtain ⟨hbdN, hbdt, hbdf⟩ := build_ok_sq_iff.mp hbo
    have hwn : which_worker_is_here ({ b with last_move_height_diff := 0 } : Board) t
        = none := which_worker_none_iff.mpr htnw
    have hw1 : artemis_walk { b with last_move_height_diff := 0 } j
        ((none : Option Nat).toList ++ [t]) =
        Except.ok { ({ b with last_move_height_diff := 0 } : Board) with
          workers :=
            ({ b with last_move_height_diff := 0 } : Board).workers.set j t } := by
      show artemis_walk { b with last_move_height_diff := 0 } j [t] = _
      unfold artemis_walk
      rw [hwn]
      rfl
    rw [hw1] at h
    dsimp only at h
    have hb2 := (Except.ok.inj h).symm
    subst hb2
    refine set_invariants ⟨hb25, hw4, hblocks, hnd, hwk, hturn⟩ hj4 hgd htnw rfl ?_ ?_
    · exact (set_build_heights _ (show b.blockAt t ≤ 3 by omega) rfl hbdt hbdf).1
    · exact (set_build_heights _ (show b.blockAt t ≤ 3 by omega) rfl hbdt hbdf).2
  | some m =>
    obtain ⟨hmc1, hmc2, hbo⟩ := artemis_valid_some hval
    obtain ⟨hbdN, hbdt, hbdf⟩ := build_ok_sq_iff.mp hbo
    obtain ⟨hhm, hmN, hfm⟩ := move_checks_sq_iff.mp hmc1
    obtain ⟨hht, htN, hft⟩ := move_checks_sq_iff.mp hmc2
    obtain ⟨hmnw, hmh4⟩ := is_free_iff.mp hfm
    obtain ⟨htnw, hth4⟩ := is_free_iff.mp hft
    have htm : t ≠ m := NEIGHBOURS_ne htN
    have hwn1 : which_worker_is_here ({ b with last_move_height_diff := 0 } : Board) m
        = none := which_worker_none_iff.mpr hmnw
    have htnw2 : t ∉ ({ b with last_move_height_diff := 0 } : Board).workers.set j m := by
      intro hmem
      rcases mem_set_cases hmem with he | ⟨k, hk, hkj, hkw⟩
      · exact htm he
      · exact htnw (hkw ▸ getD_mem hk)
    have hwn2 : which_worker_is_here
        { ({ b with last_move_height_diff := 0 } : Board) with
          workers :=
            ({ b with last_move_height_diff := 0 } : Board).workers.set j m } t
        = none := which_worker_none_iff.mpr htnw2
    have hw1 : artemis_walk { b with last_move_height_diff := 0 } j
        ((some m).toList ++ [t]) =
        Except.ok { ({ b with last_move_height_diff := 0 } : Board) with
          workers :=
            (({ b with last_move_height_diff := 0 } : Board).workers.set j m).set
              j t } := by
      show artemis_walk { b with last_move_height_diff := 0 } j (m :: [t]) = _
      unfold artemis_walk
      rw [hwn1]
      show artemis_walk
        { ({ b with last_move_height_diff := 0 } : Board) with
          workers :=
            ({ b with last_move_height_diff := 0 } : Board).workers.set j m } j [t] = _
      unfold artemis_walk
      rw [hwn2]
      rfl
    rw [hw1] at h
    dsimp only at h
    have hb2 := (Except.ok.inj h).symm
    subst hb2
    refine set_invariants ⟨hb25, hw4, hblocks, hnd, hwk, hturn⟩ hj4 hgd htnw ?_ ?_ ?_
    · exact List.set_set m t b.workers j
    · exact (set_build_heights _ (show b.blockAt t ≤ 3 by omega) rfl hbdt hbdf).1
    · exact (set_build_heights _ (show b.blockAt t ≤ 3 by omega) rfl hbdt hbdf).2

theorem apollo_apply_invariants {b : Board} {f t bd : Nat} {b' : Board}
    (hwf : board_wf b)
    (hbel : worker_belongs_to_current_player b f = true)
    (hval : apollo_move_is_valid b f t bd = true)
    (h : apollo_make_move { b with last_move_height_diff := 0 } f t bd
      = Except.ok b') :
    inv_ok b' := by
  obtain ⟨hadjN, hnone_part, hsome_part⟩ := apollo_valid_parts hval
  obtain ⟨hb25, hw4, hblocks, hnd, hwk, hturn⟩ := hwf
  obtain ⟨j, hj4, hgd, hside⟩ := belongs_slot hbel
  have hjl : j < b.workers.length := hw4 ▸ hj4
  have hidx : which_worker_is_here b f = some j := which_worker_slot hnd hjl hgd
  have hidx' : ({ b with last_move_height_diff := 0 } : Board).workers.findIdx?
      (· = f) = some j := hidx
  unfold apollo_make_move at h
  rw [hidx'] at h
  dsimp only at h
  cases hocc : which_worker_is_here b t with
  | none =>
    have hocc' : which_worker_is_here ({ b with last_move_height_diff := 0 } : Board) t
        = none := hocc
    rw [hocc'] at h
    dsimp only at h
    obtain ⟨h4, hbo⟩ := hnone_part hocc
    obtain ⟨hbdN, hbdt, hbdf⟩ := build_ok_sq_iff.mp hbo
    have htnw : t ∉ b.workers := which_worker_none_iff.mp hocc
    have hth : b.blockAt t ≤ 3 := by
      have := blockAt_le4 hblocks hb25 (NEIGHBOURS_lt25 hadjN)
      omega
    have hb2 := (Except.ok.inj h).symm
    subst hb2
    refine set_invariants ⟨hb25, hw4, hblocks, hnd, hwk, hturn⟩ hj4 hgd htnw rfl ?_ ?_
    · exact (set_build_heights _ hth rfl hbdt hbdf).1
    · exact (set_build_heights _ hth rfl hbdt hbdf).2
  | some occ =>
    have hocc' : which_worker_is_here ({ b with last_move_height_diff := 0 } : Board) t
        = some occ := hocc
    rw [hocc'] at h
    dsimp only at h
    obtain ⟨hopp, hbo, hfbd⟩ := hsome_part occ hocc
    have hopp' : is_opponent_worker ({ b with last_move_height_diff := 0 } : Board)
        (some occ) = true := hopp
    rw [if_neg (by simp [hopp'])] at h
    obtain ⟨hoccl, hocct, _⟩ := which_worker_spec hocc
    have hjo : j ≠ occ := mover_ne_opponent hside hopp
    obtain ⟨hbdN, hbdt2, hbdf⟩ := build_ok_sq_iff.mp hbo
    have hbdfree : is_free b bd = true := by
      rcases hbdf with he | hfr
      · exact absurd he hfbd
      · exact hfr
    have hbdnw : bd ∉ b.workers := (is_free_iff.mp hbdfree).1
    have hb2 := (Except.ok.inj h).symm
    subst hb2
    refine ⟨?_, ?_⟩
    · show ((b.workers.set occ f).set j t).Nodup
      refine nodup_set_set hnd hjo hjl hoccl (Or.inr hgd.symm) hocct.symm ?_
      rw [← hgd, ← hocct]
      exact nodup_getD_ne hnd hjl hoccl hjo
    · intro w hw
      have hw2 : w ∈ (b.workers.set occ f).set j t := hw
      have hwmem : w ∈ b.workers := by
        rcases mem_set_set hw2 with rfl | rfl | ⟨k, hk, _, _, hkw⟩
        · exact hocct ▸ getD_mem hoccl
        · exact hgd ▸ getD_mem hjl
        · exact hkw ▸ getD_mem hk
      show (b.blocks.set bd _).getD w 0 ≤ 3
      rw [getD_set_ne _ _ _ (show bd ≠ w from fun he => hbdnw (by rw [he]; exact hwmem))]
      exact (hwk _ hwmem).2

theorem minotaur_apply_invariants {b : Board} {f t bd : Nat} {b' : Board}
    (hwf : board_wf b)
    (hbel : worker_belongs_to_current_player b f = true)
    (hval : minotaur_move_is_valid b f t bd = true)
    (h : minotaur_make_move { b with last_move_height_diff := 0 } f t bd
      = Except.ok b') :
    inv_ok b' := by
  obtain ⟨hadjN, hnone_part, hsome_part⟩ := minotaur_valid_parts hval
  obtain ⟨hb25, hw4, hblocks, hnd, hwk, hturn⟩ := hwf
  obtain ⟨j, hj4, hgd, hside⟩ := belongs_slot hbel
  have hjl : j < b.workers.length := hw4 ▸ hj4
  unfold minotaur_make_move at h
  cases hocc : which_worker_is_here b t with
  | none =>
    have hocc' : which_worker_is_here ({ b with last_move_height_diff := 0 } : Board) t
        = none := hocc
    rw [hocc'] at h
    dsimp only at h
    obtain ⟨h4, hbo⟩ := hnone_part hocc
    obtain ⟨hbdN, hbdt, hbdf⟩ := build_ok_sq_iff.mp hbo
    have htnw : t ∉ b.workers := which_worker_none_iff.mp hocc
    have hth : b.blockAt t ≤ 3 := by
      have := blockAt_le4 hblocks hb25 (NEIGHBOURS_lt25 hadjN)
      omega
    have hb2 := (Except.ok.inj h).symm
    subst hb2
    exact moved_invariants ⟨hb25, hw4, hblocks, hnd, hwk, hturn⟩ hbel htnw rfl
      (set_build_heights _ hth rfl hbdt hbdf).1
      (set_build_heights _ hth rfl hbdt hbdf).2
  | some occ =>
    have hocc' : which_worker_is_here ({ b with last_move_height_diff := 0 } : Board) t
        = some occ := hocc
    rw [hocc'] at h
    dsimp only at h
    obtain ⟨hopp, push, hcp, hfr, hbo, hpbd⟩ := hsome_part occ hocc
    have hopp' : is_opponent_worker ({ b with last_move_height_diff := 0 } : Board)
        (some occ) = true := hopp
    rw [if_neg (by simp [hopp'])] at h
    rw [hcp] at h
    dsimp only at h
    have hfr' : is_free ({ b with last_move_height_diff := 0 } : Board) push = true := hfr
    rw [if_neg (by simp [hfr'])] at h
    obtain ⟨hoccl, hocct, _⟩ := which_worker_spec hocc
    have hjo : j ≠ occ := mover_ne_opponent hside hopp
    obtain ⟨hbdN, hbdt2, hbdf⟩ := build_ok_sq_iff.mp hbo
    have hpnw : push ∉ b.workers := (is_free_iff.mp hfr).1
    have hph4 : b.blockAt push < 4 := (is_free_iff.mp hfr).2
    have hnd2 : (b.workers.set occ push).Nodup := hnd.set hpnw
    have hgd2 : (b.workers.set occ push).getD j 0 = f := by
      rw [getD_set_ne _ _ _ (fun he => hjo he.symm)]
      exact hgd
    have hmwl : move_worker_list (b.workers.set occ push) f t
        = (b.workers.set occ push).set j t :=
      move_worker_list_eq_set t (by simpa using hjl) hgd2 hnd2
    have hb2 := (Except.ok.inj h).symm
    subst hb2
    refine ⟨?_, ?_⟩
    · show (move_worker_list (b.workers.set occ push) f t).Nodup
      rw [hmwl]
      refine nodup_set_set hnd hjo hjl hoccl (Or.inl hpnw) hocct.symm ?_
      intro he
      exact hpnw (by rw [he]; exact hocct ▸ getD_mem hoccl)
    · intro w hw
      have hw1 : w ∈ move_worker_list (b.workers.set occ push) f t := hw
      rw [hmwl] at hw1
      have hfacts : bd ≠ w ∧ b.blockAt w ≤ 3 := by
        rcases mem_set_set hw1 with he | he | ⟨k, hk', hkj, hko, hkw⟩
        · subst he
          exact ⟨fun heq => hbdt2 heq.symm, (hwk _ (hocct ▸ getD_mem hoccl)).2⟩
        · subst he
          exact ⟨fun heq => hpbd heq.symm, by omega⟩
        · have hwmem : w ∈ b.workers := hkw ▸ getD_mem hk'
          have hwf2 : w ≠ f := by
            rw [← hkw, ← hgd]
            exact nodup_getD_ne hnd hk' hjl hkj
          refine ⟨?_, (hwk _ hwmem).2⟩
          rcases hbdf with he2 | hfr2
          · exact fun heq => hwf2 (he2.trans heq).symm
          · intro heq
            exact (is_free_iff.mp hfr2).1 (by rw [heq]; exact hwmem)
      show (b.blocks.set bd _).getD w 0 ≤ 3
      rw [getD_set_ne _ _ _ hfacts.1]
      exact hfacts.2

/-- C9.  For every board satisfying the board invariants and every move that
`make_move` accepts (by C10 exactly the moves passing `move_is_valid`), the
board after `make_move` again has its four workers on pairwise-distinct
squares and none of them on a square of height 4 — covering the Apollo swap,
the Minotaur push destination, builds on the vacated from-square, and the
Prometheus pre-build on the destination square. -/
theorem make_move_preserves_worker_invariants {b : Board} {m : Move} {b1 : Board}
    (hwf : board_wf b) (h : make_move b m = Except.ok b1) :
    b1.workers.Nodup ∧ ∀ w ∈ b1.workers, b1.blockAt w ≤ 3 := by
  obtain ⟨hv, b', hg, hb1⟩ := make_move_ok h
  obtain ⟨hmatch, hbel, hnoup, hdisp⟩ := move_is_valid_true.mp hv
  suffices hinv : inv_ok b' by
    subst hb1
    exact ⟨hinv.1, fun w hw => hinv.2 w hw⟩
  cases hcg : current_god b with
  | APOLLO =>
    rw [hcg] at hdisp hg
    unfold dispatch_valid at hdisp
    unfold make_move_for_god at hg
    cases hk : m.kind <;> rw [hk] at hdisp hg hbel <;>
      dsimp only [apollo_view, MoveKind.from_sq] at hdisp hg hbel <;>
      first
      | exact Bool.noConfusion hdisp
      | exact apollo_apply_invariants hwf hbel hdisp hg
  | ARTEMIS =>
    rw [hcg] at hdisp hg
    unfold dispatch_valid at hdisp
    unfold make_move_for_god at hg
    cases hk : m.kind <;> rw [hk] at hdisp hg hbel <;>
      dsimp only [MoveKind.from_sq] at hdisp hg hbel <;>
      first
      | exact Bool.noConfusion hdisp
      | exact artemis_apply_invariants hwf hbel hdisp hg
  | ATHENA =>
    rw [hcg] at hdisp hg
    unfold dispatch_valid at hdisp
    unfold make_move_for_god at hg
    cases hk : m.kind <;> rw [hk] at hdisp hg hbel <;>
      dsimp only [MoveKind.from_sq] at hdisp hg hbel <;>
      first
      | exact Bool.noConfusion hdisp
      | (rw [except_pure] at hg
         rw [← Except.ok.inj hg]
         exact athena_apply_invariants hwf hbel hdisp)
  | ATLAS =>
    rw [hcg] at hdisp hg
    unfold dispatch_valid at hdisp
    unfold make_move_for_god at hg
    cases hk : m.kind <;> rw [hk] at hdisp hg hbel <;>
      dsimp only [MoveKind.from_sq] at hdisp hg hbel <;>
      first
      | exact Bool.noConfusion hdisp
      | (rw [except_pure] at hg
         rw [← Except.ok.inj hg]
         exact atlas_apply_invariants hwf hbel hdisp)
  | DEMETER =>
    rw [hcg] at hdisp hg
    unfold dispatch_valid at hdisp
    unfold make_move_for_god at hg
    cases hk : m.kind <;> rw [hk] at hdisp hg hbel <;>
      dsimp only [demeter_view, MoveKind.from_sq] at hdisp hg hbel <;>
      first
      | exact Bool.noConfusion hdisp
      | (rw [except_pure] at hg
         rw [← Except.ok.inj hg]
         exact demeter_apply_invariants hwf hbel (demeter_valid_parts hdisp).1
           (demeter_valid_parts hdisp).2)
  | HEPHAESTUS =>
    rw [hcg] at hdisp hg
    unfold dispatch_valid at hdisp
    unfold make_move_for_god at hg
    cases hk : m.kind <;> rw [hk] at hdisp hg hbel <;>
      dsimp only [MoveKind.from_sq] at hdisp hg hbel <;>
      first
      | exact Bool.noConfusion hdisp
      | (rw [except_pure] at hg
         rw [← Except.ok.inj hg]
         exact demeter_apply_invariants hwf hbel (hephaestus_valid_parts hdisp).1
           (hephaestus_valid_parts hdisp).2)
  | HERMES =>
    rw [hcg] at hdisp hg
    unfold dispatch_valid at hdisp
    unfold make_move_for_god at hg
    cases hk : m.kind <;> rw [hk] at hdisp hg hbel <;>
      dsimp only [MoveKind.from_sq] at hdisp hg hbel <;>
      first
      | exact Bool.noConfusion hdisp
      | (rw [except_pure] at hg
         rw [← Except.ok.inj hg]
         exact hermes_apply_invariants hwf hbel hdisp)
  | MINOTAUR =>
    rw [hcg] at hdisp hg
    unfold dispatch_valid at hdisp
    unfold make_move_for_god at hg
    cases hk : m.kind <;> rw [hk] at hdisp hg hbel <;>
      dsimp only [MoveKind.from_sq] at hdisp hg hbel <;>
      first
      | exact Bool.noConfusion hdisp
      | exact minotaur_apply_invariants hwf hbel hdisp hg
  | PAN =>
    rw [hcg] at hdisp hg
    unfold dispatch_valid at hdisp
    unfold make_move_for_god at hg
    cases hk : m.kind <;> rw [hk] at hdisp hg hbel <;>
      dsimp only [MoveKind.from_sq] at hdisp hg hbel <;>
      first
      | exact Bool.noConfusion hdisp
      | (rw [except_pure] at hg
         rw [← Except.ok.inj hg]
         exact pan_apply_invariants hwf hbel hdisp)
  | PROMETHEUS =>
    rw [hcg] at hdisp hg
    unfold dispatch_valid at hdisp
    unfold make_move_for_god at hg
    cases hk : m.kind <;> rw [hk] at hdisp hg hbel <;>
      dsimp only [MoveKind.from_sq] at hdisp hg hbel <;>
      first
      | exact Bool.noConfusion hdisp
      | (rw [except_pure] at hg
         rw [← Except.ok.inj hg]
         exact prometheus_apply_invariants hwf hbel hdisp)

/-! ### Cross-checks of the embedding against the repository's unit tests

Each `example` below replays one assertion of `board_tests.py` through the
embedded parser, move maker and state checker. -/

example :
    (parse_position "2N1N1N1N1N2N4N4N4N4N1N3N1N4N0G3N4N1N4N1G2N1B4N4N1B0060".toList).toOption.map check_state
      = some (-1) := by decide

example :
    ((do
      let b ← parse_position
        "2G0N0G0N0N0N0N0N0N0N0N0N0N0N0N0N0N0N0N0N0N0N0N0B0B0810".toList
      let b' ← make_move b ⟨.pan 0 1 5, false⟩
      pure (check_state b') : Except String Int)).toOption = some 1 := by decide

example :
    ((do
      let b ← parse_position
        "0G0G1N0B0B1N1N1N0N0N0N0N0N0N0N0N0N0N0N0N0N0N0N0N0N1020".toList
      let b' ← make_move b ⟨.athena 3 2 8, false⟩
      pure (check_state b') : Except String Int)).toOption = some (-1) := by decide

example :
    (parse_position "0N3N3N0G2G2N3N4N4N4N2N3N3N1B3N0N1N3N0B1N0N0N1N0N1N0580".toList).toOption.map check_state
      = some (-1) := by decide

example :
    ((do
      let b ← parse_position
        "0G1B0G0B0N0N0N0N0N0N0N0N0N0N0N0N0N0N0N0N0N0N0N0N0N0000".toList
      let b' ← make_move b ⟨.apollo 0 1 6, false⟩
      pure (b'.workers, b'.blockAt 6) : Except String (List Nat × Int))).toOption
      = some ([1, 2, 0, 3], 1) := by decide

example :
    (parse_position "0G0G2N0B0B2N2N2N0N0N0N0N0N0N0N0N0N0N0N0N0N0N0N0N0N0610".toList).toOption.map check_state
      = some 0 := by decide

example :
    (parse_position "1G1G3N1B1B3N3N3N1N1N1N1N1N1N1N1N1N1N1N1N1N1N1N1N1N0610".toList).toOption.map check_state
      = some 0 := by decide

example :
    ((do
      let b ← parse_position
        "0G0N2G2B3N0B0N0N0N0N0N0N0N0N0N0N0N0N0N0N0N0N0N0N0N0710".toList
      let b' ← make_move b ⟨.minotaur 2 3 2 false, false⟩
      pure (b'.workers, b'.blockAt 2, check_state b')
        : Except String (List Nat × Int × Int))).toOption
      = some ([0, 3, 4, 5], 3, 0) := by decide

example :
    ((do
      let b ← parse_position
        "0G1B0G0B0N0N0N0N0N0N0N0N0N0N0N0N0N0N0N0N0N0N0N0N0N0000".toList
      let b' ← make_move b ⟨.apollo 0 1 6, false⟩
      let b'' ← unmake_move b' ⟨.apollo 0 1 6, false⟩
      pure (decide ((parse_position
        "0G1B0G0B0N0N0N0N0N0N0N0N0N0N0N0N0N0N0N0N0N0N0N0N0N0000".toList).toOption
          = some b'')) : Except String Bool)).toOption = some true := by decide

/-! ### Claim C10: rejected moves leave the board untouched -/

/-- C10.  For every board and every move rejected by `move_is_valid`,
`make_move` raises (returns an error) — the validity check is the very first
statement of `make_move`, before any mutation, so in the state-passing
embedding no successor board is produced at all and every field (blocks,
workers, turn, athena flag, `last_move_height_diff`, `won`) is trivially
unchanged: failed applies are atomic. -/
theorem make_move_rejected_is_error (b : Board) (m : Move)
    (h : move_is_valid b m = false) :
    make_move b m = Except.error "Invalid move" := by
  simp [make_move, h]; rfl

/-- A board used by several witnesses: all heights 0, Gray workers on 0 and 1,
Blue workers on 23 and 24, Gray (Apollo) to move, Blue is Artemis. -/
def sample_board : Board :=
  ⟨List.replicate 25 0, [0, 1, 23, 24], 1, (God.APOLLO, God.ARTEMIS), false, 0, false⟩

/-- Witness for C10 at a concrete input: moving from 0 to the non-adjacent
square 24 is rejected and `make_move` errors out. -/
theorem make_move_rejected_is_error_witness :
    move_is_valid sample_board ⟨.apollo 0 24 1, false⟩ = false ∧
      make_move sample_board ⟨.apollo 0 24 1, false⟩ = Except.error "Invalid move" :=
  ⟨by decide, make_move_rejected_is_error sample_board ⟨.apollo 0 24 1, false⟩ (by decide)⟩

/-! ### Claim C2: the `won` flag is computed from post-apply heights -/

/-- A board where Gray's Pan worker on square 0 (height 2) can step up onto
square 1 (height 3) — a winning climb under the official rules and under the
spec's step-2 contract — while building on the vacated square 0. -/
def pan_win_board : Board :=
  ⟨[2, 3, 0, 0, 0, 0, 0, 0, 0, 0, 0, 0, 0, 0, 0, 0, 0, 0, 0, 0, 0, 0, 0, 0, 0],
    [0, 20, 23, 24], 1, (God.PAN, God.ARTEMIS), false, 0, false⟩

/-- C2 (the divergence, evaluated on the failing input).  The move from
square 0 (height 2, so `height(from) < 3`) onto square 1 (height 3) with the
build on the vacated square 0 is valid; the claim (and the spec's step 2)
requires `won = true` from the pre-apply heights, but `make_move` reads the
heights only after the god-specific apply has raised square 0 to height 3,
so it sets `won = false` and `check_state` misses the win. -/
theorem won_uses_post_apply_heights :
    board_wf pan_win_board ∧
      move_is_valid pan_win_board ⟨.pan 0 1 0, false⟩ = true ∧
      pan_win_board.blockAt 0 < 3 ∧ pan_win_board.blockAt 1 = 3 ∧
      (make_move pan_win_board ⟨.pan 0 1 0, false⟩).toOption.map
          (fun b' => (b'.won, check_state b'))
        = some (false, 0) := by
  refine ⟨by decide, by decide, by decide, by decide, by decide⟩

/-! ### Claim C8: terminal nodes return the static evaluation -/

/-- C8 (amended).  In the Python search there is no `ply` parameter and no
mate-score arithmetic at terminal nodes: whenever `check_state() != 0` (at
any depth, and also at `depth == 0`), `search` returns the static evaluation
`evaluate(board) = score_position(board) * turn`.  (Mate-magnitude scores
only arise from the empty-move-list branch, which returns `-MATE - depth`.) -/
theorem search_terminal_returns_evaluate (depth : Nat) (b : Board)
    (alpha beta : Int) (h : check_state b ≠ 0) :
    search depth b alpha beta = Except.ok (evaluate b) := by
  unfold search
  simp [h]; rfl

/-- The terminal position of `board_tests.TestApollo.test_misc`: Gray's
Apollo has no move, so `check_state = -1`. -/
def misc_board : Board :=
  ⟨[2, 1, 1, 1, 1, 2, 4, 4, 4, 4, 1, 3, 1, 4, 0, 3, 4, 1, 4, 1, 2, 1, 4, 4, 1],
    [14, 19, 21, 24], 1, (God.APOLLO, God.HERMES), false, 0, false⟩

/-- Witness for the amended C8 at a concrete input. -/
theorem search_terminal_returns_evaluate_witness :
    check_state misc_board ≠ 0 ∧
      search 3 misc_board (-MATE) MATE = Except.ok (evaluate misc_board) :=
  ⟨by decide, search_terminal_returns_evaluate 3 misc_board (-MATE) MATE (by decide)⟩

/-- C8 (counterexample to the claim as stated).  On a terminal board the
claim demands a side-relative mate score `±(MATE − ply)` (with `ply = 0` at
the call itself, and `|score| ≥ MATE − ply > 9000` for any ply below 1000);
the code instead returns the static evaluation, whose magnitude here is far
below any mate score, at every depth. -/
theorem search_terminal_not_mate_score :
    (parse_position
      "2N1N1N1N1N2N4N4N4N4N1N3N1N4N0G3N4N1N4N1G2N1B4N4N1B0060".toList).toOption
        = some misc_board ∧
      check_state misc_board = -1 ∧
      search 3 misc_board (-MATE) MATE = Except.ok (evaluate misc_board) ∧
      -9000 < evaluate misc_board ∧ evaluate misc_board < 9000 :=
  ⟨by decide, by decide,
    search_terminal_returns_evaluate 3 misc_board (-MATE) MATE (by decide),
    by decide, by decide⟩

/-! ### Claim C6: what the position parser accepts and rejects -/

/-- A height character: a digit whose value is at most 4. -/
def height_char_ok (c : Char) : Bool :=
  match charDigit? c with
  | some h => h ≤ 4
  | none => false

/-- An occupant character: `'G'`, `'B'` or `'N'`. -/
def worker_char_ok (c : Char) : Bool := c == 'G' || c == 'B' || c == 'N'

/-- A god character: a digit naming a valid god (all of 0..9 are). -/
def god_char_ok (c : Char) : Bool :=
  match charDigit? c with
  | some v => (God.ofNat? v).isSome
  | none => false

/-- The specified format restricted to the first 53 characters: length 54,
25 pairs of (height digit `'0'..'4'`, occupant in `{G,B,N}`) with exactly two
`'G'` and two `'B'`, a turn character in `{'0','1'}`, and two god digits. -/
def format53 (cs : List Char) : Bool :=
  cs.length == 54 &&
    (List.range 25).all (fun i =>
      height_char_ok (cs.getD (2 * i) ' ') && worker_char_ok (cs.getD (2 * i + 1) ' ')) &&
    ((List.range 25).countP (fun i => cs.getD (2 * i + 1) ' ' == 'G') == 2) &&
    ((List.range 25).countP (fun i => cs.getD (2 * i + 1) ' ' == 'B') == 2) &&
    (cs.getD 50 ' ' == '0' || cs.getD 50 ' ' == '1') &&
    god_char_ok (cs.getD 51 ' ') && god_char_ok (cs.getD 52 ' ')

/-- The full format stated by the claim: `format53` plus an athena-flag
character in `{'0','1'}`. -/
def claimed_format (cs : List Char) : Bool :=
  format53 cs && (cs.getD 53 ' ' == '0' || cs.getD 53 ' ' == '1')

/-- C6 (counterexample).  A 54-character string whose final (athena-flag)
character is `'2'` deviates from the specified format, yet the parser accepts
it: the source compares `position[53]` against `'1'` with no `else` branch,
so every character other than `'1'` silently means "flag off". -/
theorem parser_accepts_bad_flag_char :
    claimed_format
        "0G0G0N0N0N0N0N0N0N0N0N0N0N0N0N0N0N0N0N0N0N0N0N0B0B0012".toList = false ∧
      (parse_position
          "0G0G0N0N0N0N0N0N0N0N0N0N0N0N0N0N0N0N0N0N0N0N0N0B0B0012".toList).toOption.map
        (fun b => b.prevent_up_next_turn) = some false := by
  exact ⟨by decide, by decide⟩

/-- What one successful iteration of the square-scanning loop guarantees. -/
theorem parse_one_ok {cs : List Char} {i : Nat} {st st' : ParseSt}
    (h : parse_one cs i st = Except.ok st') :
    height_char_ok (cs.getD (2 * i) ' ') = true ∧
      worker_char_ok (cs.getD (2 * i + 1) ' ') = true ∧
      st'.2.2.1 = st.2.2.1 + (if cs.getD (2 * i + 1) ' ' == 'G' then 1 else 0) ∧
      st'.2.2.2 = st.2.2.2 + (if cs.getD (2 * i + 1) ' ' == 'B' then 1 else 0) := by
  obtain ⟨blocks, workers, ng, nb⟩ := st
  unfold parse_one at h
  cases hd : charDigit? (cs.getD (2 * i) ' ') with
  | none => rw [hd, except_throw] at h; exact Except.noConfusion h
  | some hgt =>
    rw [hd] at h
    dsimp only at h
    by_cases hh : hgt > 4
    · rw [if_pos hh, except_throw] at h; exact Except.noConfusion h
    · rw [if_neg hh] at h
      have hheight : height_char_ok (cs.getD (2 * i) ' ') = true := by
        simp only [height_char_ok, hd, decide_eq_true_eq]
        omega
      by_cases hG : cs.getD (2 * i + 1) ' ' = 'G'
      · rw [if_pos hG] at h
        by_cases hng : ng ≥ 2
        · rw [if_pos hng, except_throw] at h; exact Except.noConfusion h
        · rw [if_neg hng, except_pure] at h
          obtain rfl := (Except.ok.inj h).symm
          exact ⟨hheight, by rw [hG]; decide, by dsimp only; rw [hG]; simp,
            by dsimp only; rw [hG]; simp⟩
      · rw [if_neg hG] at h
        by_cases hB : cs.getD (2 * i + 1) ' ' = 'B'
        · rw [if_pos hB] at h
          by_cases hnb : nb ≥ 2
          · rw [if_pos hnb, except_throw] at h; exact Except.noConfusion h
          · rw [if_neg hnb, except_pure] at h
            obtain rfl := (Except.ok.inj h).symm
            exact ⟨hheight, by rw [hB]; decide, by dsimp only; rw [hB]; simp,
              by dsimp only; rw [hB]; simp⟩
        · rw [if_neg hB] at h
          by_cases hN : cs.getD (2 * i + 1) ' ' = 'N'
          · rw [if_pos hN, except_pure] at h
            obtain rfl := (Except.ok.inj h).symm
            exact ⟨hheight, by rw [hN]; decide, by dsimp only; rw [hN]; simp,
              by dsimp only; rw [hN]; simp⟩
          · rw [if_neg hN, except_throw] at h; exact Except.noConfusion h

/-- What the whole square-scanning loop guarantees: every scanned pair is
well-formed and the gray/blue counters advance by the respective counts. -/
theorem parse_squares_ok {cs : List Char} :
    ∀ (count i : Nat) (st st' : ParseSt),
      parse_squares cs i count st = Except.ok st' →
      (∀ k ∈ List.range' i count,
          height_char_ok (cs.getD (2 * k) ' ') = true ∧
            worker_char_ok (cs.getD (2 * k + 1) ' ') = true) ∧
        st'.2.2.1 = st.2.2.1
          + (List.range' i count).countP (fun k => cs.getD (2 * k + 1) ' ' == 'G') ∧
        st'.2.2.2 = st.2.2.2
          + (List.range' i count).countP (fun k => cs.getD (2 * k + 1) ' ' == 'B') := by
  intro count
  induction count with
  | zero =>
    intro i st st' h
    simp [parse_squares, pure, Except.pure] at h
    subst h
    simp [List.range']
  | succ n ih =>
    intro i st st' h
    rw [parse_squares] at h
    cases hp : parse_one cs i st with
    | error e => rw [hp] at h; simp [Bind.bind, Except.bind] at h
    | ok st1 =>
      rw [hp] at h
      simp only [Bind.bind, Except.bind] at h
      obtain ⟨h1, h2, h3, h4⟩ := parse_one_ok hp
      obtain ⟨ha, hg, hb⟩ := ih (i + 1) st1 st' h
      refine ⟨?_, ?_, ?_⟩
      · intro k hk
        rw [List.range'_succ] at hk
        rcases List.mem_cons.mp hk with hk | hk
        · subst hk; exact ⟨h1, h2⟩
        · exact ha k hk
      · rw [List.range'_succ, List.countP_cons]
        rw [hg, h3]; split <;> omega
      · rw [List.range'_succ, List.countP_cons]
        rw [hb, h4]; split <;> omega

/-- A successful bind through the god-digit parser forces a valid god digit. -/
theorem god_parse_ok {α : Type} {c : Char} {rest : God → Except String α} {out : α}
    (h : (parse_god c >>= rest) = Except.ok out) :
    god_char_ok c = true ∧ ∃ g, rest g = Except.ok out := by
  unfold parse_god at h
  cases hd : charDigit? c with
  | none => rw [hd] at h; dsimp only at h; rw [except_bind_error] at h
            exact Except.noConfusion h
  | some v =>
    rw [hd] at h
    dsimp only at h
    cases hg : God.ofNat? v with
    | none => rw [hg] at h; dsimp only at h; rw [except_bind_error] at h
              exact Except.noConfusion h
    | some g =>
      rw [hg] at h
      dsimp only at h
      rw [except_bind_ok] at h
      exact ⟨by simp [god_char_ok, hd, hg], g, h⟩

/-- Assembling `format53` from its individual components. -/
theorem format53_of_parts {cs : List Char} (hlen : cs.length = 54)
    (hall : ∀ k ∈ List.range' 0 25,
      height_char_ok (cs.getD (2 * k) ' ') = true ∧
        worker_char_ok (cs.getD (2 * k + 1) ' ') = true)
    (hg : (List.range' 0 25).countP (fun k => cs.getD (2 * k + 1) ' ' == 'G') = 2)
    (hb : (List.range' 0 25).countP (fun k => cs.getD (2 * k + 1) ' ' == 'B') = 2)
    (h50 : cs.getD 50 ' ' = '0' ∨ cs.getD 50 ' ' = '1')
    (h51 : god_char_ok (cs.getD 51 ' ') = true)
    (h52 : god_char_ok (cs.getD 52 ' ') = true) : format53 cs = true := by
  have hr : List.range 25 = List.range' 0 25 := List.range_eq_range' 25
  simp only [format53, Bool.and_eq_true, beq_iff_eq, Bool.or_eq_true, List.all_eq_true, hr]
  refine ⟨⟨⟨⟨⟨⟨hlen, ?_⟩, hg⟩, hb⟩, ?_⟩, h51⟩, h52⟩
  · intro k hk
    obtain ⟨h1, h2⟩ := hall k hk
    exact ⟨h1, h2⟩
  · exact h50

/-- C6 (amended).  Restricted to strings of ASCII characters — where the
`charDigit?` embedding of Python's `int(c)` is exact; `int` also accepts
non-ASCII Unicode decimal digits such as `'４'`, so outside ASCII the real
parser accepts further deviating strings — the parser rejects every
54-character string that deviates from the specified format in its first 53
characters: the 25 (height digit `'0'..'4'`, occupant `∈ {G,B,N}`) pairs with
exactly two `'G'` and two `'B'`, the turn character `∈ {'0','1'}`, and the
two god digits.  Whenever parsing succeeds the first 53 characters are
well-formed, so any ASCII string deviating there is rejected.  (The 54th,
athena-flag character is NOT validated — see the counterexample — so the
claim's flag clause is dropped.) -/
theorem parse_ok_format53 (cs : List Char) (b : Board)
    (_hascii : ∀ c ∈ cs, c.toNat < 128)
    (h : parse_position cs = Except.ok b) : format53 cs = true := by
  unfold parse_position at h
  by_cases hlen : cs.length = 54
  · rw [if_neg (by simp [hlen])] at h
    cases hps : parse_squares cs 0 25 (List.replicate 25 (0 : Int), List.replicate 4 0, 0, 0) with
    | error e =>
      rw [hps, except_bind_error] at h
      exact Except.noConfusion h
    | ok st =>
      rw [hps, except_bind_ok] at h
      obtain ⟨blocks, workers, ng, nb⟩ := st
      obtain ⟨hall, hng, hnb⟩ := parse_squares_ok 25 0 _ _ hps
      dsimp only at h hng hnb
      split at h
      next hcnt => rw [except_throw] at h; exact Except.noConfusion h
      next hcnt =>
        have hng2 : ng = 2 := by
          by_contra hx; exact hcnt (by simp [hx])
        have hnb2 : nb = 2 := by
          by_contra hx; exact hcnt (by simp [hx])
        have hcountg :
            (List.range' 0 25).countP (fun k => cs.getD (2 * k + 1) ' ' == 'G') = 2 := by
          omega
        have hcountb :
            (List.range' 0 25).countP (fun k => cs.getD (2 * k + 1) ' ' == 'B') = 2 := by
          omega
        have hturn : cs.getD 50 ' ' = '0' ∨ cs.getD 50 ' ' = '1' := by
          by_contra hne
          push_neg at hne
          rw [if_neg hne.1, if_neg hne.2, except_throw, except_bind_error] at h
          exact Except.noConfusion h
        have h' : ∃ turn : Int,
            (parse_god (cs.getD 51 ' ') >>= fun g0 =>
             parse_god (cs.getD 52 ' ') >>= fun g1 =>
              (pure ⟨blocks, workers, turn, (g0, g1), cs.getD 53 ' ' == '1', 0, false⟩
                : Except String Board))
              = Except.ok b := by
          rcases hturn with h50 | h50
          · rw [if_pos h50, except_pure, except_bind_ok] at h
            exact ⟨1, h⟩
          · by_cases h50' : cs.getD 50 ' ' = '0'
            · rw [if_pos h50', except_pure, except_bind_ok] at h
              exact ⟨1, h⟩
            · rw [if_neg h50', if_pos h50, except_pure, except_bind_ok] at h
              exact ⟨-1, h⟩
        obtain ⟨turn, h⟩ := h'
        obtain ⟨h51, g0, h⟩ := god_parse_ok h
        obtain ⟨h52, g1, _⟩ := god_parse_ok h
        exact format53_of_parts hlen hall hcountg hcountb hturn h51 h52
  · rw [if_pos (by simp [hlen]), except_throw] at h
    exact Except.noConfusion h

/-- Witness for the amended C6 at a concrete input: a fully well-formed
string parses, and the theorem yields `format53`. -/
theorem parse_ok_format53_witness :
    (∀ c ∈ "0G0G0N0N0N0N0N0N0N0N0N0N0N0N0N0N0N0N0N0N0N0N0N0B0B0010".toList,
      c.toNat < 128) ∧
    parse_position
        "0G0G0N0N0N0N0N0N0N0N0N0N0N0N0N0N0N0N0N0N0N0N0N0B0B0010".toList
      = Except.ok sample_board ∧
    format53
        "0G0G0N0N0N0N0N0N0N0N0N0N0N0N0N0N0N0N0N0N0N0N0N0B0B0010".toList = true :=
  have hp : parse_position
      "0G0G0N0N0N0N0N0N0N0N0N0N0N0N0N0N0N0N0N0N0N0N0N0B0B0010".toList
        = Except.ok sample_board := except_ok_of_toOption (by decide)
  ⟨by decide, hp, parse_ok_format53 _ _ (by decide) hp⟩

/-! ### Claim C5: the Hermes move-existence check -/

/-- pointwise congruence for `List.any`. -/
theorem list_any_congr {α : Type} {l : List α} {p q : α → Bool}
    (h : ∀ a ∈ l, p a = q a) : l.any p = l.any q := by
  induction l with
  | nil => rfl
  | cons x xs ih =>
    simp only [List.any_cons]
    rw [h x (by simp), ih (fun a ha => h a (by simp [ha]))]

theorem blockAt_le_four {b : Board} (hb : ∀ h ∈ b.blocks, 0 ≤ h ∧ h ≤ 4)
    (n : Nat) : b.blockAt n ≤ 4 := by
  unfold Board.blockAt
  rcases h : b.blocks[n]? with _ | v
  · simp [List.getD_eq_getElem?_getD, h]
  · have hm := hb v (List.getElem?_mem h)
    simp only [List.getD_eq_getElem?_getD, h, Option.getD_some]
    exact hm.2

/-- The per-neighbour existence test, specialised to Hermes: it reduces to
the neighbour being free (unoccupied and not a dome), not merely non-domed. -/
theorem any_move_via_hermes {b : Board} (hb : ∀ h ∈ b.blocks, 0 ≤ h ∧ h ≤ 4)
    (w n : Nat) : any_move_via b God.HERMES w n = is_free b n := by
  unfold any_move_via
  by_cases h4 : b.blockAt n = 4
  · rw [if_pos (by simp [h4])]
    simp [is_free, h4]
  · rw [if_neg (by simp [h4])]
    by_cases hfree : is_free b n
    · simp [hfree]
    · have hlt : b.blockAt n < 4 :=
        lt_of_le_of_ne (blockAt_le_four hb n) h4
      have hmem : n ∈ b.workers := by
        by_contra hnm
        exact hfree (by simp [is_free, hnm, hlt])
      obtain ⟨i, hi⟩ := Option.isSome_iff_exists.mp (which_worker_isSome_iff.mpr hmem)
      have hfree' : is_free b n = false := eq_false_of_ne_true hfree
      simp [hfree', hi]

/-- `sample_board` with Hermes for Gray. -/
def hermes_free_board : Board :=
  ⟨List.replicate 25 0, [0, 1, 23, 24], 1, (God.HERMES, God.ARTEMIS), false, 0, false⟩

/-- the move-existence predicate the claim asserts for Hermes: some neighbour
of one of the side's workers is not a dome (occupancy ignored). -/
def claimed_hermes_move_exists (b : Board) (side : Int) : Bool :=
  (if side = 1 then [b.workerAt 0, b.workerAt 1]
   else [b.workerAt 2, b.workerAt 3]).any
    (fun w => (NEIGHBOURS w).any (fun n => !(b.blockAt n == 4)))

/-- A Hermes position in which every neighbour of both Gray workers is a dome
or an occupied square, with at least one occupied non-dome neighbour. -/
def hermes_stuck_board : Board :=
  ⟨[0, 0, 0, 0, 0, 4, 4, 4, 4, 0, 0, 0, 0, 0, 0, 0, 0, 0, 0, 0, 0, 0, 0, 0, 0],
    [0, 2, 1, 3], 1, (God.HERMES, God.APOLLO), false, 0, false⟩

/-- C5 (counterexample).  On `hermes_stuck_board` the claim's predicate
("some neighbour is not a dome, regardless of occupancy") holds, yet the
code's move-existence check is false — and rightly so: the generator also
returns no move, because Hermes cannot move onto or build on an occupied
square.  The claim's `iff` therefore fails in the ← direction. -/
theorem hermes_exists_claim_false :
    board_wf hermes_stuck_board ∧
      claimed_hermes_move_exists hermes_stuck_board 1 = true ∧
      player_has_any_valid_move hermes_stuck_board 1 = false ∧
      generate_moves hermes_stuck_board = [] := by
  exact ⟨by decide, by decide, by decide, by decide⟩

/-- C5 (amended).  For a player whose god is Hermes, the move-existence check
reports that a move exists if and only if at least one neighbour of one of
that player's workers is FREE — not a dome and not occupied by any worker. -/
theorem hermes_any_move_iff_free_neighbour (b : Board) (side : Int)
    (hwf : board_wf b)
    (hgod : (if side = 1 then b.gods.1 else b.gods.2) = God.HERMES) :
    player_has_any_valid_move b side =
      (if side = 1 then [b.workerAt 0, b.workerAt 1]
       else [b.workerAt 2, b.workerAt 3]).any
        (fun w => (NEIGHBOURS w).any (fun n => is_free b n)) := by
  obtain ⟨-, -, hblocks, -⟩ := hwf
  unfold player_has_any_valid_move
  rw [hgod]
  by_cases hside : side = 1 <;>
    simp only [hside, if_pos, if_neg, if_true, reduceIte, List.any_cons, List.any_nil,
      Bool.or_false] <;>
    rw [list_any_congr (fun n _ => any_move_via_hermes hblocks _ n),
      list_any_congr (fun n _ => any_move_via_hermes hblocks _ n)]

/-- Witness for the amended C5 at a concrete input: on `sample_board` with
Hermes for Gray both sides of the equivalence are true. -/
theorem hermes_any_move_iff_free_neighbour_witness :
    board_wf hermes_free_board ∧
      (if (1 : Int) = 1 then hermes_free_board.gods.1
       else hermes_free_board.gods.2) = God.HERMES ∧
      player_has_any_valid_move hermes_free_board 1 =
        (if (1 : Int) = 1
         then [hermes_free_board.workerAt 0, hermes_free_board.workerAt 1]
         else [hermes_free_board.workerAt 2, hermes_free_board.workerAt 3]).any
          (fun w => (NEIGHBOURS w).any (fun n => is_free hermes_free_board n)) :=
  ⟨by decide, by decide,
    hermes_any_move_iff_free_neighbour hermes_free_board 1 (by decide) (by decide)⟩

/-! ### Claim C7: Demeter's generator and duplicate builds -/

/-- Membership in the generated move list: the kind comes from the raw
generator, is valid, and the move is stamped with the current flag. -/
theorem mem_generate_moves {b : Board} {m : Move} :
    m ∈ generate_moves b ↔
      m.had_athena_flag = b.prevent_up_next_turn ∧
        m.kind ∈ generate_moves_raw b ∧ move_is_valid b ⟨m.kind, false⟩ = true := by
  simp only [generate_moves, List.mem_map, List.mem_filter]
  constructor
  · rintro ⟨k, ⟨hk, hv⟩, rfl⟩
    exact ⟨rfl, hk, hv⟩
  · rintro ⟨hf, hk, hv⟩
    exact ⟨m.kind, ⟨hk, hv⟩, by cases m with | mk k fl => cases hf; rfl⟩

theorem NEIGHBOURS_nodup (a : Nat) : (NEIGHBOURS a).Nodup :=
  (List.nodup_range 25).filter _

theorem get_build_sq_nodup (b : Board) (f t : Nat) : (get_build_sq b f t).Nodup :=
  (NEIGHBOURS_nodup t).filter _

theorem worker_index_nodup {b : Board} (hwf : board_wf b) :
    (get_worker_index b).Nodup := by
  obtain ⟨-, -, -, hnd, -⟩ := hwf
  unfold get_worker_index
  split
  · exact hnd.sublist (List.take_sublist 2 b.workers)
  · exact hnd.sublist (List.drop_sublist 2 b.workers)

/-- `move_is_valid` specialised to a Demeter mover and a `DemeterMove`. -/
theorem move_is_valid_demeter {b : Board} {f t b1 : Nat} {ob : Option Nat}
    (hgod : (if b.turn = 1 then b.gods.1 else b.gods.2) = God.DEMETER) :
    move_is_valid b ⟨.demeter f t b1 ob, false⟩ =
      (worker_belongs_to_current_player b f &&
        !(b.prevent_up_next_turn && attempts_to_move_up b (.demeter f t b1 ob)) &&
        demeter_move_is_valid b f t b1 ob) := by
  unfold move_is_valid current_god
  rw [hgod]
  by_cases h1 : worker_belongs_to_current_player b f
  · by_cases h2 : b.prevent_up_next_turn && attempts_to_move_up b (.demeter f t b1 ob)
    · simp [h1, h2, MoveKind.from_sq, god_move_match, demeter_view, dispatch_valid]
    · simp [h1, h2, MoveKind.from_sq, god_move_match, demeter_view, dispatch_valid]
  · simp [h1, MoveKind.from_sq, god_move_match, demeter_view, dispatch_valid]

/-- `demeter_move_is_valid` with a second build, as a conjunction. -/
theorem demeter_valid_some {b : Board} {f t b1 b2 : Nat} :
    demeter_move_is_valid b f t b1 (some b2) =
      (complete_checks_sq b f t b1 && !(b2 == b1) && build_ok_sq b f t b2) := by
  unfold demeter_move_is_valid
  by_cases h1 : complete_checks_sq b f t b1 <;>
    by_cases h2 : (b2 == b1) = true <;>
    by_cases h3 : build_ok_sq b f t b2 <;>
    simp [h1, h2, h3]

/-- the (build1, build2) pair constructor of `_generate_moves_demeter`'s
innermost loop. -/
def demeter_mk (f t b1 b2 : Nat) : MoveKind :=
  if b1 = b2 then MoveKind.demeter f t b1 none else MoveKind.demeter f t b1 (some b2)

/-- projections used to tell generated Demeter kinds apart -/
def demeter_t : MoveKind → Nat
  | .demeter _ t _ _ => t
  | _ => 0

def demeter_b1 : MoveKind → Nat
  | .demeter _ _ b1 _ => b1
  | _ => 0

theorem demeter_mk_from_sq (f t b1 b2 : Nat) : (demeter_mk f t b1 b2).from_sq = f := by
  unfold demeter_mk; split <;> rfl

theorem demeter_mk_t (f t b1 b2 : Nat) : demeter_t (demeter_mk f t b1 b2) = t := by
  unfold demeter_mk; split <;> rfl

theorem demeter_mk_b1 (f t b1 b2 : Nat) : demeter_b1 (demeter_mk f t b1 b2) = b1 := by
  unfold demeter_mk; split <;> rfl

theorem generate_moves_demeter_eq (b : Board) :
    generate_moves_demeter b =
      (get_worker_index b).flatMap (fun f =>
        ((NEIGHBOURS f).filter
            (fun t => is_free b t && b.blockAt t - b.blockAt f ≤ 1)).flatMap
          (fun t =>
            (get_build_sq b f t).flatMap (fun b1 =>
              (get_build_sq b f t).map (fun b2 => demeter_mk f t b1 b2)))) := rfl

/-- A Demeter board built so that the only moves are from the worker on
square 0 to square 1, with builds on squares 0 and 2. -/
def demeter_board : Board :=
  ⟨[0, 0, 0, 0, 0, 4, 4, 4, 0, 0, 0, 0, 0, 0, 0, 0, 0, 0, 4, 4, 0, 0, 0, 4, 0],
    [0, 24, 3, 4], 1, (God.DEMETER, God.APOLLO), false, 0, false⟩

/-- C7 (counterexample).  On `demeter_board` the generator emits BOTH
`DemeterMove(0, 1, build_sq_1 = 0, build_sq_2 = 2)` and
`DemeterMove(0, 1, build_sq_1 = 2, build_sq_2 = 0)`: two distinct moves with
the same worker, the same destination and the same unordered pair of build
squares — the inner loops range over the full square of the build list,
not over pairs with `b1 ≤ b2`. -/
theorem demeter_emits_both_orders :
    board_wf demeter_board ∧
      (⟨.demeter 0 1 0 (some 2), false⟩ : Move) ∈ generate_moves demeter_board ∧
      (⟨.demeter 0 1 2 (some 0), false⟩ : Move) ∈ generate_moves demeter_board ∧
      (⟨.demeter 0 1 0 (some 2), false⟩ : Move) ≠ ⟨.demeter 0 1 2 (some 0), false⟩ := by
  exact ⟨by decide, by decide, by decide, by decide⟩

/-- C7 (amended).  For a Demeter mover the generator never emits the same
move VALUE twice (the emitted list is duplicate-free, so in particular a
single-build move is emitted only once per build square), but every two-build
combination with distinct squares is emitted in both orders: whenever
`(f, t, b1, b2)` is emitted, so is `(f, t, b2, b1)`. -/
theorem demeter_generator_duplicates (b : Board) (hwf : board_wf b)
    (hgod : (if b.turn = 1 then b.gods.1 else b.gods.2) = God.DEMETER) :
    (generate_moves b).Nodup ∧
      ∀ m ∈ generate_moves b, ∀ f t b1 b2,
        m.kind = MoveKind.demeter f t b1 (some b2) →
          (⟨MoveKind.demeter f t b2 (some b1), m.had_athena_flag⟩ : Move)
            ∈ generate_moves b := by
  have hraw : generate_moves_raw b = generate_moves_demeter b := by
    unfold generate_moves_raw
    rw [hgod]
  constructor
  · -- duplicate-freedom
    apply List.Nodup.map
    · intro x y hxy
      simpa using hxy
    · apply List.Nodup.filter
      rw [hraw, generate_moves_demeter_eq]
      rw [List.nodup_flatMap]
      refine ⟨?_, ?_⟩
      · intro f hf
        rw [List.nodup_flatMap]
        refine ⟨?_, ?_⟩
        · intro t ht
          rw [List.nodup_flatMap]
          refine ⟨?_, ?_⟩
          · intro b1 hb1
            refine List.Nodup.map ?_ (get_build_sq_nodup b f t)
            intro x y hxy
            unfold demeter_mk at hxy
            dsimp only at hxy
            split_ifs at hxy with h1 h2 h2
            · exact h1.symm.trans h2
            · simp at hxy
            · simp at hxy
            · simpa using hxy
          · refine List.Pairwise.imp ?_ (get_build_sq_nodup b f t)
            intro b1 b1' hne k hk1 hk2
            obtain ⟨x, _, hkx⟩ := List.mem_map.mp hk1
            obtain ⟨y, _, hky⟩ := List.mem_map.mp hk2
            exact hne (by rw [← demeter_mk_b1 f t b1 x, hkx, ← hky, demeter_mk_b1])
        · refine List.Pairwise.imp ?_ ((NEIGHBOURS_nodup f).filter _)
          intro t t' hne k hk1 hk2
          obtain ⟨x1, _, hx1⟩ := List.mem_flatMap.mp hk1
          obtain ⟨x2, _, hkx⟩ := List.mem_map.mp hx1
          obtain ⟨y1, _, hy1⟩ := List.mem_flatMap.mp hk2
          obtain ⟨y2, _, hky⟩ := List.mem_map.mp hy1
          exact hne (by rw [← demeter_mk_t f t x1 x2, hkx, ← hky, demeter_mk_t])
      · refine List.Pairwise.imp ?_ (worker_index_nodup hwf)
        intro f f' hne k hk1 hk2
        obtain ⟨t1, _, h1⟩ := List.mem_flatMap.mp hk1
        obtain ⟨x1, _, h1'⟩ := List.mem_flatMap.mp h1
        obtain ⟨x2, _, hkx⟩ := List.mem_map.mp h1'
        obtain ⟨t2, _, h2⟩ := List.mem_flatMap.mp hk2
        obtain ⟨y1, _, h2'⟩ := List.mem_flatMap.mp h2
        obtain ⟨y2, _, hky⟩ := List.mem_map.mp h2'
        exact hne (by rw [← demeter_mk_from_sq f t1 x1 x2, hkx, ← hky,
          demeter_mk_from_sq])
  · -- both orders
    intro m hm f t b1 b2 hkind
    obtain ⟨hflag, hkraw, hvalid⟩ := mem_generate_moves.mp hm
    rw [hkind] at hkraw hvalid
    rw [hraw, generate_moves_demeter_eq] at hkraw
    obtain ⟨f', hf', rest⟩ := List.mem_flatMap.mp hkraw
    obtain ⟨t', ht', rest2⟩ := List.mem_flatMap.mp rest
    obtain ⟨x, hx, rest3⟩ := List.mem_flatMap.mp rest2
    obtain ⟨y, hy, hmk⟩ := List.mem_map.mp rest3
    unfold demeter_mk at hmk
    rcases ite_eq_iff.mp hmk with ⟨hxy, hmk'⟩ | ⟨hxy, hmk'⟩
    · simp at hmk'
    · obtain ⟨hff, htt, hb1x, hb2y⟩ : f' = f ∧ t' = t ∧ x = b1 ∧ some y = some b2 := by
        simpa using hmk'
      obtain rfl := hff
      obtain rfl := htt
      obtain rfl := hb1x
      obtain rfl : y = b2 := by simpa using hb2y
      rw [mem_generate_moves]
      refine ⟨by simpa using hflag, ?_, ?_⟩
      · rw [hraw, generate_moves_demeter_eq]
        refine List.mem_flatMap.mpr ⟨f', hf',
          List.mem_flatMap.mpr ⟨t', ht', List.mem_flatMap.mpr ⟨y, hy,
            List.mem_map.mpr ⟨x, hx, ?_⟩⟩⟩⟩
        unfold demeter_mk
        rw [if_neg (fun he => hxy he.symm)]
      · rw [move_is_valid_demeter hgod] at hvalid ⊢
        simp only [Bool.and_eq_true, Bool.not_eq_true'] at hvalid ⊢
        obtain ⟨⟨hbel, hath⟩, hval⟩ := hvalid
        rw [demeter_valid_some] at hval
        simp only [Bool.and_eq_true, Bool.not_eq_true'] at hval
        obtain ⟨⟨hcomp, hneq⟩, hbo2⟩ := hval
        have hmcb : move_checks_sq b f' t' = true ∧ build_ok_sq b f' t' x = true := by
          have h' := hcomp
          unfold complete_checks_sq at h'
          simpa using h'
        refine ⟨⟨hbel, ?_⟩, ?_⟩
        · simpa [attempts_to_move_up, MoveKind.final_sq, MoveKind.from_sq] using hath
        · rw [demeter_valid_some]
          simp only [Bool.and_eq_true, Bool.not_eq_true']
          refine ⟨⟨?_, ?_⟩, hmcb.2⟩
          · unfold complete_checks_sq
            simp [hmcb.1, hbo2]
          · simp only [beq_eq_false_iff_ne, ne_eq]
            exact fun he => hxy he

/-- Witness for the amended C7 at a concrete input: the generated list on
`demeter_board` is duplicate-free and the transposed two-build move of the
counterexample is in the list. -/
theorem demeter_generator_duplicates_witness :
    (generate_moves demeter_board).Nodup ∧
      (⟨MoveKind.demeter 0 1 2 (some 0), false⟩ : Move)
        ∈ generate_moves demeter_board :=
  ⟨(demeter_generator_duplicates demeter_board (by decide) (by decide)).1,
    (demeter_generator_duplicates demeter_board (by decide) (by decide)).2
      ⟨.demeter 0 1 0 (some 2), false⟩ (by decide) 0 1 0 2 rfl⟩

/-! ### The make/unmake round trip (claim C1) -/

theorem dec_inc_list {l : List Int} {sq : Nat} (h : sq < l.length) :
    (l.set sq (l.getD sq 0 + 1)).set sq
      ((l.set sq (l.getD sq 0 + 1)).getD sq 0 - 1) = l := by
  rw [getD_set_self _ _ _ _ h, List.set_set]
  have he : l.getD sq 0 + 1 - 1 = l.getD sq 0 := by ring
  rw [he]
  exact set_getD_self l sq 0 h

theorem set_restore {l : List Int} {sq : Nat} {v : Int} (h : sq < l.length) :
    (l.set sq v).set sq (l.getD sq 0) = l := by
  rw [List.set_set]
  exact set_getD_self l sq 0 h

/-- converse of `opponent_slot`. -/
theorem opponent_of_slot {b : Board} {occ : Nat}
    (h : (b.turn = 1 ∧ (occ = 2 ∨ occ = 3)) ∨ (b.turn ≠ 1 ∧ (occ = 0 ∨ occ = 1))) :
    is_opponent_worker b (some occ) = true := by
  unfold is_opponent_worker
  dsimp only
  rcases h with ⟨ht, ho⟩ | ⟨ht, ho⟩
  · rw [if_pos ht]
    rcases ho with rfl | rfl <;> simp
  · rw [if_neg ht]
    rcases ho with rfl | rfl <;> simp

/-- `_is_opponent_worker` reads only the turn. -/
theorem is_opponent_congr {b c : Board} {w : Option Nat} (ht : c.turn = b.turn) :
    is_opponent_worker c w = is_opponent_worker b w := by
  unfold is_opponent_worker
  cases w with
  | none => rfl
  | some i => rw [ht]

/-- moving a worker onto its own square leaves the worker list unchanged. -/
theorem move_worker_list_self {b : Board} {f : Nat} (hwf : board_wf b)
    (hbel : worker_belongs_to_current_player b f = true) :
    move_worker_list b.workers f f = b.workers := by
  obtain ⟨hb25, hw4, hblocks, hnd, hwk, hturn⟩ := hwf
  obtain ⟨j, hj4, hgd, hside⟩ := belongs_slot hbel
  rw [move_worker_list_eq_set f (hw4 ▸ hj4) hgd hnd, ← hgd,
    set_getD_self b.workers j 0 (hw4 ▸ hj4)]

/-- The state on which `unmake_move` runs the per-god undo function: turn
flipped back, `won` cleared, the flag restored from `had_athena_flag`. -/
def unmake_base (c : Board) (m : Move) : Board :=
  { c with
    turn := -c.turn
    won := false
    prevent_up_next_turn := m.had_athena_flag }

/-- One evaluation step of `unmake_move`: when the move class matches the
mover's god, it runs the undo function on `unmake_base`. -/
theorem unmake_move_step {c : Board} {m : Move}
    (hm : god_move_match (current_god { c with turn := -c.turn }) m.kind = true) :
    unmake_move c m = (match m.kind with
      | .apollo f t bd => undo_apollo_move (unmake_base c m) f t bd
      | .artemis f t bd _ => undo_artemis_move (unmake_base c m) f t bd
      | .athena f t bd => undo_athena_move (unmake_base c m) f t bd
      | .atlas f t bd _ orig => undo_atlas_move (unmake_base c m) f t bd orig
      | .demeter f t b1 b2 => undo_demeter_move (unmake_base c m) f t b1 b2
      | .hephaestus f t b1 b2 => undo_demeter_move (unmake_base c m) f t b1 b2
      | .hermes f sqs bd => undo_hermes_move (unmake_base c m) f sqs bd
      | .minotaur f t bd pushed => undo_minotaur_move (unmake_base c m) f t bd pushed
      | .pan f t bd => undo_pan_move (unmake_base c m) f t bd
      | .prometheus f t bd opt =>
        undo_prometheus_move (unmake_base c m) f t bd opt) := by
  unfold unmake_move
  dsimp only
  rw [if_neg (by simp [hm])]
  cases m with
  | mk k had => cases k <;> rfl

/-- the common undo step: find the moved worker at its destination and note
that putting it back restores the original list. -/
theorem undo_find_core {b : Board} (c : Board) {f fin : Nat}
    (hwf : board_wf b) (hbel : worker_belongs_to_current_player b f = true)
    (hfin : fin ∉ b.workers)
    (hcw : c.workers = move_worker_list b.workers f fin)
    (hct : c.turn = b.turn) :
    ∃ j, find_active_worker_undo c fin = Except.ok j ∧
      c.workers.set j f = b.workers := by
  obtain ⟨hb25, hw4, hblocks, hnd, hwk, hturn⟩ := hwf
  obtain ⟨j, hj4, hgd, hside, hmwl, _⟩ := workers_move_spec fin hw4 hnd hbel hfin
  have hside' : (c.turn = 1 ∧ (j = 0 ∨ j = 1)) ∨ (c.turn ≠ 1 ∧ (j = 2 ∨ j = 3)) := by
    rw [hct]
    exact hside
  obtain ⟨h1, h2⟩ := undo_worker_restore (hcw.trans hmwl) hw4 hj4 hgd hfin hside'
  exact ⟨j, h1, h2⟩

theorem undo_athena_spec {b : Board} (c : Board) {f t bd : Nat}
    (hwf : board_wf b) (hbel : worker_belongs_to_current_player b f = true)
    (htnw : t ∉ b.workers) (hbd : bd < 25)
    (hcw : c.workers = move_worker_list b.workers f t)
    (hcb : c.blocks = b.blocks.set bd (b.blockAt bd + 1))
    (hct : c.turn = b.turn) :
    ∃ b2, undo_athena_move c f t bd = Except.ok b2 ∧
      b2.blocks = b.blocks ∧ b2.workers = b.workers ∧ b2.turn = c.turn ∧
      b2.won = c.won ∧ b2.prevent_up_next_turn = false ∧
      b2.last_move_height_diff = c.last_move_height_diff := by
  have hb25 := hwf.1
  have hdecb : (dec_block c bd).blocks = b.blocks := by
    show c.blocks.set bd (c.blockAt bd - 1) = b.blocks
    unfold Board.blockAt
    rw [hcb]
    exact dec_inc_list (by rw [hb25]; exact hbd)
  obtain ⟨j, hfind, hset⟩ := undo_find_core (dec_block c bd) hwf hbel htnw hcw hct
  refine ⟨{ dec_block c bd with
      workers := (dec_block c bd).workers.set j f
      prevent_up_next_turn := false },
    ?_, hdecb, hset, rfl, rfl, rfl, rfl⟩
  unfold undo_athena_move
  dsimp only
  rw [hfind]
  rfl

theorem undo_artemis_spec {b : Board} (c : Board) {f t bd : Nat}
    (hwf : board_wf b) (hbel : worker_belongs_to_current_player b f = true)
    (htnw : t ∉ b.workers) (hbd : bd < 25)
    (hcw : c.workers = move_worker_list b.workers f t)
    (hcb : c.blocks = b.blocks.set bd (b.blockAt bd + 1))
    (hct : c.turn = b.turn) :
    ∃ b2, undo_artemis_move c f t bd = Except.ok b2 ∧
      b2.blocks = b.blocks ∧ b2.workers = b.workers ∧ b2.turn = c.turn ∧
      b2.won = c.won ∧ b2.prevent_up_next_turn = c.prevent_up_next_turn ∧
      b2.last_move_height_diff = c.last_move_height_diff := by
  have hb25 := hwf.1
  have hdecb : (dec_block c bd).blocks = b.blocks := by
    show c.blocks.set bd (c.blockAt bd - 1) = b.blocks
    unfold Board.blockAt
    rw [hcb]
    exact dec_inc_list (by rw [hb25]; exact hbd)
  obtain ⟨j, hfind, hset⟩ := undo_find_core (dec_block c bd) hwf hbel htnw hcw hct
  refine ⟨{ dec_block c bd with
      workers := (dec_block c bd).workers.set j f },
    ?_, hdecb, hset, rfl, rfl, rfl, rfl⟩
  unfold undo_artemis_move
  dsimp only
  rw [hfind]
  rfl

theorem undo_pan_spec {b : Board} (c : Board) {f t bd : Nat}
    (hwf : board_wf b) (hbel : worker_belongs_to_current_player b f = true)
    (htnw : t ∉ b.workers) (hbd : bd < 25)
    (hcw : c.workers = move_worker_list b.workers f t)
    (hcb : c.blocks = b.blocks.set bd (b.blockAt bd + 1))
    (hct : c.turn = b.turn) :
    ∃ b2, undo_pan_move c f t bd = Except.ok b2 ∧
      b2.blocks = b.blocks ∧ b2.workers = b.workers ∧ b2.turn = c.turn ∧
      b2.won = c.won ∧ b2.prevent_up_next_turn = c.prevent_up_next_turn ∧
      b2.last_move_height_diff = 0 := by
  have hb25 := hwf.1
  have hdecb : (dec_block c bd).blocks = b.blocks := by
    show c.blocks.set bd (c.blockAt bd - 1) = b.blocks
    unfold Board.blockAt
    rw [hcb]
    exact dec_inc_list (by rw [hb25]; exact hbd)
  obtain ⟨j, hfind, hset⟩ := undo_find_core (dec_block c bd) hwf hbel htnw hcw hct
  refine ⟨{ dec_block c bd with
      workers := (dec_block c bd).workers.set j f
      last_move_height_diff := 0 },
    ?_, hdecb, hset, rfl, rfl, rfl, rfl⟩
  unfold undo_pan_move
  dsimp only
  rw [hfind]
  rfl

theorem undo_atlas_spec {b : Board} (c : Board) {f t bd : Nat} {v : Int}
    (hwf : board_wf b) (hbel : worker_belongs_to_current_player b f = true)
    (htnw : t ∉ b.workers) (hbd : bd < 25)
    (hcw : c.workers = move_worker_list b.workers f t)
    (hcb : c.blocks = b.blocks.set bd v)
    (hct : c.turn = b.turn) :
    ∃ b2, undo_atlas_move c f t bd (some (b.blockAt bd)) = Except.ok b2 ∧
      b2.blocks = b.blocks ∧ b2.workers = b.workers ∧ b2.turn = c.turn ∧
      b2.won = c.won ∧ b2.prevent_up_next_turn = c.prevent_up_next_turn ∧
      b2.last_move_height_diff = c.last_move_height_diff := by
  have hb25 := hwf.1
  obtain ⟨j, hfind, hset⟩ := undo_find_core c hwf hbel htnw hcw hct
  refine ⟨set_block { c with workers := c.workers.set j f } bd (b.blockAt bd),
    ?_, ?_, hset, rfl, rfl, rfl, rfl⟩
  · unfold undo_atlas_move
    dsimp only
    rw [hfind]
    rfl
  · show c.blocks.set bd (b.blockAt bd) = b.blocks
    rw [hcb]
    exact set_restore (by rw [hb25]; exact hbd)

theorem undo_demeter_spec {b : Board} (c : Board) {f t b1 : Nat} {ob : Option Nat}
    (hwf : board_wf b) (hbel : worker_belongs_to_current_player b f = true)
    (htnw : t ∉ b.workers) (hb1d : b1 < 25) (hobd : ∀ s, ob = some s → s < 25)
    (hcw : c.workers = move_worker_list b.workers f t)
    (hcb : c.blocks = (match ob with
      | some s => (b.blocks.set b1 (b.blockAt b1 + 1)).set s
          ((b.blocks.set b1 (b.blockAt b1 + 1)).getD s 0 + 1)
      | none => b.blocks.set b1 (b.blockAt b1 + 1)))
    (hct : c.turn = b.turn) :
    ∃ b2, undo_demeter_move c f t b1 ob = Except.ok b2 ∧
      b2.blocks = b.blocks ∧ b2.workers = b.workers ∧ b2.turn = c.turn ∧
      b2.won = c.won ∧ b2.prevent_up_next_turn = c.prevent_up_next_turn ∧
      b2.last_move_height_diff = c.last_move_height_diff := by
  have hb25 := hwf.1
  cases ob with
  | none =>
    have hdecb : (dec_block c b1).blocks = b.blocks := by
      show c.blocks.set b1 (c.blockAt b1 - 1) = b.blocks
      unfold Board.blockAt
      rw [hcb]
      exact dec_inc_list (by rw [hb25]; exact hb1d)
    obtain ⟨j, hfind, hset⟩ := undo_find_core (dec_block c b1) hwf hbel htnw hcw hct
    refine ⟨{ dec_block c b1 with
        workers := (dec_block c b1).workers.set j f },
      ?_, hdecb, hset, rfl, rfl, rfl, rfl⟩
    unfold undo_demeter_move
    dsimp only
    rw [hfind]
    rfl
  | some s =>
    have hs25 : s < 25 := hobd s rfl
    have hstage1 : (dec_block c s).blocks = b.blocks.set b1 (b.blockAt b1 + 1) := by
      show c.blocks.set s (c.blockAt s - 1) = _
      unfold Board.blockAt
      rw [hcb]
      exact dec_inc_list (by simp [hb25, hs25])
    have hdecb : (dec_block (dec_block c s) b1).blocks = b.blocks := by
      show (dec_block c s).blocks.set b1 ((dec_block c s).blockAt b1 - 1) = b.blocks
      unfold Board.blockAt
      rw [hstage1]
      exact dec_inc_list (by rw [hb25]; exact hb1d)
    obtain ⟨j, hfind, hset⟩ :=
      undo_find_core (dec_block (dec_block c s) b1) hwf hbel htnw hcw hct
    refine ⟨{ dec_block (dec_block c s) b1 with
        workers := (dec_block (dec_block c s) b1).workers.set j f },
      ?_, hdecb, hset, rfl, rfl, rfl, rfl⟩
    unfold undo_demeter_move
    dsimp only
    rw [hfind]
    rfl

theorem undo_hermes_nil_spec {b : Board} (c : Board) {f bd : Nat}
    (hwf : board_wf b) (hbel : worker_belongs_to_current_player b f = true)
    (hbd : bd < 25)
    (hcw : c.workers = move_worker_list b.workers f f)
    (hcb : c.blocks = b.blocks.set bd (b.blockAt bd + 1))
    (_hct : c.turn = b.turn) :
    ∃ b2, undo_hermes_move c f [] bd = Except.ok b2 ∧
      b2.blocks = b.blocks ∧ b2.workers = b.workers ∧ b2.turn = c.turn ∧
      b2.won = c.won ∧ b2.prevent_up_next_turn = c.prevent_up_next_turn ∧
      b2.last_move_height_diff = c.last_move_height_diff := by
  have hb25 := hwf.1
  have hdecb : (dec_block c bd).blocks = b.blocks := by
    show c.blocks.set bd (c.blockAt bd - 1) = b.blocks
    unfold Board.blockAt
    rw [hcb]
    exact dec_inc_list (by rw [hb25]; exact hbd)
  refine ⟨dec_block c bd, rfl, hdecb, ?_, rfl, rfl, rfl, rfl⟩
  show c.workers = b.workers
  rw [hcw]
  exact move_worker_list_self hwf hbel

theorem undo_hermes_cons_spec {b : Board} (c : Board) {f bd x : Nat}
    {rest : List Nat}
    (hwf : board_wf b) (hbel : worker_belongs_to_current_player b f = true)
    (htnw : (x :: rest).getLast?.getD f ∉ b.workers) (hbd : bd < 25)
    (hcw : c.workers = move_worker_list b.workers f ((x :: rest).getLast?.getD f))
    (hcb : c.blocks = b.blocks.set bd (b.blockAt bd + 1))
    (hct : c.turn = b.turn) :
    ∃ b2, undo_hermes_move c f (x :: rest) bd = Except.ok b2 ∧
      b2.blocks = b.blocks ∧ b2.workers = b.workers ∧ b2.turn = c.turn ∧
      b2.won = c.won ∧ b2.prevent_up_next_turn = c.prevent_up_next_turn ∧
      b2.last_move_height_diff = c.last_move_height_diff := by
  have hb25 := hwf.1
  have hdecb : (dec_block c bd).blocks = b.blocks := by
    show c.blocks.set bd (c.blockAt bd - 1) = b.blocks
    unfold Board.blockAt
    rw [hcb]
    exact dec_inc_list (by rw [hb25]; exact hbd)
  obtain ⟨j, hfind, hset⟩ := undo_find_core (dec_block c bd) hwf hbel htnw hcw hct
  refine ⟨{ dec_block c bd with
      workers := (dec_block c bd).workers.set j f },
    ?_, hdecb, hset, rfl, rfl, rfl, rfl⟩
  unfold undo_hermes_move
  dsimp only
  rw [hfind]
  rfl

theorem undo_prometheus_spec {b : Board} (c : Board) {f t bd : Nat}
    {opt : Option Nat}
    (hwf : board_wf b) (hbel : worker_belongs_to_current_player b f = true)
    (htnw : t ∉ b.workers) (hbd : bd < 25) (hoptd : ∀ s, opt = some s → s < 25)
    (hcw : c.workers = move_worker_list b.workers f t)
    (hcb : c.blocks = (match opt with
      | some ob => (b.blocks.set ob (b.blockAt ob + 1)).set bd
          ((b.blocks.set ob (b.blockAt ob + 1)).getD bd 0 + 1)
      | none => b.blocks.set bd (b.blockAt bd + 1)))
    (hct : c.turn = b.turn) :
    ∃ b2, undo_prometheus_move c f t bd opt = Except.ok b2 ∧
      b2.blocks = b.blocks ∧ b2.workers = b.workers ∧ b2.turn = c.turn ∧
      b2.won = c.won ∧ b2.prevent_up_next_turn = c.prevent_up_next_turn ∧
      b2.last_move_height_diff = c.last_move_height_diff := by
  have hb25 := hwf.1
  cases opt with
  | none =>
    have hdecb : (dec_block c bd).blocks = b.blocks := by
      show c.blocks.set bd (c.blockAt bd - 1) = b.blocks
      unfold Board.blockAt
      rw [hcb]
      exact dec_inc_list (by rw [hb25]; exact hbd)
    obtain ⟨j, hfind, hset⟩ := undo_find_core (dec_block c bd) hwf hbel htnw hcw hct
    refine ⟨{ dec_block c bd with
        workers := (dec_block c bd).workers.set j f },
      ?_, hdecb, hset, rfl, rfl, rfl, rfl⟩
    unfold undo_prometheus_move
    dsimp only
    rw [hfind]
    rfl
  | some ob =>
    have hob25 : ob < 25 := hoptd ob rfl
    have hstage1 : (dec_block c bd).blocks = b.blocks.set ob (b.blockAt ob + 1) := by
      show c.blocks.set bd (c.blockAt bd - 1) = _
      unfold Board.blockAt
      rw [hcb]
      exact dec_inc_list (by simp [hb25, hbd])
    obtain ⟨j, hfind, hset⟩ := undo_find_core (dec_block c bd) hwf hbel htnw hcw hct
    refine ⟨dec_block { dec_block c bd with
        workers := (dec_block c bd).workers.set j f } ob,
      ?_, ?_, hset, rfl, rfl, rfl, rfl⟩
    · unfold undo_prometheus_move
      dsimp only
      rw [hfind]
      rfl
    · show ({ dec_block c bd with
          workers := (dec_block c bd).workers.set j f } : Board).blocks.set ob
        (({ dec_block c bd with
            workers := (dec_block c bd).workers.set j f } : Board).blockAt ob - 1)
        = b.blocks
      unfold Board.blockAt
      dsimp only
      rw [hstage1]
      exact dec_inc_list (by simp [hb25, hob25])

/-- Swapping two slots back restores the original list. -/
theorem set_swap_restore {ws : List Nat} {j occ f t : Nat}
    (hj : j < ws.length) (hocc : occ < ws.length) (hjo : j ≠ occ)
    (hgdj : ws.getD j 0 = f) (hgdo : ws.getD occ 0 = t) :
    (((ws.set occ f).set j t).set occ t).set j f = ws := by
  apply List.ext_getElem?
  intro n
  by_cases hnj : n = j
  · subst hnj
    rw [List.getElem?_set_self (by simpa using hj), List.getElem?_eq_getElem hj,
      ← getD_eq_getElem hj, hgdj]
  · rw [List.getElem?_set_ne (fun he => hnj he.symm)]
    by_cases hno : n = occ
    · subst hno
      rw [List.getElem?_set_self (by simpa using hocc),
        List.getElem?_eq_getElem hocc, ← getD_eq_getElem hocc, hgdo]
    · rw [List.getElem?_set_ne (fun he => hno he.symm),
        List.getElem?_set_ne (fun he => hnj he.symm),
        List.getElem?_set_ne (fun he => hno he.symm)]

theorem undo_apollo_none_spec {b : Board} (c : Board) {f t bd j : Nat}
    (hwf : board_wf b)
    (hj4 : j < 4) (hgd : b.workers.getD j 0 = f)
    (hside : (b.turn = 1 ∧ (j = 0 ∨ j = 1)) ∨ (b.turn ≠ 1 ∧ (j = 2 ∨ j = 3)))
    (htnw : t ∉ b.workers) (hbd : bd < 25)
    (hcw : c.workers = b.workers.set j t)
    (hcb : c.blocks = b.blocks.set bd (b.blockAt bd + 1))
    (hct : c.turn = b.turn) :
    ∃ b2, undo_apollo_move c f t bd = Except.ok b2 ∧
      b2.blocks = b.blocks ∧ b2.workers = b.workers ∧ b2.turn = c.turn ∧
      b2.won = c.won ∧ b2.prevent_up_next_turn = c.prevent_up_next_turn ∧
      b2.last_move_height_diff = c.last_move_height_diff := by
  obtain ⟨hb25, hw4, hblocks, hnd, hwk, hturn⟩ := hwf
  have hjl : j < b.workers.length := hw4 ▸ hj4
  have hdecb : (dec_block c bd).blocks = b.blocks := by
    show c.blocks.set bd (c.blockAt bd - 1) = b.blocks
    unfold Board.blockAt
    rw [hcb]
    exact dec_inc_list (by rw [hb25]; exact hbd)
  have hside2 : ((dec_block c bd).turn = 1 ∧ (j = 0 ∨ j = 1)) ∨
      ((dec_block c bd).turn ≠ 1 ∧ (j = 2 ∨ j = 3)) := by
    show (c.turn = 1 ∧ _) ∨ (c.turn ≠ 1 ∧ _)
    rw [hct]
    exact hside
  obtain ⟨hfind, hset⟩ := undo_worker_restore
    (show (dec_block c bd).workers = b.workers.set j t from hcw) hw4 hj4 hgd
    htnw hside2
  have hfnone : which_worker_is_here (dec_block c bd) f = none := by
    apply which_worker_none_iff.mpr
    show f ∉ c.workers
    rw [hcw]
    intro hmem
    rcases mem_set_cases hmem with he | ⟨k, hk, hkj, hkw⟩
    · exact htnw (he ▸ (hgd ▸ getD_mem hjl))
    · exact nodup_getD_ne hnd hk hjl hkj (hkw.trans hgd.symm)
  refine ⟨{ dec_block c bd with
      workers := (dec_block c bd).workers.set j f },
    ?_, hdecb, hset, rfl, rfl, rfl, rfl⟩
  unfold undo_apollo_move
  try dsimp only
  rw [hfind, except_bind_ok]
  try dsimp only
  rw [hfnone]
  rfl

theorem undo_apollo_swap_spec {b : Board} (c : Board) {f t bd j occ : Nat}
    (hwf : board_wf b)
    (hj4 : j < 4) (hgd : b.workers.getD j 0 = f)
    (hside : (b.turn = 1 ∧ (j = 0 ∨ j = 1)) ∨ (b.turn ≠ 1 ∧ (j = 2 ∨ j = 3)))
    (hoccl : occ < b.workers.length) (hocct : b.workers.getD occ 0 = t)
    (hoppside : (b.turn = 1 ∧ (occ = 2 ∨ occ = 3)) ∨
      (b.turn ≠ 1 ∧ (occ = 0 ∨ occ = 1)))
    (hjo : j ≠ occ) (hbd : bd < 25)
    (hcw : c.workers = (b.workers.set occ f).set j t)
    (hcb : c.blocks = b.blocks.set bd (b.blockAt bd + 1))
    (hct : c.turn = b.turn) :
    ∃ b2, undo_apollo_move c f t bd = Except.ok b2 ∧
      b2.blocks = b.blocks ∧ b2.workers = b.workers ∧ b2.turn = c.turn ∧
      b2.won = c.won ∧ b2.prevent_up_next_turn = c.prevent_up_next_turn ∧
      b2.last_move_height_diff = c.last_move_height_diff := by
  obtain ⟨hb25, hw4, hblocks, hnd, hwk, hturn⟩ := hwf
  have hjl : j < b.workers.length := hw4 ▸ hj4
  have hdecb : (dec_block c bd).blocks = b.blocks := by
    show c.blocks.set bd (c.blockAt bd - 1) = b.blocks
    unfold Board.blockAt
    rw [hcb]
    exact dec_inc_list (by rw [hb25]; exact hbd)
  have hft : f ≠ t := by
    rw [← hgd, ← hocct]
    exact nodup_getD_ne hnd hjl hoccl hjo
  have htnw2 : t ∉ b.workers.set occ f := by
    intro hmem
    rcases mem_set_cases hmem with he | ⟨k, hk', hko, hkw⟩
    · exact hft he.symm
    · exact nodup_getD_ne hnd hk' hoccl hko (hkw.trans hocct.symm)
  have hgd2 : (b.workers.set occ f).getD j 0 = f := by
    rw [getD_set_ne _ _ _ (fun he => hjo he.symm)]
    exact hgd
  have hside2 : ((dec_block c bd).turn = 1 ∧ (j = 0 ∨ j = 1)) ∨
      ((dec_block c bd).turn ≠ 1 ∧ (j = 2 ∨ j = 3)) := by
    show (c.turn = 1 ∧ _) ∨ (c.turn ≠ 1 ∧ _)
    rw [hct]
    exact hside
  obtain ⟨hfind, hset'⟩ := undo_worker_restore
    (show (dec_block c bd).workers = (b.workers.set occ f).set j t from hcw)
    (by simpa using hw4) hj4 hgd2 htnw2 hside2
  have hndc : ((b.workers.set occ f).set j t).Nodup :=
    nodup_set_set hnd hjo hjl hoccl (Or.inr hgd.symm) hocct.symm hft
  have hwocc : which_worker_is_here (dec_block c bd) f = some occ := by
    refine which_worker_slot ?_ ?_ ?_
    · show c.workers.Nodup
      rw [hcw]
      exact hndc
    · show occ < c.workers.length
      rw [hcw]
      simpa using hoccl
    · show c.workers.getD occ 0 = f
      rw [hcw, getD_set_ne _ _ _ hjo, getD_set_self _ _ _ _ hoccl]
  have hopp : is_opponent_worker (dec_block c bd) (some occ) = true := by
    rw [is_opponent_congr (show (dec_block c bd).turn = b.turn from hct)]
    exact opponent_of_slot hoppside
  refine ⟨{ dec_block c bd with
      workers := ((dec_block c bd).workers.set occ t).set j f },
    ?_, hdecb, ?_, rfl, rfl, rfl, rfl⟩
  · unfold undo_apollo_move
    try dsimp only
    rw [hfind, except_bind_ok]
    try dsimp only
    rw [hwocc]
    try dsimp only
    rw [hopp]
    rfl
  · show (c.workers.set occ t).set j f = b.workers
    rw [hcw]
    exact set_swap_restore hjl hoccl hjo hgd hocct

theorem undo_minotaur_nopush_spec {b : Board} (c : Board) {f t bd : Nat}
    (hwf : board_wf b) (hbel : worker_belongs_to_current_player b f = true)
    (htnw : t ∉ b.workers) (hbd : bd < 25)
    (hcw : c.workers = move_worker_list b.workers f t)
    (hcb : c.blocks = b.blocks.set bd (b.blockAt bd + 1))
    (hct : c.turn = b.turn) :
    ∃ b2, undo_minotaur_move c f t bd false = Except.ok b2 ∧
      b2.blocks = b.blocks ∧ b2.workers = b.workers ∧ b2.turn = c.turn ∧
      b2.won = c.won ∧ b2.prevent_up_next_turn = c.prevent_up_next_turn ∧
      b2.last_move_height_diff = c.last_move_height_diff := by
  have hb25 := hwf.1
  have hdecb : (dec_block c bd).blocks = b.blocks := by
    show c.blocks.set bd (c.blockAt bd - 1) = b.blocks
    unfold Board.blockAt
    rw [hcb]
    exact dec_inc_list (by rw [hb25]; exact hbd)
  obtain ⟨j, hfind, hset⟩ := undo_find_core (dec_block c bd) hwf hbel htnw hcw hct
  refine ⟨{ dec_block c bd with
      workers := (dec_block c bd).workers.set j f },
    ?_, hdecb, hset, rfl, rfl, rfl, rfl⟩
  unfold undo_minotaur_move
  try dsimp only
  rw [hfind]
  rfl

theorem undo_minotaur_push_spec {b : Board} (c : Board) {f t bd push j occ : Nat}
    (hwf : board_wf b)
    (hj4 : j < 4) (hgd : b.workers.getD j 0 = f)
    (hside : (b.turn = 1 ∧ (j = 0 ∨ j = 1)) ∨ (b.turn ≠ 1 ∧ (j = 2 ∨ j = 3)))
    (hoccl : occ < b.workers.length) (hocct : b.workers.getD occ 0 = t)
    (hoppside : (b.turn = 1 ∧ (occ = 2 ∨ occ = 3)) ∨
      (b.turn ≠ 1 ∧ (occ = 0 ∨ occ = 1)))
    (hjo : j ≠ occ) (hpnw : push ∉ b.workers) (hbd : bd < 25)
    (hcp : calculate_push_square f t = some push)
    (hcw : c.workers = (b.workers.set occ push).set j t)
    (hcb : c.blocks = b.blocks.set bd (b.blockAt bd + 1))
    (hct : c.turn = b.turn) :
    ∃ b2, undo_minotaur_move c f t bd true = Except.ok b2 ∧
      b2.blocks = b.blocks ∧ b2.workers = b.workers ∧ b2.turn = c.turn ∧
      b2.won = c.won ∧ b2.prevent_up_next_turn = c.prevent_up_next_turn ∧
      b2.last_move_height_diff = c.last_move_height_diff := by
  obtain ⟨hb25, hw4, hblocks, hnd, hwk, hturn⟩ := hwf
  have hjl : j < b.workers.length := hw4 ▸ hj4
  have hdecb : (dec_block c bd).blocks = b.blocks := by
    show c.blocks.set bd (c.blockAt bd - 1) = b.blocks
    unfold Board.blockAt
    rw [hcb]
    exact dec_inc_list (by rw [hb25]; exact hbd)
  have htmem : t ∈ b.workers := hocct ▸ getD_mem hoccl
  have htnw2 : t ∉ b.workers.set occ push := by
    intro hmem
    rcases mem_set_cases hmem with he | ⟨k, hk', hko, hkw⟩
    · exact hpnw (he ▸ htmem)
    · exact nodup_getD_ne hnd hk' hoccl hko (hkw.trans hocct.symm)
  have hgd2 : (b.workers.set occ push).getD j 0 = f := by
    rw [getD_set_ne _ _ _ (fun he => hjo he.symm)]
    exact hgd
  have hside2 : ((dec_block c bd).turn = 1 ∧ (j = 0 ∨ j = 1)) ∨
      ((dec_block c bd).turn ≠ 1 ∧ (j = 2 ∨ j = 3)) := by
    show (c.turn = 1 ∧ _) ∨ (c.turn ≠ 1 ∧ _)
    rw [hct]
    exact hside
  obtain ⟨hfind, hset'⟩ := undo_worker_restore
    (show (dec_block c bd).workers = (b.workers.set occ push).set j t from hcw)
    (by simpa using hw4) hj4 hgd2 htnw2 hside2
  have hnd2 : (b.workers.set occ push).Nodup := hnd.set hpnw
  have hwpush : which_worker_is_here
      { dec_block c bd with
        workers := (dec_block c bd).workers.set j f } push = some occ := by
    refine which_worker_slot ?_ ?_ ?_
    · show ((dec_block c bd).workers.set j f).Nodup
      rw [hset']
      exact hnd2
    · show occ < ((dec_block c bd).workers.set j f).length
      rw [hset']
      simpa using hoccl
    · show ((dec_block c bd).workers.set j f).getD occ 0 = push
      rw [hset']
      exact getD_set_self _ _ _ _ hoccl
  have hopp2 : is_opponent_worker
      { dec_block c bd with
        workers := (dec_block c bd).workers.set j f } (some occ) = true := by
    rw [is_opponent_congr (show ({ dec_block c bd with
      workers := (dec_block c bd).workers.set j f } : Board).turn = b.turn from hct)]
    exact opponent_of_slot hoppside
  have hfinal : ((dec_block c bd).workers.set j f).set occ t = b.workers := by
    rw [hset', List.set_set, ← hocct]
    exact set_getD_self b.workers occ 0 hoccl
  refine ⟨{ dec_block c bd with
      workers := ((dec_block c bd).workers.set j f).set occ t },
    ?_, hdecb, hfinal, rfl, rfl, rfl, rfl⟩
  unfold undo_minotaur_move
  try dsimp only
  rw [hfind, except_bind_ok]
  try dsimp only
  unfold undo_opponent_push
  try dsimp only
  rw [hcp]
  try dsimp only
  rw [hwpush]
  try dsimp only
  rw [hopp2]
  rfl

theorem apollo_make_none_eval {b : Board} {f t bd j : Nat}
    (hidx : ({ b with last_move_height_diff := 0 } : Board).workers.findIdx? (· = f)
      = some j)
    (hocc : which_worker_is_here b t = none) :
    apollo_make_move { b with last_move_height_diff := 0 } f t bd =
      Except.ok (inc_block
        { ({ b with last_move_height_diff := 0 } : Board) with
          workers :=
            ({ b with last_move_height_diff := 0 } : Board).workers.set j t } bd) := by
  have hocc2 : which_worker_is_here ({ b with last_move_height_diff := 0 } : Board) t
      = none := hocc
  unfold apollo_make_move
  rw [hidx]
  dsimp only
  rw [hocc2]

theorem apollo_make_swap_eval {b : Board} {f t bd j occ : Nat}
    (hidx : ({ b with last_move_height_diff := 0 } : Board).workers.findIdx? (· = f)
      = some j)
    (hocc : which_worker_is_here b t = some occ)
    (hopp : is_opponent_worker b (some occ) = true) :
    apollo_make_move { b with last_move_height_diff := 0 } f t bd =
      Except.ok (inc_block
        { ({ b with last_move_height_diff := 0 } : Board) with
          workers :=
            (({ b with last_move_height_diff := 0 } : Board).workers.set occ f).set
              j t } bd) := by
  have hocc2 : which_worker_is_here ({ b with last_move_height_diff := 0 } : Board) t
      = some occ := hocc
  have hopp2 : is_opponent_worker ({ b with last_move_height_diff := 0 } : Board)
      (some occ) = true := hopp
  unfold apollo_make_move
  rw [hidx]
  dsimp only
  rw [hocc2]
  dsimp only
  rw [if_neg (by simp [hopp2])]

theorem artemis_make_none_eval {b : Board} {f t bd j : Nat}
    (hidx : ({ b with last_move_height_diff := 0 } : Board).workers.findIdx? (· = f)
      = some j)
    (htnw : t ∉ b.workers) :
    artemis_make_move { b with last_move_height_diff := 0 } f t bd none =
      Except.ok (inc_block
        { ({ b with last_move_height_diff := 0 } : Board) with
          workers :=
            ({ b with last_move_height_diff := 0 } : Board).workers.set j t } bd) := by
  have hwn : which_worker_is_here ({ b with last_move_height_diff := 0 } : Board) t
      = none := which_worker_none_iff.mpr htnw
  have hw1 : artemis_walk { b with last_move_height_diff := 0 } j
      ((none : Option Nat).toList ++ [t]) =
      Except.ok { ({ b with last_move_height_diff := 0 } : Board) with
        workers :=
          ({ b with last_move_height_diff := 0 } : Board).workers.set j t } := by
    show artemis_walk { b with last_move_height_diff := 0 } j [t] = _
    unfold artemis_walk
    rw [hwn]
    rfl
  unfold artemis_make_move
  rw [hidx]
  dsimp only
  rw [hw1]

theorem artemis_make_some_eval {b : Board} {f t bd mm j : Nat}
    (hidx : ({ b with last_move_height_diff := 0 } : Board).workers.findIdx? (· = f)
      = some j)
    (hmnw : mm ∉ b.workers) (htnw : t ∉ b.workers) (htm : t ≠ mm) :
    artemis_make_move { b with last_move_height_diff := 0 } f t bd (some mm) =
      Except.ok (inc_block
        { ({ b with last_move_height_diff := 0 } : Board) with
          workers :=
            (({ b with last_move_height_diff := 0 } : Board).workers.set j mm).set
              j t } bd) := by
  have hwn1 : which_worker_is_here ({ b with last_move_height_diff := 0 } : Board) mm
      = none := which_worker_none_iff.mpr hmnw
  have htnw2 : t ∉ ({ b with last_move_height_diff := 0 } : Board).workers.set j mm := by
    intro hmem
    rcases mem_set_cases hmem with he | ⟨k, hk, hkj, hkw⟩
    · exact htm he
    · exact htnw (hkw ▸ getD_mem hk)
  have hwn2 : which_worker_is_here
      { ({ b with last_move_height_diff := 0 } : Board) with
        workers :=
          ({ b with last_move_height_diff := 0 } : Board).workers.set j mm } t
      = none := which_worker_none_iff.mpr htnw2
  have hw1 : artemis_walk { b with last_move_height_diff := 0 } j
      ((some mm).toList ++ [t]) =
      Except.ok { ({ b with last_move_height_diff := 0 } : Board) with
        workers :=
          (({ b with last_move_height_diff := 0 } : Board).workers.set j mm).set
            j t } := by
    show artemis_walk { b with last_move_height_diff := 0 } j (mm :: [t]) = _
    unfold artemis_walk
    rw [hwn1]
    show artemis_walk
      { ({ b with last_move_height_diff := 0 } : Board) with
        workers :=
          ({ b with last_move_height_diff := 0 } : Board).workers.set j mm } j [t] = _
    unfold artemis_walk
    rw [hwn2]
    rfl
  unfold artemis_make_move
  rw [hidx]
  dsimp only
  rw [hw1]

theorem minotaur_make_none_eval {b : Board} {f t bd : Nat}
    (hocc : which_worker_is_here b t = none) :
    minotaur_make_move { b with last_move_height_diff := 0 } f t bd =
      Except.ok (inc_block
        (move_worker { b with last_move_height_diff := 0 } f t) bd) := by
  have hocc2 : which_worker_is_here ({ b with last_move_height_diff := 0 } : Board) t
      = none := hocc
  unfold minotaur_make_move
  rw [hocc2]

theorem minotaur_make_push_eval {b : Board} {f t bd occ push : Nat}
    (hocc : which_worker_is_here b t = some occ)
    (hopp : is_opponent_worker b (some occ) = true)
    (hcp : calculate_push_square f t = some push)
    (hfr : is_free b push = true) :
    minotaur_make_move { b with last_move_height_diff := 0 } f t bd =
      Except.ok (inc_block
        (move_worker
          { ({ b with last_move_height_diff := 0 } : Board) with
            workers :=
              ({ b with last_move_height_diff := 0 } : Board).workers.set occ push }
          f t) bd) := by
  have hocc2 : which_worker_is_here ({ b with last_move_height_diff := 0 } : Board) t
      = some occ := hocc
  have hopp2 : is_opponent_worker ({ b with last_move_height_diff := 0 } : Board)
      (some occ) = true := hopp
  have hfr2 : is_free ({ b with last_move_height_diff := 0 } : Board) push = true := hfr
  unfold minotaur_make_move
  rw [hocc2]
  dsimp only
  rw [if_neg (by simp [hopp2]), hcp]
  dsimp only
  rw [if_neg (by simp [hfr2])]

/-- every Atlas move that the generator emits stores the build square's
current height in `orig_h`. -/
theorem atlas_raw_orig {b : Board} {f t bd : Nat} {dome : Bool} {orig : Option Int}
    (h : MoveKind.atlas f t bd dome orig ∈ generate_moves_atlas b) :
    orig = some (b.blockAt bd) := by
  simp only [generate_moves_atlas, List.mem_flatMap, List.mem_filter,
    List.mem_cons] at h
  obtain ⟨f2, -, t2, -, bd2, -, hin⟩ := h
  rcases hin with he | hin2
  · obtain ⟨-, -, hbd, -, horig⟩ := MoveKind.atlas.injEq .. |>.mp he
    subst hbd
    exact horig
  · split at hin2
    · simp only [List.mem_singleton] at hin2
      obtain ⟨-, -, hbd, -, horig⟩ := MoveKind.atlas.injEq .. |>.mp hin2
      subst hbd
      exact horig
    · simp at hin2

/-- every Minotaur move that the generator emits has `pushed` set exactly when
the destination square is occupied. -/
theorem minotaur_raw_pushed {b : Board} {f t bd : Nat} {pushed : Bool}
    (h : MoveKind.minotaur f t bd pushed ∈ generate_moves_minotaur b) :
    pushed = (which_worker_is_here b t).isSome := by
  simp only [generate_moves_minotaur, List.mem_flatMap] at h
  obtain ⟨f2, -, t2, -, hin⟩ := h
  cases hocc : which_worker_is_here b t2 with
  | none =>
    rw [hocc] at hin
    rw [if_neg (by simp)] at hin
    by_cases hg2 : (b.blockAt t2 == 4 || decide (b.blockAt t2 - b.blockAt f2 > 1))
        = true
    · rw [if_pos hg2] at hin
      simp at hin
    · rw [if_neg hg2] at hin
      rw [if_neg (by simp)] at hin
      simp only [List.mem_map] at hin
      obtain ⟨bd2, -, heq⟩ := hin
      injection heq with h1 h2 h3 h4
      rw [← h4, ← h2, hocc]
      rfl
  | some occ =>
    rw [hocc] at hin
    by_cases hop : is_opponent_worker b (some occ) = true
    · rw [if_neg (by simp [hop])] at hin
      by_cases hg2 : (b.blockAt t2 == 4 || decide (b.blockAt t2 - b.blockAt f2 > 1))
          = true
      · rw [if_pos hg2] at hin
        simp at hin
      · rw [if_neg hg2] at hin
        rw [if_pos (by simp [hop])] at hin
        cases hcp : calculate_push_square f2 t2 with
        | none =>
          rw [hcp] at hin
          simp at hin
        | some p =>
          rw [hcp] at hin
          rw [if_pos (by simp [hop])] at hin
          try dsimp only at hin
          by_cases hfr : (!is_free b p || (b.blockAt p == 4)) = true
          · rw [if_pos hfr] at hin
            simp at hin
          · rw [if_neg hfr] at hin
            simp only [List.mem_map, List.mem_filter] at hin
            obtain ⟨bd2, -, heq⟩ := hin
            injection heq with h1 h2 h3 h4
            rw [← h4, ← h2, hocc]
            rfl
    · rw [if_pos (by simp [hop])] at hin
      simp at hin

theorem round_trip_athena {b b' b1 : Board} {f t bd : Nat} {had p w : Bool}
    (hwf : board_wf b)
    (hbel : worker_belongs_to_current_player b f = true)
    (hval : athena_move_is_valid b f t bd = true)
    (hgm : god_move_match (current_god b) (MoveKind.athena f t bd) = true)
    (hB : b' = athena_make_move { b with last_move_height_diff := 0 } f t bd)
    (hb1 : b1 = { b' with prevent_up_next_turn := p, won := w, turn := -b'.turn }) :
    ∃ b2, unmake_move b1 (⟨.athena f t bd, had⟩ : Move) = Except.ok b2 ∧
      b2.blocks = b.blocks ∧ b2.workers = b.workers ∧ b2.turn = b.turn ∧
      b2.won = false ∧ b2.prevent_up_next_turn = false ∧
      b2.last_move_height_diff = b.blockAt t - b.blockAt f := by
  obtain ⟨hmc, hbo⟩ :=
    complete_checks_sq_iff.mp (hval : complete_checks_sq b f t bd = true)
  obtain ⟨hh, hadjN, hfree⟩ := move_checks_sq_iff.mp hmc
  obtain ⟨hbdN, hbdt, hbdf⟩ := build_ok_sq_iff.mp hbo
  obtain ⟨htnw, hth⟩ := is_free_iff.mp hfree
  have hbd25 : bd < 25 := NEIGHBOURS_lt25 hbdN
  have hbt : b'.turn = b.turn := by rw [hB]; rfl
  have hbg : b'.gods = b.gods := by rw [hB]; rfl
  have hct : (unmake_base b1 ⟨.athena f t bd, had⟩).turn = b.turn := by
    show -b1.turn = b.turn
    rw [hb1]
    show -(-b'.turn) = b.turn
    rw [neg_neg, hbt]
  have hcw : (unmake_base b1 ⟨.athena f t bd, had⟩).workers
      = move_worker_list b.workers f t := by
    show b1.workers = _
    rw [hb1]
    show b'.workers = _
    rw [hB]
    rfl
  have hcb : (unmake_base b1 ⟨.athena f t bd, had⟩).blocks
      = b.blocks.set bd (b.blockAt bd + 1) := by
    show b1.blocks = _
    rw [hb1]
    show b'.blocks = _
    rw [hB]
    rfl
  have hcur : current_god { b1 with turn := -b1.turn } = current_god b := by
    unfold current_god
    rw [hb1]
    dsimp only
    rw [neg_neg, hbt, hbg]
  have hm2 : god_move_match (current_god { b1 with turn := -b1.turn })
      (⟨.athena f t bd, had⟩ : Move).kind = true := by
    rw [hcur]
    exact hgm
  obtain ⟨b2, he, h1, h2, h3, h4, h5, h6⟩ :=
    undo_athena_spec (unmake_base b1 ⟨.athena f t bd, had⟩) hwf hbel htnw hbd25
      hcw hcb hct
  refine ⟨b2, ?_, h1, h2, h3.trans hct, h4.trans rfl, h5, ?_⟩
  · rw [unmake_move_step hm2]
    exact he
  · rw [h6]
    show b1.last_move_height_diff = _
    rw [hb1]
    show b'.last_move_height_diff = _
    rw [hB]
    rfl

theorem round_trip_pan {b b' b1 : Board} {f t bd : Nat} {had p w : Bool}
    (hwf : board_wf b)
    (hbel : worker_belongs_to_current_player b f = true)
    (hval : pan_move_is_valid b f t bd = true)
    (hgm : god_move_match (current_god b) (MoveKind.pan f t bd) = true)
    (hB : b' = pan_make_move { b with last_move_height_diff := 0 } f t bd)
    (hb1 : b1 = { b' with prevent_up_next_turn := p, won := w, turn := -b'.turn }) :
    ∃ b2, unmake_move b1 (⟨.pan f t bd, had⟩ : Move) = Except.ok b2 ∧
      b2.blocks = b.blocks ∧ b2.workers = b.workers ∧ b2.turn = b.turn ∧
      b2.won = false ∧ b2.prevent_up_next_turn = had ∧
      b2.last_move_height_diff = 0 := by
  obtain ⟨hmc, hbo⟩ :=
    complete_checks_sq_iff.mp (hval : complete_checks_sq b f t bd = true)
  obtain ⟨hh, hadjN, hfree⟩ := move_checks_sq_iff.mp hmc
  obtain ⟨hbdN, hbdt, hbdf⟩ := build_ok_sq_iff.mp hbo
  obtain ⟨htnw, hth⟩ := is_free_iff.mp hfree
  have hbd25 : bd < 25 := NEIGHBOURS_lt25 hbdN
  have hbt : b'.turn = b.turn := by rw [hB]; rfl
  have hbg : b'.gods = b.gods := by rw [hB]; rfl
  have hct : (unmake_base b1 ⟨.pan f t bd, had⟩).turn = b.turn := by
    show -b1.turn = b.turn
    rw [hb1]
    show -(-b'.turn) = b.turn
    rw [neg_neg, hbt]
  have hcw : (unmake_base b1 ⟨.pan f t bd, had⟩).workers
      = move_worker_list b.workers f t := by
    show b1.workers = _
    rw [hb1]
    show b'.workers = _
    rw [hB]
    rfl
  have hcb : (unmake_base b1 ⟨.pan f t bd, had⟩).blocks
      = b.blocks.set bd (b.blockAt bd + 1) := by
    show b1.blocks = _
    rw [hb1]
    show b'.blocks = _
    rw [hB]
    rfl
  have hcur : current_god { b1 with turn := -b1.turn } = current_god b := by
    unfold current_god
    rw [hb1]
    dsimp only
    rw [neg_neg, hbt, hbg]
  have hm2 : god_move_match (current_god { b1 with turn := -b1.turn })
      (⟨.pan f t bd, had⟩ : Move).kind = true := by
    rw [hcur]
    exact hgm
  obtain ⟨b2, he, h1, h2, h3, h4, h5, h6⟩ :=
    undo_pan_spec (unmake_base b1 ⟨.pan f t bd, had⟩) hwf hbel htnw hbd25
      hcw hcb hct
  refine ⟨b2, ?_, h1, h2, h3.trans hct, h4.trans rfl, h5.trans rfl, h6⟩
  rw [unmake_move_step hm2]
  exact he

theorem round_trip_atlas {b b' b1 : Board} {f t bd : Nat} {dome had p w : Bool}
    (hwf : board_wf b)
    (hbel : worker_belongs_to_current_player b f = true)
    (hval : atlas_move_is_valid b f t bd = true)
    (hgm : god_move_match (current_god b)
      (MoveKind.atlas f t bd dome (some (b.blockAt bd))) = true)
    (hB : b' = atlas_make_move { b with last_move_height_diff := 0 } f t bd dome)
    (hb1 : b1 = { b' with prevent_up_next_turn := p, won := w, turn := -b'.turn }) :
    ∃ b2, unmake_move b1
        (⟨.atlas f t bd dome (some (b.blockAt bd)), had⟩ : Move) = Except.ok b2 ∧
      b2.blocks = b.blocks ∧ b2.workers = b.workers ∧ b2.turn = b.turn ∧
      b2.won = false ∧ b2.prevent_up_next_turn = had ∧
      b2.last_move_height_diff = 0 := by
  obtain ⟨hmc, hbo⟩ :=
    complete_checks_sq_iff.mp (hval : complete_checks_sq b f t bd = true)
  obtain ⟨hh, hadjN, hfree⟩ := move_checks_sq_iff.mp hmc
  obtain ⟨hbdN, hbdt, hbdf⟩ := build_ok_sq_iff.mp hbo
  obtain ⟨htnw, hth⟩ := is_free_iff.mp hfree
  have hbd25 : bd < 25 := NEIGHBOURS_lt25 hbdN
  have hbt : b'.turn = b.turn := by rw [hB]; cases dome <;> rfl
  have hbg : b'.gods = b.gods := by rw [hB]; cases dome <;> rfl
  have hcd : b'.last_move_height_diff = 0 := by rw [hB]; cases dome <;> rfl
  have hct : (unmake_base b1 ⟨.atlas f t bd dome (some (b.blockAt bd)), had⟩).turn
      = b.turn := by
    show -b1.turn = b.turn
    rw [hb1]
    show -(-b'.turn) = b.turn
    rw [neg_neg, hbt]
  have hcw : (unmake_base b1 ⟨.atlas f t bd dome (some (b.blockAt bd)), had⟩).workers
      = move_worker_list b.workers f t := by
    show b1.workers = _
    rw [hb1]
    show b'.workers = _
    rw [hB]
    cases dome <;> rfl
  have hcb : (unmake_base b1 ⟨.atlas f t bd dome (some (b.blockAt bd)), had⟩).blocks
      = b.blocks.set bd (if dome then (4 : Int) else b.blockAt bd + 1) := by
    show b1.blocks = _
    rw [hb1]
    show b'.blocks = _
    rw [hB]
    cases dome <;> rfl
  have hcur : current_god { b1 with turn := -b1.turn } = current_god b := by
    unfold current_god
    rw [hb1]
    dsimp only
    rw [neg_neg, hbt, hbg]
  have hm2 : god_move_match (current_god { b1 with turn := -b1.turn })
      (⟨.atlas f t bd dome (some (b.blockAt bd)), had⟩ : Move).kind = true := by
    rw [hcur]
    exact hgm
  obtain ⟨b2, he, h1, h2, h3, h4, h5, h6⟩ :=
    undo_atlas_spec (unmake_base b1 ⟨.atlas f t bd dome (some (b.blockAt bd)), had⟩)
      hwf hbel htnw hbd25 hcw hcb hct
  refine ⟨b2, ?_, h1, h2, h3.trans hct, h4.trans rfl, h5.trans rfl, ?_⟩
  · rw [unmake_move_step hm2]
    exact he
  · rw [h6]
    show b1.last_move_height_diff = 0
    rw [hb1]
    show b'.last_move_height_diff = 0
    exact hcd

theorem round_trip_artemis {b b' b1 : Board} {f t bd : Nat} {mid : Option Nat}
    {had p w : Bool}
    (hwf : board_wf b)
    (hbel : worker_belongs_to_current_player b f = true)
    (hval : artemis_move_is_valid b f t bd mid = true)
    (hgm : god_move_match (current_god b) (MoveKind.artemis f t bd mid) = true)
    (hg : artemis_make_move { b with last_move_height_diff := 0 } f t bd mid
      = Except.ok b')
    (hb1 : b1 = { b' with prevent_up_next_turn := p, won := w, turn := -b'.turn }) :
    ∃ b2, unmake_move b1 (⟨.artemis f t bd mid, had⟩ : Move) = Except.ok b2 ∧
      b2.blocks = b.blocks ∧ b2.workers = b.workers ∧ b2.turn = b.turn ∧
      b2.won = false ∧ b2.prevent_up_next_turn = had ∧
      b2.last_move_height_diff = 0 := by
  obtain ⟨j, hj4, hgd, hside⟩ := belongs_slot hbel
  have hnd : b.workers.Nodup := hwf.2.2.2.1
  have hjl : j < b.workers.length := hwf.2.1 ▸ hj4
  have hidx : ({ b with last_move_height_diff := 0 } : Board).workers.findIdx?
      (· = f) = some j := which_worker_slot hnd hjl hgd
  have hbfacts : b'.workers = b.workers.set j t ∧
      b'.blocks = b.blocks.set bd (b.blockAt bd + 1) ∧
      b'.turn = b.turn ∧ b'.gods = b.gods ∧ b'.last_move_height_diff = 0 ∧
      t ∉ b.workers ∧ bd < 25 := by
    cases mid with
    | none =>
      obtain ⟨hfree_t, hadjN, hbo⟩ := artemis_valid_none hval
      obtain ⟨htnw, hth4⟩ := is_free_iff.mp hfree_t
      rw [artemis_make_none_eval hidx htnw] at hg
      have hB := (Except.ok.inj hg).symm
      rw [hB]
      exact ⟨rfl, rfl, rfl, rfl, rfl, htnw,
        NEIGHBOURS_lt25 (build_ok_sq_iff.mp hbo).1⟩
    | some mm =>
      obtain ⟨hmc1, hmc2, hbo⟩ := artemis_valid_some hval
      obtain ⟨hmnw, -⟩ := is_free_iff.mp (move_checks_sq_iff.mp hmc1).2.2
      obtain ⟨htnw, -⟩ := is_free_iff.mp (move_checks_sq_iff.mp hmc2).2.2
      have htm : t ≠ mm := NEIGHBOURS_ne (move_checks_sq_iff.mp hmc2).2.1
      rw [artemis_make_some_eval hidx hmnw htnw htm] at hg
      have hB := (Except.ok.inj hg).symm
      rw [hB]
      refine ⟨?_, rfl, rfl, rfl, rfl, htnw,
        NEIGHBOURS_lt25 (build_ok_sq_iff.mp hbo).1⟩
      show (b.workers.set j mm).set j t = b.workers.set j t
      exact List.set_set mm t b.workers j
  obtain ⟨hbw, hbb, hbt, hbg, hb0, htnw, hbd25⟩ := hbfacts
  have hct : (unmake_base b1 ⟨.artemis f t bd mid, had⟩).turn = b.turn := by
    show -b1.turn = b.turn
    rw [hb1]
    show -(-b'.turn) = b.turn
    rw [neg_neg, hbt]
  have hcw : (unmake_base b1 ⟨.artemis f t bd mid, had⟩).workers
      = move_worker_list b.workers f t := by
    show b1.workers = _
    rw [hb1]
    show b'.workers = _
    rw [hbw]
    exact (move_worker_list_eq_set t hjl hgd hnd).symm
  have hcb : (unmake_base b1 ⟨.artemis f t bd mid, had⟩).blocks
      = b.blocks.set bd (b.blockAt bd + 1) := by
    show b1.blocks = _
    rw [hb1]
    exact hbb
  have hcur : current_god { b1 with turn := -b1.turn } = current_god b := by
    unfold current_god
    rw [hb1]
    dsimp only
    rw [neg_neg, hbt, hbg]
  have hm2 : god_move_match (current_god { b1 with turn := -b1.turn })
      (⟨.artemis f t bd mid, had⟩ : Move).kind = true := by
    rw [hcur]
    exact hgm
  obtain ⟨b2, he, h1, h2, h3, h4, h5, h6⟩ :=
    undo_artemis_spec (unmake_base b1 ⟨.artemis f t bd mid, had⟩) hwf hbel htnw
      hbd25 hcw hcb hct
  refine ⟨b2, ?_, h1, h2, h3.trans hct, h4.trans rfl, h5.trans rfl, ?_⟩
  · rw [unmake_move_step hm2]
    exact he
  · rw [h6]
    show b1.last_move_height_diff = 0
    rw [hb1]
    show b'.last_move_height_diff = 0
    exact hb0

theorem round_trip_apollo {b b' b1 : Board} {f t bd : Nat} {had p w : Bool}
    (hwf : board_wf b)
    (hbel : worker_belongs_to_current_player b f = true)
    (hval : apollo_move_is_valid b f t bd = true)
    (hgm : god_move_match (current_god b) (MoveKind.apollo f t bd) = true)
    (hg : apollo_make_move { b with last_move_height_diff := 0 } f t bd
      = Except.ok b')
    (hb1 : b1 = { b' with prevent_up_next_turn := p, won := w, turn := -b'.turn }) :
    ∃ b2, unmake_move b1 (⟨.apollo f t bd, had⟩ : Move) = Except.ok b2 ∧
      b2.blocks = b.blocks ∧ b2.workers = b.workers ∧ b2.turn = b.turn ∧
      b2.won = false ∧ b2.prevent_up_next_turn = had ∧
      b2.last_move_height_diff = 0 := by
  obtain ⟨hadjN, hnone, hsome⟩ := apollo_valid_parts hval
  obtain ⟨j, hj4, hgd, hside⟩ := belongs_slot hbel
  have hnd : b.workers.Nodup := hwf.2.2.2.1
  have hjl : j < b.workers.length := hwf.2.1 ▸ hj4
  have hidx : ({ b with last_move_height_diff := 0 } : Board).workers.findIdx?
      (· = f) = some j := which_worker_slot hnd hjl hgd
  cases hocc : which_worker_is_here b t with
  | none =>
    obtain ⟨h4ne, hbo⟩ := hnone hocc
    have htnw : t ∉ b.workers := which_worker_none_iff.mp hocc
    have hbd25 : bd < 25 := NEIGHBOURS_lt25 (build_ok_sq_iff.mp hbo).1
    rw [apollo_make_none_eval hidx hocc] at hg
    have hB := (Except.ok.inj hg).symm
    have hbt : b'.turn = b.turn := by rw [hB]; rfl
    have hbg : b'.gods = b.gods := by rw [hB]; rfl
    have hb0 : b'.last_move_height_diff = 0 := by rw [hB]; rfl
    have hct : (unmake_base b1 ⟨.apollo f t bd, had⟩).turn = b.turn := by
      show -b1.turn = b.turn
      rw [hb1]
      show -(-b'.turn) = b.turn
      rw [neg_neg, hbt]
    have hcw : (unmake_base b1 ⟨.apollo f t bd, had⟩).workers
        = b.workers.set j t := by
      show b1.workers = _
      rw [hb1]
      show b'.workers = _
      rw [hB]
      rfl
    have hcb : (unmake_base b1 ⟨.apollo f t bd, had⟩).blocks
        = b.blocks.set bd (b.blockAt bd + 1) := by
      show b1.blocks = _
      rw [hb1]
      show b'.blocks = _
      rw [hB]
      rfl
    have hcur : current_god { b1 with turn := -b1.turn } = current_god b := by
      unfold current_god
      rw [hb1]
      dsimp only
      rw [neg_neg, hbt, hbg]
    have hm2 : god_move_match (current_god { b1 with turn := -b1.turn })
        (⟨.apollo f t bd, had⟩ : Move).kind = true := by
      rw [hcur]
      exact hgm
    obtain ⟨b2, he, h1, h2, h3, h4, h5, h6⟩ :=
      undo_apollo_none_spec (unmake_base b1 ⟨.apollo f t bd, had⟩) hwf hj4 hgd
        hside htnw hbd25 hcw hcb hct
    refine ⟨b2, ?_, h1, h2, h3.trans hct, h4.trans rfl, h5.trans rfl, ?_⟩
    · rw [unmake_move_step hm2]
      exact he
    · rw [h6]
      show b1.last_move_height_diff = 0
      rw [hb1]
      show b'.last_move_height_diff = 0
      exact hb0
  | some occ =>
    obtain ⟨hopp, hbo, hfbd⟩ := hsome occ hocc
    obtain ⟨hoccl, hocct, -⟩ := which_worker_spec hocc
    have hoppside := opponent_slot hopp
    have hjo : j ≠ occ := mover_ne_opponent hside hopp
    have hbd25 : bd < 25 := NEIGHBOURS_lt25 (build_ok_sq_iff.mp hbo).1
    rw [apollo_make_swap_eval hidx hocc hopp] at hg
    have hB := (Except.ok.inj hg).symm
    have hbt : b'.turn = b.turn := by rw [hB]; rfl
    have hbg : b'.gods = b.gods := by rw [hB]; rfl
    have hb0 : b'.last_move_height_diff = 0 := by rw [hB]; rfl
    have hct : (unmake_base b1 ⟨.apollo f t bd, had⟩).turn = b.turn := by
      show -b1.turn = b.turn
      rw [hb1]
      show -(-b'.turn) = b.turn
      rw [neg_neg, hbt]
    have hcw : (unmake_base b1 ⟨.apollo f t bd, had⟩).workers
        = (b.workers.set occ f).set j t := by
      show b1.workers = _
      rw [hb1]
      show b'.workers = _
      rw [hB]
      rfl
    have hcb : (unmake_base b1 ⟨.apollo f t bd, had⟩).blocks
        = b.blocks.set bd (b.blockAt bd + 1) := by
      show b1.blocks = _
      rw [hb1]
      show b'.blocks = _
      rw [hB]
      rfl
    have hcur : current_god { b1 with turn := -b1.turn } = current_god b := by
      unfold current_god
      rw [hb1]
      dsimp only
      rw [neg_neg, hbt, hbg]
    have hm2 : god_move_match (current_god { b1 with turn := -b1.turn })
        (⟨.apollo f t bd, had⟩ : Move).kind = true := by
      rw [hcur]
      exact hgm
    obtain ⟨b2, he, h1, h2, h3, h4, h5, h6⟩ :=
      undo_apollo_swap_spec (unmake_base b1 ⟨.apollo f t bd, had⟩) hwf hj4 hgd
        hside hoccl hocct hoppside hjo hbd25 hcw hcb hct
    refine ⟨b2, ?_, h1, h2, h3.trans hct, h4.trans rfl, h5.trans rfl, ?_⟩
    · rw [unmake_move_step hm2]
      exact he
    · rw [h6]
      show b1.last_move_height_diff = 0
      rw [hb1]
      show b'.last_move_height_diff = 0
      exact hb0

theorem round_trip_minotaur {b b' b1 : Board} {f t bd : Nat}
    {pushed had p w : Bool}
    (hwf : board_wf b)
    (hbel : worker_belongs_to_current_player b f = true)
    (hval : minotaur_move_is_valid b f t bd = true)
    (hpushed : pushed = (which_worker_is_here b t).isSome)
    (hgm : god_move_match (current_god b) (MoveKind.minotaur f t bd pushed) = true)
    (hg : minotaur_make_move { b with last_move_height_diff := 0 } f t bd
      = Except.ok b')
    (hb1 : b1 = { b' with prevent_up_next_turn := p, won := w, turn := -b'.turn }) :
    ∃ b2, unmake_move b1 (⟨.minotaur f t bd pushed, had⟩ : Move) = Except.ok b2 ∧
      b2.blocks = b.blocks ∧ b2.workers = b.workers ∧ b2.turn = b.turn ∧
      b2.won = false ∧ b2.prevent_up_next_turn = had ∧
      b2.last_move_height_diff = 0 := by
  obtain ⟨hadjN, hnone, hsome⟩ := minotaur_valid_parts hval
  obtain ⟨j, hj4, hgd, hside⟩ := belongs_slot hbel
  have hnd : b.workers.Nodup := hwf.2.2.2.1
  have hjl : j < b.workers.length := hwf.2.1 ▸ hj4
  cases hocc : which_worker_is_here b t with
  | none =>
    rw [hocc] at hpushed
    have hpf : pushed = false := by simpa using hpushed
    subst hpf
    obtain ⟨h4ne, hbo⟩ := hnone hocc
    have htnw : t ∉ b.workers := which_worker_none_iff.mp hocc
    have hbd25 : bd < 25 := NEIGHBOURS_lt25 (build_ok_sq_iff.mp hbo).1
    rw [minotaur_make_none_eval hocc] at hg
    have hB := (Except.ok.inj hg).symm
    have hbt : b'.turn = b.turn := by rw [hB]; rfl
    have hbg : b'.gods = b.gods := by rw [hB]; rfl
    have hb0 : b'.last_move_height_diff = 0 := by rw [hB]; rfl
    have hct : (unmake_base b1 ⟨.minotaur f t bd false, had⟩).turn = b.turn := by
      show -b1.turn = b.turn
      rw [hb1]
      show -(-b'.turn) = b.turn
      rw [neg_neg, hbt]
    have hcw : (unmake_base b1 ⟨.minotaur f t bd false, had⟩).workers
        = move_worker_list b.workers f t := by
      show b1.workers = _
      rw [hb1]
      show b'.workers = _
      rw [hB]
      rfl
    have hcb : (unmake_base b1 ⟨.minotaur f t bd false, had⟩).blocks
        = b.blocks.set bd (b.blockAt bd + 1) := by
      show b1.blocks = _
      rw [hb1]
      show b'.blocks = _
      rw [hB]
      rfl
    have hcur : current_god { b1 with turn := -b1.turn } = current_god b := by
      unfold current_god
      rw [hb1]
      dsimp only
      rw [neg_neg, hbt, hbg]
    have hm2 : god_move_match (current_god { b1 with turn := -b1.turn })
        (⟨.minotaur f t bd false, had⟩ : Move).kind = true := by
      rw [hcur]
      exact hgm
    obtain ⟨b2, he, h1, h2, h3, h4, h5, h6⟩ :=
      undo_minotaur_nopush_spec (unmake_base b1 ⟨.minotaur f t bd false, had⟩)
        hwf hbel htnw hbd25 hcw hcb hct
    refine ⟨b2, ?_, h1, h2, h3.trans hct, h4.trans rfl, h5.trans rfl, ?_⟩
    · rw [unmake_move_step hm2]
      exact he
    · rw [h6]
      show b1.last_move_height_diff = 0
      rw [hb1]
      show b'.last_move_height_diff = 0
      exact hb0
  | some occ =>
    rw [hocc] at hpushed
    have hpt : pushed = true := by simpa using hpushed
    subst hpt
    obtain ⟨hopp, push, hcp, hfr, hbo, hpbd⟩ := hsome occ hocc
    obtain ⟨hoccl, hocct, -⟩ := which_worker_spec hocc
    have hoppside := opponent_slot hopp
    have hjo : j ≠ occ := mover_ne_opponent hside hopp
    have hpnw : push ∉ b.workers := (is_free_iff.mp hfr).1
    have hbd25 : bd < 25 := NEIGHBOURS_lt25 (build_ok_sq_iff.mp hbo).1
    have hnd2 : (b.workers.set occ push).Nodup := hnd.set hpnw
    have hgd2 : (b.workers.set occ push).getD j 0 = f := by
      rw [getD_set_ne _ _ _ (fun he => hjo he.symm)]
      exact hgd
    have hjl2 : j < (b.workers.set occ push).length := by simpa using hjl
    rw [minotaur_make_push_eval hocc hopp hcp hfr] at hg
    have hB := (Except.ok.inj hg).symm
    have hbt : b'.turn = b.turn := by rw [hB]; rfl
    have hbg : b'.gods = b.gods := by rw [hB]; rfl
    have hb0 : b'.last_move_height_diff = 0 := by rw [hB]; rfl
    have hct : (unmake_base b1 ⟨.minotaur f t bd true, had⟩).turn = b.turn := by
      show -b1.turn = b.turn
      rw [hb1]
      show -(-b'.turn) = b.turn
      rw [neg_neg, hbt]
    have hcw : (unmake_base b1 ⟨.minotaur f t bd true, had⟩).workers
        = (b.workers.set occ push).set j t := by
      show b1.workers = _
      rw [hb1]
      show b'.workers = _
      rw [hB]
      exact move_worker_list_eq_set t hjl2 hgd2 hnd2
    have hcb : (unmake_base b1 ⟨.minotaur f t bd true, had⟩).blocks
        = b.blocks.set bd (b.blockAt bd + 1) := by
      show b1.blocks = _
      rw [hb1]
      show b'.blocks = _
      rw [hB]
      rfl
    have hcur : current_god { b1 with turn := -b1.turn } = current_god b := by
      unfold current_god
      rw [hb1]
      dsimp only
      rw [neg_neg, hbt, hbg]
    have hm2 : god_move_match (current_god { b1 with turn := -b1.turn })
        (⟨.minotaur f t bd true, had⟩ : Move).kind = true := by
      rw [hcur]
      exact hgm
    obtain ⟨b2, he, h1, h2, h3, h4, h5, h6⟩ :=
      undo_minotaur_push_spec (unmake_base b1 ⟨.minotaur f t bd true, had⟩) hwf
        hj4 hgd hside hoccl hocct hoppside hjo hpnw hbd25 hcp hcw hcb hct
    refine ⟨b2, ?_, h1, h2, h3.trans hct, h4.trans rfl, h5.trans rfl, ?_⟩
    · rw [unmake_move_step hm2]
      exact he
    · rw [h6]
      show b1.last_move_height_diff = 0
      rw [hb1]
      show b'.last_move_height_diff = 0
      exact hb0

theorem gmm_athena_shape {k : MoveKind} (h : god_move_match God.ATHENA k = true) :
    ∃ f t bd, k = MoveKind.athena f t bd := by
  cases k
  case athena f t bd => exact ⟨f, t, bd, rfl⟩
  all_goals simp [god_move_match] at h

theorem gmm_artemis_shape {k : MoveKind} (h : god_move_match God.ARTEMIS k = true) :
    ∃ f t bd mid, k = MoveKind.artemis f t bd mid := by
  cases k
  case artemis f t bd mid => exact ⟨f, t, bd, mid, rfl⟩
  all_goals simp [god_move_match] at h

theorem gmm_atlas_shape {k : MoveKind} (h : god_move_match God.ATLAS k = true) :
    ∃ f t bd dome orig, k = MoveKind.atlas f t bd dome orig := by
  cases k
  case atlas f t bd dome orig => exact ⟨f, t, bd, dome, orig, rfl⟩
  all_goals simp [god_move_match] at h

theorem gmm_hephaestus_shape {k : MoveKind}
    (h : god_move_match God.HEPHAESTUS k = true) :
    ∃ f t b1 ob, k = MoveKind.hephaestus f t b1 ob := by
  cases k
  case hephaestus f t b1 ob => exact ⟨f, t, b1, ob, rfl⟩
  all_goals simp [god_move_match] at h

theorem gmm_hermes_shape {k : MoveKind} (h : god_move_match God.HERMES k = true) :
    ∃ f sqs bd, k = MoveKind.hermes f sqs bd := by
  cases k
  case hermes f sqs bd => exact ⟨f, sqs, bd, rfl⟩
  all_goals simp [god_move_match] at h

theorem gmm_minotaur_shape {k : MoveKind} (h : god_move_match God.MINOTAUR k = true) :
    ∃ f t bd pushed, k = MoveKind.minotaur f t bd pushed := by
  cases k
  case minotaur f t bd pushed => exact ⟨f, t, bd, pushed, rfl⟩
  all_goals simp [god_move_match] at h

theorem gmm_pan_shape {k : MoveKind} (h : god_move_match God.PAN k = true) :
    ∃ f t bd, k = MoveKind.pan f t bd := by
  cases k
  case pan f t bd => exact ⟨f, t, bd, rfl⟩
  all_goals simp [god_move_match] at h

theorem gmm_prometheus_shape {k : MoveKind}
    (h : god_move_match God.PROMETHEUS k = true) :
    ∃ f t bd opt, k = MoveKind.prometheus f t bd opt := by
  cases k
  case prometheus f t bd opt => exact ⟨f, t, bd, opt, rfl⟩
  all_goals simp [god_move_match] at h

/-- the Apollo generator only emits `ApolloMove`s proper. -/
theorem apollo_raw_shape {b : Board} {k : MoveKind}
    (h : k ∈ generate_moves_apollo b) : ∃ f t bd, k = MoveKind.apollo f t bd := by
  simp only [generate_moves_apollo, List.mem_flatMap] at h
  obtain ⟨f2, -, t2, -, hin⟩ := h
  split at hin
  · simp at hin
  · simp only [List.mem_map, List.mem_filter] at hin
    obtain ⟨bd2, -, heq⟩ := hin
    exact ⟨f2, t2, bd2, heq.symm⟩

/-- the Demeter generator only emits `DemeterMove`s proper. -/
theorem demeter_raw_shape {b : Board} {k : MoveKind}
    (h : k ∈ generate_moves_demeter b) :
    ∃ f t b1 ob, k = MoveKind.demeter f t b1 ob := by
  simp only [generate_moves_demeter, List.mem_flatMap, List.mem_map,
    List.mem_filter] at h
  obtain ⟨f2, -, t2, -, b12, -, b22, -, heq⟩ := h
  split at heq
  · exact ⟨f2, t2, b12, none, heq.symm⟩
  · exact ⟨f2, t2, b12, some b22, heq.symm⟩

theorem round_trip_demeter {b b' b1 : Board} {f t bq : Nat} {ob : Option Nat}
    {had p w : Bool}
    (hwf : board_wf b)
    (hbel : worker_belongs_to_current_player b f = true)
    (h1 : complete_checks_sq b f t bq = true)
    (h2 : ∀ s, ob = some s → build_ok_sq b f t s = true)
    (hgm : god_move_match (current_god b) (MoveKind.demeter f t bq ob) = true)
    (hB : b' = demeter_make_move { b with last_move_height_diff := 0 } f t bq ob)
    (hb1 : b1 = { b' with prevent_up_next_turn := p, won := w, turn := -b'.turn }) :
    ∃ b2, unmake_move b1 (⟨.demeter f t bq ob, had⟩ : Move) = Except.ok b2 ∧
      b2.blocks = b.blocks ∧ b2.workers = b.workers ∧ b2.turn = b.turn ∧
      b2.won = false ∧ b2.prevent_up_next_turn = had ∧
      b2.last_move_height_diff = 0 := by
  obtain ⟨hmc, hbo⟩ := complete_checks_sq_iff.mp h1
  obtain ⟨htnw, hth⟩ := is_free_iff.mp (move_checks_sq_iff.mp hmc).2.2
  have hb1d : bq < 25 := NEIGHBOURS_lt25 (build_ok_sq_iff.mp hbo).1
  have hobd : ∀ s, ob = some s → s < 25 := fun s hs =>
    NEIGHBOURS_lt25 (build_ok_sq_iff.mp (h2 s hs)).1
  have hbt : b'.turn = b.turn := by rw [hB]; cases ob <;> rfl
  have hbg : b'.gods = b.gods := by rw [hB]; cases ob <;> rfl
  have hb0 : b'.last_move_height_diff = 0 := by rw [hB]; cases ob <;> rfl
  have hct : (unmake_base b1 ⟨.demeter f t bq ob, had⟩).turn = b.turn := by
    show -b1.turn = b.turn
    rw [hb1]
    show -(-b'.turn) = b.turn
    rw [neg_neg, hbt]
  have hcw : (unmake_base b1 ⟨.demeter f t bq ob, had⟩).workers
      = move_worker_list b.workers f t := by
    show b1.workers = _
    rw [hb1]
    show b'.workers = _
    rw [hB]
    cases ob <;> rfl
  have hcur : current_god { b1 with turn := -b1.turn } = current_god b := by
    unfold current_god
    rw [hb1]
    dsimp only
    rw [neg_neg, hbt, hbg]
  have hm2 : god_move_match (current_god { b1 with turn := -b1.turn })
      (⟨.demeter f t bq ob, had⟩ : Move).kind = true := by
    rw [hcur]
    exact hgm
  have hdiff : b1.last_move_height_diff = 0 := by
    rw [hb1]
    show b'.last_move_height_diff = 0
    exact hb0
  cases ob with
  | none =>
    have hcb : (unmake_base b1 ⟨.demeter f t bq none, had⟩).blocks
        = b.blocks.set bq (b.blockAt bq + 1) := by
      show b1.blocks = _
      rw [hb1]
      show b'.blocks = _
      rw [hB]
      rfl
    obtain ⟨b2, he, hh1, hh2, hh3, hh4, hh5, hh6⟩ :=
      undo_demeter_spec (unmake_base b1 ⟨.demeter f t bq none, had⟩) hwf hbel htnw
        hb1d hobd hcw hcb hct
    refine ⟨b2, ?_, hh1, hh2, hh3.trans hct, hh4.trans rfl, hh5.trans rfl,
      hh6.trans hdiff⟩
    rw [unmake_move_step hm2]
    exact he
  | some s =>
    have hcb : (unmake_base b1 ⟨.demeter f t bq (some s), had⟩).blocks
        = (b.blocks.set bq (b.blockAt bq + 1)).set s
            ((b.blocks.set bq (b.blockAt bq + 1)).getD s 0 + 1) := by
      show b1.blocks = _
      rw [hb1]
      show b'.blocks = _
      rw [hB]
      rfl
    obtain ⟨b2, he, hh1, hh2, hh3, hh4, hh5, hh6⟩ :=
      undo_demeter_spec (unmake_base b1 ⟨.demeter f t bq (some s), had⟩) hwf hbel
        htnw hb1d hobd hcw hcb hct
    refine ⟨b2, ?_, hh1, hh2, hh3.trans hct, hh4.trans rfl, hh5.trans rfl,
      hh6.trans hdiff⟩
    rw [unmake_move_step hm2]
    exact he

theorem round_trip_hephaestus {b b' b1 : Board} {f t bq : Nat} {ob : Option Nat}
    {had p w : Bool}
    (hwf : board_wf b)
    (hbel : worker_belongs_to_current_player b f = true)
    (h1 : complete_checks_sq b f t bq = true)
    (h2 : ∀ s, ob = some s → build_ok_sq b f t s = true)
    (hgm : god_move_match (current_god b) (MoveKind.hephaestus f t bq ob) = true)
    (hB : b' = demeter_make_move { b with last_move_height_diff := 0 } f t bq ob)
    (hb1 : b1 = { b' with prevent_up_next_turn := p, won := w, turn := -b'.turn }) :
    ∃ b2, unmake_move b1 (⟨.hephaestus f t bq ob, had⟩ : Move) = Except.ok b2 ∧
      b2.blocks = b.blocks ∧ b2.workers = b.workers ∧ b2.turn = b.turn ∧
      b2.won = false ∧ b2.prevent_up_next_turn = had ∧
      b2.last_move_height_diff = 0 := by
  obtain ⟨hmc, hbo⟩ := complete_checks_sq_iff.mp h1
  obtain ⟨htnw, hth⟩ := is_free_iff.mp (move_checks_sq_iff.mp hmc).2.2
  have hb1d : bq < 25 := NEIGHBOURS_lt25 (build_ok_sq_iff.mp hbo).1
  have hobd : ∀ s, ob = some s → s < 25 := fun s hs =>
    NEIGHBOURS_lt25 (build_ok_sq_iff.mp (h2 s hs)).1
  have hbt : b'.turn = b.turn := by rw [hB]; cases ob <;> rfl
  have hbg : b'.gods = b.gods := by rw [hB]; cases ob <;> rfl
  have hb0 : b'.last_move_height_diff = 0 := by rw [hB]; cases ob <;> rfl
  have hct : (unmake_base b1 ⟨.hephaestus f t bq ob, had⟩).turn = b.turn := by
    show -b1.turn = b.turn
    rw [hb1]
    show -(-b'.turn) = b.turn
    rw [neg_neg, hbt]
  have hcw : (unmake_base b1 ⟨.hephaestus f t bq ob, had⟩).workers
      = move_worker_list b.workers f t := by
    show b1.workers = _
    rw [hb1]
    show b'.workers = _
    rw [hB]
    cases ob <;> rfl
  have hcur : current_god { b1 with turn := -b1.turn } = current_god b := by
    unfold current_god
    rw [hb1]
    dsimp only
    rw [neg_neg, hbt, hbg]
  have hm2 : god_move_match (current_god { b1 with turn := -b1.turn })
      (⟨.hephaestus f t bq ob, had⟩ : Move).kind = true := by
    rw [hcur]
    exact hgm
  have hdiff : b1.last_move_height_diff = 0 := by
    rw [hb1]
    show b'.last_move_height_diff = 0
    exact hb0
  cases ob with
  | none =>
    have hcb : (unmake_base b1 ⟨.hephaestus f t bq none, had⟩).blocks
        = b.blocks.set bq (b.blockAt bq + 1) := by
      show b1.blocks = _
      rw [hb1]
      show b'.blocks = _
      rw [hB]
      rfl
    obtain ⟨b2, he, hh1, hh2, hh3, hh4, hh5, hh6⟩ :=
      undo_demeter_spec (unmake_base b1 ⟨.hephaestus f t bq none, had⟩) hwf hbel
        htnw hb1d hobd hcw hcb hct
    refine ⟨b2, ?_, hh1, hh2, hh3.trans hct, hh4.trans rfl, hh5.trans rfl,
      hh6.trans hdiff⟩
    rw [unmake_move_step hm2]
    exact he
  | some s =>
    have hcb : (unmake_base b1 ⟨.hephaestus f t bq (some s), had⟩).blocks
        = (b.blocks.set bq (b.blockAt bq + 1)).set s
            ((b.blocks.set bq (b.blockAt bq + 1)).getD s 0 + 1) := by
      show b1.blocks = _
      rw [hb1]
      show b'.blocks = _
      rw [hB]
      rfl
    obtain ⟨b2, he, hh1, hh2, hh3, hh4, hh5, hh6⟩ :=
      undo_demeter_spec (unmake_base b1 ⟨.hephaestus f t bq (some s), had⟩) hwf
        hbel htnw hb1d hobd hcw hcb hct
    refine ⟨b2, ?_, hh1, hh2, hh3.trans hct, hh4.trans rfl, hh5.trans rfl,
      hh6.trans hdiff⟩
    rw [unmake_move_step hm2]
    exact he

/-- the facts of a valid Hermes move needed for the round trip. -/
theorem hermes_valid_facts {b : Board} {f : Nat} {sqs : List Nat} {bd : Nat}
    (hval : hermes_move_is_valid b f sqs bd = true) :
    build_ok_sq b f (sqs.getLast?.getD f) bd = true ∧
      (sqs ≠ [] → is_free b (sqs.getLast?.getD f) = true) := by
  unfold hermes_move_is_valid at hval
  dsimp only at hval
  by_cases hl : (sqs.length == 1) = true
  · rw [if_pos hl] at hval
    obtain ⟨hmc, hbo⟩ := complete_checks_sq_iff.mp hval
    exact ⟨hbo, fun _ => (move_checks_sq_iff.mp hmc).2.2⟩
  · rw [if_neg hl] at hval
    split_ifs at hval with h1 h2
    refine ⟨by simpa using h2, ?_⟩
    intro hne
    have hsteps : hermes_steps b (b.blockAt f) f sqs = true := by simpa using h1
    cases sqs with
    | nil => exact absurd rfl hne
    | cons x rest =>
      have hne2 : (x :: rest : List Nat) ≠ [] := by simp
      have hfm : (x :: rest).getLast?.getD f ∈ (x :: rest) := by
        rw [List.getLast?_eq_getLast _ hne2]
        exact List.getLast_mem hne2
      exact hermes_steps_free f hsteps _ hfm

theorem round_trip_hermes {b b' b1 : Board} {f bd : Nat} {sqs : List Nat}
    {had p w : Bool}
    (hwf : board_wf b)
    (hbel : worker_belongs_to_current_player b f = true)
    (hval : hermes_move_is_valid b f sqs bd = true)
    (hgm : god_move_match (current_god b) (MoveKind.hermes f sqs bd) = true)
    (hB : b' = hermes_make_move { b with last_move_height_diff := 0 } f
      (sqs.getLast?.getD f) bd)
    (hb1 : b1 = { b' with prevent_up_next_turn := p, won := w, turn := -b'.turn }) :
    ∃ b2, unmake_move b1 (⟨.hermes f sqs bd, had⟩ : Move) = Except.ok b2 ∧
      b2.blocks = b.blocks ∧ b2.workers = b.workers ∧ b2.turn = b.turn ∧
      b2.won = false ∧ b2.prevent_up_next_turn = had ∧
      b2.last_move_height_diff = 0 := by
  obtain ⟨hbo, hfreef⟩ := hermes_valid_facts hval
  have hbd25 : bd < 25 := NEIGHBOURS_lt25 (build_ok_sq_iff.mp hbo).1
  have hbt : b'.turn = b.turn := by rw [hB]; rfl
  have hbg : b'.gods = b.gods := by rw [hB]; rfl
  have hb0 : b'.last_move_height_diff = 0 := by rw [hB]; rfl
  have hct : (unmake_base b1 ⟨.hermes f sqs bd, had⟩).turn = b.turn := by
    show -b1.turn = b.turn
    rw [hb1]
    show -(-b'.turn) = b.turn
    rw [neg_neg, hbt]
  have hcw : (unmake_base b1 ⟨.hermes f sqs bd, had⟩).workers
      = move_worker_list b.workers f (sqs.getLast?.getD f) := by
    show b1.workers = _
    rw [hb1]
    show b'.workers = _
    rw [hB]
    rfl
  have hcb : (unmake_base b1 ⟨.hermes f sqs bd, had⟩).blocks
      = b.blocks.set bd (b.blockAt bd + 1) := by
    show b1.blocks = _
    rw [hb1]
    show b'.blocks = _
    rw [hB]
    rfl
  have hcur : current_god { b1 with turn := -b1.turn } = current_god b := by
    unfold current_god
    rw [hb1]
    dsimp only
    rw [neg_neg, hbt, hbg]
  have hm2 : god_move_match (current_god { b1 with turn := -b1.turn })
      (⟨.hermes f sqs bd, had⟩ : Move).kind = true := by
    rw [hcur]
    exact hgm
  have hdiff : b1.last_move_height_diff = 0 := by
    rw [hb1]
    show b'.last_move_height_diff = 0
    exact hb0
  cases sqs with
  | nil =>
    obtain ⟨b2, he, hh1, hh2, hh3, hh4, hh5, hh6⟩ :=
      undo_hermes_nil_spec (unmake_base b1 ⟨.hermes f [] bd, had⟩) hwf hbel hbd25
        hcw hcb hct
    refine ⟨b2, ?_, hh1, hh2, hh3.trans hct, hh4.trans rfl, hh5.trans rfl,
      hh6.trans hdiff⟩
    rw [unmake_move_step hm2]
    exact he
  | cons x rest =>
    have htnw : (x :: rest).getLast?.getD f ∉ b.workers :=
      (is_free_iff.mp (hfreef (by simp))).1
    obtain ⟨b2, he, hh1, hh2, hh3, hh4, hh5, hh6⟩ :=
      undo_hermes_cons_spec (unmake_base b1 ⟨.hermes f (x :: rest) bd, had⟩) hwf
        hbel htnw hbd25 hcw hcb hct
    refine ⟨b2, ?_, hh1, hh2, hh3.trans hct, hh4.trans rfl, hh5.trans rfl,
      hh6.trans hdiff⟩
    rw [unmake_move_step hm2]
    exact he

theorem round_trip_prometheus {b b' b1 : Board} {f t bd : Nat} {opt : Option Nat}
    {had p w : Bool}
    (hwf : board_wf b)
    (hbel : worker_belongs_to_current_player b f = true)
    (hval : prometheus_move_is_valid b f t bd opt = true)
    (hgm : god_move_match (current_god b) (MoveKind.prometheus f t bd opt) = true)
    (hB : b' = prometheus_make_move { b with last_move_height_diff := 0 } f t bd opt)
    (hb1 : b1 = { b' with prevent_up_next_turn := p, won := w, turn := -b'.turn }) :
    ∃ b2, unmake_move b1 (⟨.prometheus f t bd opt, had⟩ : Move) = Except.ok b2 ∧
      b2.blocks = b.blocks ∧ b2.workers = b.workers ∧ b2.turn = b.turn ∧
      b2.won = false ∧ b2.prevent_up_next_turn = had ∧
      b2.last_move_height_diff = 0 := by
  have hfacts : complete_checks_sq b f t bd = true ∧
      (∀ s, opt = some s → build_ok_sq b f f s = true) := by
    cases opt with
    | none =>
      refine ⟨hval, ?_⟩
      intro s hs
      exact Option.noConfusion hs
    | some ob =>
      obtain ⟨hbo1, -, hcc⟩ := prometheus_valid_some hval
      refine ⟨hcc, ?_⟩
      rintro s rfl2
      exact (Option.some.inj rfl2) ▸ hbo1
  obtain ⟨hcc, hoptb⟩ := hfacts
  obtain ⟨hmc, hbo⟩ := complete_checks_sq_iff.mp hcc
  obtain ⟨htnw, hth⟩ := is_free_iff.mp (move_checks_sq_iff.mp hmc).2.2
  have hbd25 : bd < 25 := NEIGHBOURS_lt25 (build_ok_sq_iff.mp hbo).1
  have hoptd : ∀ s, opt = some s → s < 25 := fun s hs =>
    NEIGHBOURS_lt25 (build_ok_sq_iff.mp (hoptb s hs)).1
  have hbt : b'.turn = b.turn := by rw [hB]; cases opt <;> rfl
  have hbg : b'.gods = b.gods := by rw [hB]; cases opt <;> rfl
  have hb0 : b'.last_move_height_diff = 0 := by rw [hB]; cases opt <;> rfl
  have hct : (unmake_base b1 ⟨.prometheus f t bd opt, had⟩).turn = b.turn := by
    show -b1.turn = b.turn
    rw [hb1]
    show -(-b'.turn) = b.turn
    rw [neg_neg, hbt]
  have hcw : (unmake_base b1 ⟨.prometheus f t bd opt, had⟩).workers
      = move_worker_list b.workers f t := by
    show b1.workers = _
    rw [hb1]
    show b'.workers = _
    rw [hB]
    cases opt <;> rfl
  have hcur : current_god { b1 with turn := -b1.turn } = current_god b := by
    unfold current_god
    rw [hb1]
    dsimp only
    rw [neg_neg, hbt, hbg]
  have hm2 : god_move_match (current_god { b1 with turn := -b1.turn })
      (⟨.prometheus f t bd opt, had⟩ : Move).kind = true := by
    rw [hcur]
    exact hgm
  have hdiff : b1.last_move_height_diff = 0 := by
    rw [hb1]
    show b'.last_move_height_diff = 0
    exact hb0
  cases opt with
  | none =>
    have hcb : (unmake_base b1 ⟨.prometheus f t bd none, had⟩).blocks
        = b.blocks.set bd (b.blockAt bd + 1) := by
      show b1.blocks = _
      rw [hb1]
      show b'.blocks = _
      rw [hB]
      rfl
    obtain ⟨b2, he, hh1, hh2, hh3, hh4, hh5, hh6⟩ :=
      undo_prometheus_spec (unmake_base b1 ⟨.prometheus f t bd none, had⟩) hwf
        hbel htnw hbd25 hoptd hcw hcb hct
    refine ⟨b2, ?_, hh1, hh2, hh3.trans hct, hh4.trans rfl, hh5.trans rfl,
      hh6.trans hdiff⟩
    rw [unmake_move_step hm2]
    exact he
  | some ob =>
    have hcb : (unmake_base b1 ⟨.prometheus f t bd (some ob), had⟩).blocks
        = (b.blocks.set ob (b.blockAt ob + 1)).set bd
            ((b.blocks.set ob (b.blockAt ob + 1)).getD bd 0 + 1) := by
      show b1.blocks = _
      rw [hb1]
      show b'.blocks = _
      rw [hB]
      rfl
    obtain ⟨b2, he, hh1, hh2, hh3, hh4, hh5, hh6⟩ :=
      undo_prometheus_spec (unmake_base b1 ⟨.prometheus f t bd (some ob), had⟩)
        hwf hbel htnw hbd25 hoptd hcw hcb hct
    refine ⟨b2, ?_, hh1, hh2, hh3.trans hct, hh4.trans rfl, hh5.trans rfl,
      hh6.trans hdiff⟩
    rw [unmake_move_step hm2]
    exact he

/-- C1 (amended): for every well-formed board and every move emitted by
`generate_moves` for that board, `make_move` followed by `unmake_move` of the
same move restores every block height, every worker position, the side to
move, and leaves `won = false`; the athena flag is restored to its pre-move
value except when the mover's god is Athena, in which case `_undo_athena_move`
unconditionally clears it.  `last_move_height_diff` is not restored to its
pre-move value either: for every non-Athena god the round trip leaves it `0`
(`make_move` resets it before applying, Pan's undo writes `0` explicitly, and
no other undo touches it), while for an Athena mover it leaves the move's own
height difference `height(final) - height(from)` that `_athena_make_move`
recorded, since `_undo_athena_move` never resets it. -/
theorem generated_round_trip {b : Board} {m : Move} {b1 : Board}
    (hwf : board_wf b) (hmem : m ∈ generate_moves b)
    (hmk : make_move b m = Except.ok b1) :
    ∃ b2, unmake_move b1 m = Except.ok b2 ∧
      b2.blocks = b.blocks ∧ b2.workers = b.workers ∧ b2.turn = b.turn ∧
      b2.won = false ∧
      b2.prevent_up_next_turn =
        (if current_god b = God.ATHENA then false else b.prevent_up_next_turn) ∧
      (current_god b ≠ God.ATHENA → b2.last_move_height_diff = 0) ∧
      (current_god b = God.ATHENA → b2.last_move_height_diff =
        b.blockAt m.kind.final_sq - b.blockAt m.kind.from_sq) := by
  obtain ⟨hhad, hraw, -⟩ := mem_generate_moves.mp hmem
  obtain ⟨hv, b', hg, hb1⟩ := make_move_ok hmk
  obtain ⟨hgm, hbel, -, hdisp⟩ := move_is_valid_true.mp hv
  cases hcg : current_god b with
  | APOLLO =>
    have hraw2 : m.kind ∈ generate_moves_apollo b := by
      have h := hraw
      unfold generate_moves_raw at h
      rw [show (if b.turn = 1 then b.gods.1 else b.gods.2) = God.APOLLO
        from hcg] at h
      exact h
    obtain ⟨f, t, bd, hk⟩ := apollo_raw_shape hraw2
    have hmEq : m = (⟨MoveKind.apollo f t bd, b.prevent_up_next_turn⟩ : Move) := by
      cases m with
      | mk k2 fl2 => exact congrArg₂ Move.mk hk hhad
    subst hmEq
    rw [hcg] at hdisp hg
    dsimp only at hdisp hg
    dsimp only [MoveKind.from_sq] at hbel
    unfold dispatch_valid at hdisp
    unfold make_move_for_god at hg
    dsimp only [apollo_view] at hdisp hg
    obtain ⟨b2, he, h1, h2, h3, h4, h5, h6⟩ :=
      @round_trip_apollo b b' b1 f t bd b.prevent_up_next_turn _ _ hwf hbel
        hdisp hgm hg hb1
    refine ⟨b2, he, h1, h2, h3, h4, ?_, fun _ => h6,
      fun hco => God.noConfusion hco⟩
    rw [if_neg (by decide)]
    exact h5
  | ARTEMIS =>
    have hgmA := hgm
    rw [hcg] at hgmA
    obtain ⟨f, t, bd, mid, hk⟩ := gmm_artemis_shape hgmA
    have hmEq : m = (⟨MoveKind.artemis f t bd mid, b.prevent_up_next_turn⟩ : Move) := by
      cases m with
      | mk k2 fl2 => exact congrArg₂ Move.mk hk hhad
    subst hmEq
    rw [hcg] at hdisp hg
    dsimp only at hdisp hg
    dsimp only [MoveKind.from_sq] at hbel
    unfold dispatch_valid at hdisp
    unfold make_move_for_god at hg
    dsimp only at hdisp hg
    obtain ⟨b2, he, h1, h2, h3, h4, h5, h6⟩ :=
      @round_trip_artemis b b' b1 f t bd mid b.prevent_up_next_turn _ _ hwf hbel
        hdisp hgm hg hb1
    refine ⟨b2, he, h1, h2, h3, h4, ?_, fun _ => h6,
      fun hco => God.noConfusion hco⟩
    rw [if_neg (by decide)]
    exact h5
  | ATHENA =>
    have hgmA := hgm
    rw [hcg] at hgmA
    obtain ⟨f, t, bd, hk⟩ := gmm_athena_shape hgmA
    have hmEq : m = (⟨MoveKind.athena f t bd, b.prevent_up_next_turn⟩ : Move) := by
      cases m with
      | mk k2 fl2 => exact congrArg₂ Move.mk hk hhad
    subst hmEq
    rw [hcg] at hdisp hg
    dsimp only at hdisp hg
    dsimp only [MoveKind.from_sq] at hbel
    unfold dispatch_valid at hdisp
    unfold make_move_for_god at hg
    dsimp only at hdisp hg
    rw [except_pure] at hg
    obtain ⟨b2, he, h1, h2, h3, h4, h5, h7⟩ :=
      @round_trip_athena b b' b1 f t bd b.prevent_up_next_turn _ _ hwf hbel
        hdisp hgm (Except.ok.inj hg).symm hb1
    refine ⟨b2, he, h1, h2, h3, h4, ?_, fun hne => absurd rfl hne, fun _ => h7⟩
    rw [if_pos rfl]
    exact h5
  | ATLAS =>
    have hgmA := hgm
    rw [hcg] at hgmA
    obtain ⟨f, t, bd, dome, orig, hk⟩ := gmm_atlas_shape hgmA
    have hraw2 : m.kind ∈ generate_moves_atlas b := by
      have h := hraw
      unfold generate_moves_raw at h
      rw [show (if b.turn = 1 then b.gods.1 else b.gods.2) = God.ATLAS
        from hcg] at h
      exact h
    rw [hk] at hraw2
    have horig := atlas_raw_orig hraw2
    subst horig
    have hmEq : m = (⟨MoveKind.atlas f t bd dome (some (b.blockAt bd)),
        b.prevent_up_next_turn⟩ : Move) := by
      cases m with
      | mk k2 fl2 => exact congrArg₂ Move.mk hk hhad
    subst hmEq
    rw [hcg] at hdisp hg
    dsimp only at hdisp hg
    dsimp only [MoveKind.from_sq] at hbel
    unfold dispatch_valid at hdisp
    unfold make_move_for_god at hg
    dsimp only at hdisp hg
    rw [except_pure] at hg
    obtain ⟨b2, he, h1, h2, h3, h4, h5, h6⟩ :=
      @round_trip_atlas b b' b1 f t bd dome b.prevent_up_next_turn _ _ hwf hbel
        hdisp hgm (Except.ok.inj hg).symm hb1
    refine ⟨b2, he, h1, h2, h3, h4, ?_, fun _ => h6,
      fun hco => God.noConfusion hco⟩
    rw [if_neg (by decide)]
    exact h5
  | DEMETER =>
    have hraw2 : m.kind ∈ generate_moves_demeter b := by
      have h := hraw
      unfold generate_moves_raw at h
      rw [show (if b.turn = 1 then b.gods.1 else b.gods.2) = God.DEMETER
        from hcg] at h
      exact h
    obtain ⟨f, t, bq, ob, hk⟩ := demeter_raw_shape hraw2
    have hmEq : m = (⟨MoveKind.demeter f t bq ob, b.prevent_up_next_turn⟩ : Move) := by
      cases m with
      | mk k2 fl2 => exact congrArg₂ Move.mk hk hhad
    subst hmEq
    rw [hcg] at hdisp hg
    dsimp only at hdisp hg
    dsimp only [MoveKind.from_sq] at hbel
    unfold dispatch_valid at hdisp
    unfold make_move_for_god at hg
    dsimp only [demeter_view] at hdisp hg
    rw [except_pure] at hg
    obtain ⟨b2, he, h1, h2, h3, h4, h5, h6⟩ :=
      @round_trip_demeter b b' b1 f t bq ob b.prevent_up_next_turn _ _ hwf hbel
        (demeter_valid_parts hdisp).1 (demeter_valid_parts hdisp).2 hgm
        (Except.ok.inj hg).symm hb1
    refine ⟨b2, he, h1, h2, h3, h4, ?_, fun _ => h6,
      fun hco => God.noConfusion hco⟩
    rw [if_neg (by decide)]
    exact h5
  | HEPHAESTUS =>
    have hgmA := hgm
    rw [hcg] at hgmA
    obtain ⟨f, t, bq, ob, hk⟩ := gmm_hephaestus_shape hgmA
    have hmEq : m = (⟨MoveKind.hephaestus f t bq ob, b.prevent_up_next_turn⟩ : Move) := by
      cases m with
      | mk k2 fl2 => exact congrArg₂ Move.mk hk hhad
    subst hmEq
    rw [hcg] at hdisp hg
    dsimp only at hdisp hg
    dsimp only [MoveKind.from_sq] at hbel
    unfold dispatch_valid at hdisp
    unfold make_move_for_god at hg
    dsimp only at hdisp hg
    rw [except_pure] at hg
    obtain ⟨b2, he, h1, h2, h3, h4, h5, h6⟩ :=
      @round_trip_hephaestus b b' b1 f t bq ob b.prevent_up_next_turn _ _ hwf
        hbel (hephaestus_valid_parts hdisp).1 (hephaestus_valid_parts hdisp).2
        hgm (Except.ok.inj hg).symm hb1
    refine ⟨b2, he, h1, h2, h3, h4, ?_, fun _ => h6,
      fun hco => God.noConfusion hco⟩
    rw [if_neg (by decide)]
    exact h5
  | HERMES =>
    have hgmA := hgm
    rw [hcg] at hgmA
    obtain ⟨f, sqs, bd, hk⟩ := gmm_hermes_shape hgmA
    have hmEq : m = (⟨MoveKind.hermes f sqs bd, b.prevent_up_next_turn⟩ : Move) := by
      cases m with
      | mk k2 fl2 => exact congrArg₂ Move.mk hk hhad
    subst hmEq
    rw [hcg] at hdisp hg
    dsimp only at hdisp hg
    dsimp only [MoveKind.from_sq] at hbel
    unfold dispatch_valid at hdisp
    unfold make_move_for_god at hg
    dsimp only at hdisp hg
    rw [except_pure] at hg
    obtain ⟨b2, he, h1, h2, h3, h4, h5, h6⟩ :=
      @round_trip_hermes b b' b1 f bd sqs b.prevent_up_next_turn _ _ hwf hbel
        hdisp hgm (Except.ok.inj hg).symm hb1
    refine ⟨b2, he, h1, h2, h3, h4, ?_, fun _ => h6,
      fun hco => God.noConfusion hco⟩
    rw [if_neg (by decide)]
    exact h5
  | MINOTAUR =>
    have hgmA := hgm
    rw [hcg] at hgmA
    obtain ⟨f, t, bd, pushed, hk⟩ := gmm_minotaur_shape hgmA
    have hraw2 : m.kind ∈ generate_moves_minotaur b := by
      have h := hraw
      unfold generate_moves_raw at h
      rw [show (if b.turn = 1 then b.gods.1 else b.gods.2) = God.MINOTAUR
        from hcg] at h
      exact h
    rw [hk] at hraw2
    have hpushed := minotaur_raw_pushed hraw2
    have hmEq : m = (⟨MoveKind.minotaur f t bd pushed,
        b.prevent_up_next_turn⟩ : Move) := by
      cases m with
      | mk k2 fl2 => exact congrArg₂ Move.mk hk hhad
    subst hmEq
    rw [hcg] at hdisp hg
    dsimp only at hdisp hg
    dsimp only [MoveKind.from_sq] at hbel
    unfold dispatch_valid at hdisp
    unfold make_move_for_god at hg
    dsimp only at hdisp hg
    obtain ⟨b2, he, h1, h2, h3, h4, h5, h6⟩ :=
      @round_trip_minotaur b b' b1 f t bd pushed b.prevent_up_next_turn _ _ hwf
        hbel hdisp hpushed hgm hg hb1
    refine ⟨b2, he, h1, h2, h3, h4, ?_, fun _ => h6,
      fun hco => God.noConfusion hco⟩
    rw [if_neg (by decide)]
    exact h5
  | PAN =>
    have hgmA := hgm
    rw [hcg] at hgmA
    obtain ⟨f, t, bd, hk⟩ := gmm_pan_shape hgmA
    have hmEq : m = (⟨MoveKind.pan f t bd, b.prevent_up_next_turn⟩ : Move) := by
      cases m with
      | mk k2 fl2 => exact congrArg₂ Move.mk hk hhad
    subst hmEq
    rw [hcg] at hdisp hg
    dsimp only at hdisp hg
    dsimp only [MoveKind.from_sq] at hbel
    unfold dispatch_valid at hdisp
    unfold make_move_for_god at hg
    dsimp only at hdisp hg
    rw [except_pure] at hg
    obtain ⟨b2, he, h1, h2, h3, h4, h5, h6⟩ :=
      @round_trip_pan b b' b1 f t bd b.prevent_up_next_turn _ _ hwf hbel hdisp
        hgm (Except.ok.inj hg).symm hb1
    refine ⟨b2, he, h1, h2, h3, h4, ?_, fun _ => h6,
      fun hco => God.noConfusion hco⟩
    rw [if_neg (by decide)]
    exact h5
  | PROMETHEUS =>
    have hgmA := hgm
    rw [hcg] at hgmA
    obtain ⟨f, t, bd, opt, hk⟩ := gmm_prometheus_shape hgmA
    have hmEq : m = (⟨MoveKind.prometheus f t bd opt,
        b.prevent_up_next_turn⟩ : Move) := by
      cases m with
      | mk k2 fl2 => exact congrArg₂ Move.mk hk hhad
    subst hmEq
    rw [hcg] at hdisp hg
    dsimp only at hdisp hg
    dsimp only [MoveKind.from_sq] at hbel
    unfold dispatch_valid at hdisp
    unfold make_move_for_god at hg
    dsimp only at hdisp hg
    rw [except_pure] at hg
    obtain ⟨b2, he, h1, h2, h3, h4, h5, h6⟩ :=
      @round_trip_prometheus b b' b1 f t bd opt b.prevent_up_next_turn _ _ hwf
        hbel hdisp hgm (Except.ok.inj hg).symm hb1
    refine ⟨b2, he, h1, h2, h3, h4, ?_, fun _ => h6,
      fun hco => God.noConfusion hco⟩
    rw [if_neg (by decide)]
    exact h5

/-- A board where both players play Athena, Blue is to move, and the athena
flag (`prevent_up_next_turn`) is currently raised against Blue. -/
def athena_flag_board : Board :=
  ⟨List.replicate 25 0, [0, 1, 23, 24], -1, (God.ATHENA, God.ATHENA), true, 0, false⟩

/-- C1 counterexample: on `athena_flag_board` the generated move
`AthenaMove(24, 19, 18)` (flat, so it is legal under the raised flag) is made
and then unmade, and the athena flag comes back `false` instead of its
original value `true`: `_undo_athena_move` first restores
`prevent_up_next_turn` from `move.had_athena_flag` and then unconditionally
overwrites it with `False`. -/
theorem make_unmake_drops_athena_flag :
    board_wf athena_flag_board ∧
      athena_flag_board.prevent_up_next_turn = true ∧
      (⟨.athena 24 19 18, true⟩ : Move) ∈ generate_moves athena_flag_board ∧
      ((make_move athena_flag_board ⟨.athena 24 19 18, true⟩ >>=
          fun c => unmake_move c ⟨.athena 24 19 18, true⟩).toOption.map
        Board.prevent_up_next_turn) = some false :=
  ⟨by decide, by decide, by decide, by decide⟩

theorem workers_eq_four {l : List Nat} (h : l.length = 4) :
    ∃ a b c d, l = [a, b, c, d] := by
  rcases l with _ | ⟨a, _ | ⟨b, _ | ⟨c, _ | ⟨d, _ | ⟨e, tl⟩⟩⟩⟩⟩ <;>
    first
    | exact ⟨_, _, _, _, rfl⟩
    | (simp only [List.length_cons, List.length_nil] at h; omega)

/-- the worker squares scanned by `_player_has_any_valid_move` belong to the
side to move. -/
theorem belongs_of_index {b : Board} {wi : Nat}
    (hwi : wi ∈ (if b.turn = (1 : Int) then ([0, 1] : List Nat) else [2, 3])) :
    worker_belongs_to_current_player b (b.workerAt wi) = true := by
  unfold worker_belongs_to_current_player
  by_cases ht : b.turn = 1
  · rw [if_pos ht] at hwi ⊢
    rcases (by simpa using hwi : wi = 0 ∨ wi = 1) with rfl | rfl <;> simp
  · rw [if_neg ht] at hwi ⊢
    rcases (by simpa using hwi : wi = 2 ∨ wi = 3) with rfl | rfl <;> simp

/-- those worker squares are also the ones the generators iterate over. -/
theorem workerAt_mem_index {b : Board} (hwf : board_wf b) {wi : Nat}
    (hwi : wi ∈ (if b.turn = (1 : Int) then ([0, 1] : List Nat) else [2, 3])) :
    b.workerAt wi ∈ get_worker_index b := by
  obtain ⟨w0, w1, w2, w3, hw⟩ := workers_eq_four hwf.2.1
  unfold get_worker_index Board.workerAt
  rw [hw]
  by_cases ht : b.turn = 1
  · rw [if_pos ht] at hwi ⊢
    rcases (by simpa using hwi : wi = 0 ∨ wi = 1) with rfl | rfl <;> simp
  · rw [if_neg ht] at hwi ⊢
    rcases (by simpa using hwi : wi = 2 ∨ wi = 3) with rfl | rfl <;> simp

theorem mem_workers_of_index {b : Board} {f : Nat}
    (h : f ∈ get_worker_index b) : f ∈ b.workers := by
  unfold get_worker_index at h
  by_cases ht : b.turn = 1
  · rw [if_pos ht] at h
    exact List.mem_of_mem_take h
  · rw [if_neg ht] at h
    exact List.mem_of_mem_drop h

/-- a move that does not climb, or climbs while the athena flag is down,
passes the flag check of `move_is_valid`. -/
theorem no_up_flag {b : Board} {f t : Nat}
    (hcl : b.blockAt t - b.blockAt f ≤ 1)
    (hflag : b.blockAt t - b.blockAt f = 1 → b.prevent_up_next_turn = false) :
    (b.prevent_up_next_turn && decide (b.blockAt t > b.blockAt f)) = false := by
  cases hp : b.prevent_up_next_turn
  · rfl
  · rw [Bool.true_and, decide_eq_false_iff_not]
    intro hgt
    have h1 : b.blockAt t - b.blockAt f = 1 := by omega
    exact Bool.noConfusion ((hflag h1).symm.trans hp)

/-- the Minotaur push square never coincides with the pusher's own square. -/
theorem push_square_ne {f t p : Nat} (hft : t ≠ f)
    (hcp : calculate_push_square f t = some p) : p ≠ f := by
  unfold calculate_push_square at hcp
  dsimp only at hcp
  split_ifs at hcp with hb
  obtain hp := Option.some.inj hcp
  simp only [Bool.or_eq_true, decide_eq_true_eq, not_or, not_lt] at hb
  intro he
  rw [he] at hp
  omega

/-- the possible reasons `any_move_via` (one neighbour check of
`_player_has_any_valid_move`) can succeed. -/
theorem any_move_via_cases {b : Board} {god : God} {f t : Nat}
    (h : any_move_via b god f t = true) :
    b.blockAt t ≠ 4 ∧
      ((god = God.HERMES ∧ is_free b t = true) ∨
        (b.blockAt t - b.blockAt f ≤ 1 ∧
          (b.blockAt t - b.blockAt f = 1 → b.prevent_up_next_turn = false) ∧
          (which_worker_is_here b t = none ∨
            ∃ occ, which_worker_is_here b t = some occ ∧
              is_opponent_worker b (some occ) = true ∧
              ((god = God.APOLLO ∧
                  ∃ nei, nei ∈ NEIGHBOURS t ∧ nei ≠ f ∧ is_free b nei = true) ∨
                (god = God.MINOTAUR ∧
                  ∃ push, calculate_push_square f t = some push ∧
                    is_free b push = true))))) := by
  unfold any_move_via at h
  dsimp only at h
  by_cases h4 : (b.blockAt t == 4) = true
  · rw [if_pos h4] at h
    exact Bool.noConfusion h
  · rw [if_neg h4] at h
    refine ⟨by simpa using h4, ?_⟩
    by_cases hh : (god == God.HERMES && is_free b t) = true
    · rw [if_pos hh] at h
      obtain ⟨hg, hfr⟩ := (Bool.and_eq_true _ _).mp hh
      exact Or.inl ⟨by simpa using hg, hfr⟩
    · rw [if_neg hh] at h
      by_cases hcl : b.blockAt t - b.blockAt f > 1
      · rw [if_pos hcl] at h
        exact Bool.noConfusion h
      · rw [if_neg hcl] at h
        by_cases hfl : ((b.blockAt t - b.blockAt f == 1)
            && b.prevent_up_next_turn) = true
        · rw [if_pos hfl] at h
          exact Bool.noConfusion h
        · rw [if_neg hfl] at h
          refine Or.inr ⟨by omega, ?_, ?_⟩
          · intro hd1
            cases hp : b.prevent_up_next_turn
            · rfl
            · exact absurd (by simp [hd1, hp]) hfl
          · cases hocc : which_worker_is_here b t with
            | none => exact Or.inl rfl
            | some occ =>
              rw [hocc] at h
              dsimp only at h
              refine Or.inr ⟨occ, rfl, ?_⟩
              by_cases hap : (god == God.APOLLO
                  && is_opponent_worker b (some occ)) = true
              · rw [if_pos hap] at h
                obtain ⟨hgA, hopp⟩ := (Bool.and_eq_true _ _).mp hap
                refine ⟨hopp, Or.inl ⟨by simpa using hgA, ?_⟩⟩
                rw [List.any_eq_true] at h
                obtain ⟨nei, hneiN, hcond⟩ := h
                obtain ⟨hne, hfree⟩ := (Bool.and_eq_true _ _).mp hcond
                exact ⟨nei, hneiN, by simpa using hne, hfree⟩
              · rw [if_neg hap] at h
                by_cases hmi : (god == God.MINOTAUR
                    && is_opponent_worker b (some occ)) = true
                · rw [if_pos hmi] at h
                  obtain ⟨hgM, hopp⟩ := (Bool.and_eq_true _ _).mp hmi
                  cases hcp : calculate_push_square f t with
                  | none =>
                    rw [hcp] at h
                    exact Bool.noConfusion h
                  | some push =>
                    rw [hcp] at h
                    exact ⟨hopp, Or.inr ⟨by simpa using hgM, push, rfl, h⟩⟩
                · rw [if_neg hmi] at h
                  exact Bool.noConfusion h

/-- the shared ingredients of the per-god move constructions: moving to a
free, reachable neighbour and building back on the vacated square. -/
theorem standard_parts {b : Board} (hwf : board_wf b) {f t : Nat}
    (hfw : f ∈ b.workers) (htN : t ∈ NEIGHBOURS f)
    (htnw : t ∉ b.workers) (h4 : b.blockAt t ≠ 4)
    (hcl : b.blockAt t - b.blockAt f ≤ 1) :
    is_free b t = true ∧ complete_checks_sq b f t f = true ∧
      f ∈ get_build_sq b f t ∧
      t ∈ (NEIGHBOURS f).filter
        (fun t2 => is_free b t2 && b.blockAt t2 - b.blockAt f ≤ 1) := by
  obtain ⟨hb25, hw4, hbl, hnd, hwk, hturn⟩ := hwf
  have ht25 : t < 25 := NEIGHBOURS_lt25 htN
  have hf25 : f < 25 := (hwk f hfw).1
  have ht4 : b.blockAt t < 4 := lt_of_le_of_ne (blockAt_le4 hbl hb25 ht25) h4
  have hfree_t : is_free b t = true := is_free_iff.mpr ⟨htnw, ht4⟩
  have hft : t ≠ f := NEIGHBOURS_ne htN
  have hfiN : f ∈ NEIGHBOURS t := NEIGHBOURS_symm hf25 htN
  refine ⟨hfree_t, ?_, ?_, ?_⟩
  · exact complete_checks_sq_iff.mpr ⟨move_checks_sq_iff.mpr ⟨hcl, htN, hfree_t⟩,
      build_ok_sq_iff.mpr ⟨hfiN, hft, Or.inl rfl⟩⟩
  · unfold get_build_sq
    rw [List.mem_filter]
    exact ⟨hfiN, by simp [Ne.symm hft]⟩
  · rw [List.mem_filter]
    exact ⟨htN, by rw [hfree_t, Bool.true_and]; exact decide_eq_true hcl⟩

theorem athena_generated_of_free {b : Board} (hwf : board_wf b) {f t : Nat}
    (hfmem : f ∈ get_worker_index b)
    (hbel : worker_belongs_to_current_player b f = true)
    (hcg : current_god b = God.ATHENA)
    (htN : t ∈ NEIGHBOURS f) (htnw : t ∉ b.workers) (h4 : b.blockAt t ≠ 4)
    (hcl : b.blockAt t - b.blockAt f ≤ 1)
    (hflag : b.blockAt t - b.blockAt f = 1 → b.prevent_up_next_turn = false) :
    (⟨MoveKind.athena f t f, b.prevent_up_next_turn⟩ : Move)
      ∈ generate_moves b := by
  obtain ⟨hfree_t, hcc, hbld, htf⟩ :=
    standard_parts hwf (mem_workers_of_index hfmem) htN htnw h4 hcl
  have hup : (b.prevent_up_next_turn
      && attempts_to_move_up b (MoveKind.athena f t f)) = false :=
    no_up_flag hcl hflag
  have hdisp : dispatch_valid b (current_god b) (MoveKind.athena f t f) = true := by
    rw [hcg]
    show athena_move_is_valid b f t f = true
    exact hcc
  have hgm : god_move_match (current_god b) (MoveKind.athena f t f) = true := by
    rw [hcg]
    rfl
  have hkraw : MoveKind.athena f t f ∈ generate_moves_athena b := by
    unfold generate_moves_athena
    rw [List.mem_flatMap]
    refine ⟨f, hfmem, ?_⟩
    rw [List.mem_flatMap]
    refine ⟨t, htf, ?_⟩
    rw [List.mem_map]
    exact ⟨f, hbld, rfl⟩
  have hraw : MoveKind.athena f t f ∈ generate_moves_raw b := by
    unfold generate_moves_raw
    rw [show (if b.turn = 1 then b.gods.1 else b.gods.2) = God.ATHENA from hcg]
    exact hkraw
  exact mem_generate_moves.mpr
    ⟨rfl, hraw, move_is_valid_true.mpr ⟨hgm, hbel, hup, hdisp⟩⟩

theorem pan_generated_of_free {b : Board} (hwf : board_wf b) {f t : Nat}
    (hfmem : f ∈ get_worker_index b)
    (hbel : worker_belongs_to_current_player b f = true)
    (hcg : current_god b = God.PAN)
    (htN : t ∈ NEIGHBOURS f) (htnw : t ∉ b.workers) (h4 : b.blockAt t ≠ 4)
    (hcl : b.blockAt t - b.blockAt f ≤ 1)
    (hflag : b.blockAt t - b.blockAt f = 1 → b.prevent_up_next_turn = false) :
    (⟨MoveKind.pan f t f, b.prevent_up_next_turn⟩ : Move)
      ∈ generate_moves b := by
  obtain ⟨hfree_t, hcc, hbld, htf⟩ :=
    standard_parts hwf (mem_workers_of_index hfmem) htN htnw h4 hcl
  have hup : (b.prevent_up_next_turn
      && attempts_to_move_up b (MoveKind.pan f t f)) = false :=
    no_up_flag hcl hflag
  have hdisp : dispatch_valid b (current_god b) (MoveKind.pan f t f) = true := by
    rw [hcg]
    show pan_move_is_valid b f t f = true
    exact hcc
  have hgm : god_move_match (current_god b) (MoveKind.pan f t f) = true := by
    rw [hcg]
    rfl
  have hkraw : MoveKind.pan f t f ∈ generate_moves_pan b := by
    unfold generate_moves_pan
    rw [List.mem_flatMap]
    refine ⟨f, hfmem, ?_⟩
    rw [List.mem_flatMap]
    refine ⟨t, htf, ?_⟩
    rw [List.mem_map]
    exact ⟨f, hbld, rfl⟩
  have hraw : MoveKind.pan f t f ∈ generate_moves_raw b := by
    unfold generate_moves_raw
    rw [show (if b.turn = 1 then b.gods.1 else b.gods.2) = God.PAN from hcg]
    exact hkraw
  exact mem_generate_moves.mpr
    ⟨rfl, hraw, move_is_valid_true.mpr ⟨hgm, hbel, hup, hdisp⟩⟩

theorem atlas_generated_of_free {b : Board} (hwf : board_wf b) {f t : Nat}
    (hfmem : f ∈ get_worker_index b)
    (hbel : worker_belongs_to_current_player b f = true)
    (hcg : current_god b = God.ATLAS)
    (htN : t ∈ NEIGHBOURS f) (htnw : t ∉ b.workers) (h4 : b.blockAt t ≠ 4)
    (hcl : b.blockAt t - b.blockAt f ≤ 1)
    (hflag : b.blockAt t - b.blockAt f = 1 → b.prevent_up_next_turn = false) :
    (⟨MoveKind.atlas f t f false (some (b.blockAt f)),
      b.prevent_up_next_turn⟩ : Move) ∈ generate_moves b := by
  obtain ⟨hfree_t, hcc, hbld, htf⟩ :=
    standard_parts hwf (mem_workers_of_index hfmem) htN htnw h4 hcl
  have hup : (b.prevent_up_next_turn && attempts_to_move_up b
      (MoveKind.atlas f t f false (some (b.blockAt f)))) = false :=
    no_up_flag hcl hflag
  have hdisp : dispatch_valid b (current_god b)
      (MoveKind.atlas f t f false (some (b.blockAt f))) = true := by
    rw [hcg]
    show atlas_move_is_valid b f t f = true
    exact hcc
  have hgm : god_move_match (current_god b)
      (MoveKind.atlas f t f false (some (b.blockAt f))) = true := by
    rw [hcg]
    rfl
  have hkraw : MoveKind.atlas f t f false (some (b.blockAt f))
      ∈ generate_moves_atlas b := by
    unfold generate_moves_atlas
    rw [List.mem_flatMap]
    refine ⟨f, hfmem, ?_⟩
    rw [List.mem_flatMap]
    refine ⟨t, htf, ?_⟩
    rw [List.mem_flatMap]
    refine ⟨f, hbld, ?_⟩
    dsimp only
    exact List.mem_cons_self _ _
  have hraw : MoveKind.atlas f t f false (some (b.blockAt f))
      ∈ generate_moves_raw b := by
    unfold generate_moves_raw
    rw [show (if b.turn = 1 then b.gods.1 else b.gods.2) = God.ATLAS from hcg]
    exact hkraw
  exact mem_generate_moves.mpr
    ⟨rfl, hraw, move_is_valid_true.mpr ⟨hgm, hbel, hup, hdisp⟩⟩

theorem demeter_generated_of_free {b : Board} (hwf : board_wf b) {f t : Nat}
    (hfmem : f ∈ get_worker_index b)
    (hbel : worker_belongs_to_current_player b f = true)
    (hcg : current_god b = God.DEMETER)
    (htN : t ∈ NEIGHBOURS f) (htnw : t ∉ b.workers) (h4 : b.blockAt t ≠ 4)
    (hcl : b.blockAt t - b.blockAt f ≤ 1)
    (hflag : b.blockAt t - b.blockAt f = 1 → b.prevent_up_next_turn = false) :
    (⟨MoveKind.demeter f t f none, b.prevent_up_next_turn⟩ : Move)
      ∈ generate_moves b := by
  obtain ⟨hfree_t, hcc, hbld, htf⟩ :=
    standard_parts hwf (mem_workers_of_index hfmem) htN htnw h4 hcl
  have hup : (b.prevent_up_next_turn
      && attempts_to_move_up b (MoveKind.demeter f t f none)) = false :=
    no_up_flag hcl hflag
  have hvd : demeter_move_is_valid b f t f none = true := by
    unfold demeter_move_is_valid
    rw [if_neg (by simp [hcc])]
  have hdisp : dispatch_valid b (current_god b)
      (MoveKind.demeter f t f none) = true := by
    rw [hcg]
    show demeter_move_is_valid b f t f none = true
    exact hvd
  have hgm : god_move_match (current_god b)
      (MoveKind.demeter f t f none) = true := by
    rw [hcg]
    rfl
  have hkraw : MoveKind.demeter f t f none ∈ generate_moves_demeter b := by
    unfold generate_moves_demeter
    rw [List.mem_flatMap]
    refine ⟨f, hfmem, ?_⟩
    rw [List.mem_flatMap]
    refine ⟨t, htf, ?_⟩
    dsimp only
    rw [List.mem_flatMap]
    refine ⟨f, hbld, ?_⟩
    rw [List.mem_map]
    refine ⟨f, hbld, ?_⟩
    rw [if_pos rfl]
  have hraw : MoveKind.demeter f t f none ∈ generate_moves_raw b := by
    unfold generate_moves_raw
    rw [show (if b.turn = 1 then b.gods.1 else b.gods.2) = God.DEMETER from hcg]
    exact hkraw
  exact mem_generate_moves.mpr
    ⟨rfl, hraw, move_is_valid_true.mpr ⟨hgm, hbel, hup, hdisp⟩⟩

theorem hephaestus_generated_of_free {b : Board} (hwf : board_wf b) {f t : Nat}
    (hfmem : f ∈ get_worker_index b)
    (hbel : worker_belongs_to_current_player b f = true)
    (hcg : current_god b = God.HEPHAESTUS)
    (htN : t ∈ NEIGHBOURS f) (htnw : t ∉ b.workers) (h4 : b.blockAt t ≠ 4)
    (hcl : b.blockAt t - b.blockAt f ≤ 1)
    (hflag : b.blockAt t - b.blockAt f = 1 → b.prevent_up_next_turn = false) :
    (⟨MoveKind.hephaestus f t f none, b.prevent_up_next_turn⟩ : Move)
      ∈ generate_moves b := by
  obtain ⟨hfree_t, hcc, hbld, htf⟩ :=
    standard_parts hwf (mem_workers_of_index hfmem) htN htnw h4 hcl
  have hup : (b.prevent_up_next_turn
      && attempts_to_move_up b (MoveKind.hephaestus f t f none)) = false :=
    no_up_flag hcl hflag
  have hvd : hephaestus_move_is_valid b f t f none = true := by
    unfold hephaestus_move_is_valid
    rw [if_neg (by simp [hcc])]
  have hdisp : dispatch_valid b (current_god b)
      (MoveKind.hephaestus f t f none) = true := by
    rw [hcg]
    show hephaestus_move_is_valid b f t f none = true
    exact hvd
  have hgm : god_move_match (current_god b)
      (MoveKind.hephaestus f t f none) = true := by
    rw [hcg]
    rfl
  have hkraw : MoveKind.hephaestus f t f none ∈ generate_moves_hephaestus b := by
    unfold generate_moves_hephaestus
    rw [List.mem_flatMap]
    refine ⟨f, hfmem, ?_⟩
    rw [List.mem_flatMap]
    refine ⟨t, htf, ?_⟩
    rw [List.mem_flatMap]
    refine ⟨f, hbld, ?_⟩
    exact List.mem_cons_self _ _
  have hraw : MoveKind.hephaestus f t f none ∈ generate_moves_raw b := by
    unfold generate_moves_raw
    rw [show (if b.turn = 1 then b.gods.1 else b.gods.2) = God.HEPHAESTUS
      from hcg]
    exact hkraw
  exact mem_generate_moves.mpr
    ⟨rfl, hraw, move_is_valid_true.mpr ⟨hgm, hbel, hup, hdisp⟩⟩

theorem prometheus_generated_of_free {b : Board} (hwf : board_wf b) {f t : Nat}
    (hfmem : f ∈ get_worker_index b)
    (hbel : worker_belongs_to_current_player b f = true)
    (hcg : current_god b = God.PROMETHEUS)
    (htN : t ∈ NEIGHBOURS f) (htnw : t ∉ b.workers) (h4 : b.blockAt t ≠ 4)
    (hcl : b.blockAt t - b.blockAt f ≤ 1)
    (hflag : b.blockAt t - b.blockAt f = 1 → b.prevent_up_next_turn = false) :
    (⟨MoveKind.prometheus f t f none, b.prevent_up_next_turn⟩ : Move)
      ∈ generate_moves b := by
  obtain ⟨hfree_t, hcc, hbld, htf⟩ :=
    standard_parts hwf (mem_workers_of_index hfmem) htN htnw h4 hcl
  have hup : (b.prevent_up_next_turn
      && attempts_to_move_up b (MoveKind.prometheus f t f none)) = false :=
    no_up_flag hcl hflag
  have hdisp : dispatch_valid b (current_god b)
      (MoveKind.prometheus f t f none) = true := by
    rw [hcg]
    show prometheus_move_is_valid b f t f none = true
    exact hcc
  have hgm : god_move_match (current_god b)
      (MoveKind.prometheus f t f none) = true := by
    rw [hcg]
    rfl
  have hkraw : MoveKind.prometheus f t f none ∈ generate_moves_prometheus b := by
    unfold generate_moves_prometheus
    rw [List.mem_flatMap]
    refine ⟨f, hfmem, ?_⟩
    dsimp only
    rw [List.mem_append]
    refine Or.inl ?_
    rw [List.mem_flatMap]
    refine ⟨t, htf, ?_⟩
    rw [List.mem_map]
    exact ⟨f, hbld, rfl⟩
  have hraw : MoveKind.prometheus f t f none ∈ generate_moves_raw b := by
    unfold generate_moves_raw
    rw [show (if b.turn = 1 then b.gods.1 else b.gods.2) = God.PROMETHEUS
      from hcg]
    exact hkraw
  exact mem_generate_moves.mpr
    ⟨rfl, hraw, move_is_valid_true.mpr ⟨hgm, hbel, hup, hdisp⟩⟩

theorem artemis_generated_of_free {b : Board} (hwf : board_wf b) {f t : Nat}
    (hfmem : f ∈ get_worker_index b)
    (hbel : worker_belongs_to_current_player b f = true)
    (hcg : current_god b = God.ARTEMIS)
    (htN : t ∈ NEIGHBOURS f) (htnw : t ∉ b.workers) (h4 : b.blockAt t ≠ 4)
    (hcl : b.blockAt t - b.blockAt f ≤ 1)
    (hflag : b.blockAt t - b.blockAt f = 1 → b.prevent_up_next_turn = false) :
    (⟨MoveKind.artemis f t f none, b.prevent_up_next_turn⟩ : Move)
      ∈ generate_moves b := by
  obtain ⟨hfree_t, hcc, hbld, htf⟩ :=
    standard_parts hwf (mem_workers_of_index hfmem) htN htnw h4 hcl
  obtain ⟨hmc, hbo⟩ := complete_checks_sq_iff.mp hcc
  have hho : height_ok b f t = true := height_ok_iff.mpr hcl
  have haa : adj_ok f t = true := adj_ok_iff.mpr htN
  have hup : (b.prevent_up_next_turn
      && attempts_to_move_up b (MoveKind.artemis f t f none)) = false :=
    no_up_flag hcl hflag
  have hva : artemis_move_is_valid b f t f none = true := by
    unfold artemis_move_is_valid artemis_move_is_valid.artemis_build
    dsimp only
    rw [if_neg (by simp [hho, haa, hfree_t])]
    rw [if_neg (by simp [hbo])]
  have hdisp : dispatch_valid b (current_god b)
      (MoveKind.artemis f t f none) = true := by
    rw [hcg]
    show artemis_move_is_valid b f t f none = true
    exact hva
  have hgm : god_move_match (current_god b)
      (MoveKind.artemis f t f none) = true := by
    rw [hcg]
    rfl
  have hkraw : MoveKind.artemis f t f none ∈ generate_moves_artemis b := by
    unfold generate_moves_artemis
    rw [List.mem_flatMap]
    refine ⟨f, hfmem, ?_⟩
    rw [List.mem_flatMap]
    refine ⟨t, htf, ?_⟩
    dsimp only
    rw [List.mem_append]
    refine Or.inl ?_
    rw [List.mem_map]
    exact ⟨f, hbld, rfl⟩
  have hraw : MoveKind.artemis f t f none ∈ generate_moves_raw b := by
    unfold generate_moves_raw
    rw [show (if b.turn = 1 then b.gods.1 else b.gods.2) = God.ARTEMIS from hcg]
    exact hkraw
  exact mem_generate_moves.mpr
    ⟨rfl, hraw, move_is_valid_true.mpr ⟨hgm, hbel, hup, hdisp⟩⟩

theorem hermes_generated_of_free {b : Board} (_hwf : board_wf b) {f t : Nat}
    (hfmem : f ∈ get_worker_index b)
    (hbel : worker_belongs_to_current_player b f = true)
    (hcg : current_god b = God.HERMES)
    (htN : t ∈ NEIGHBOURS f) (hfree_t : is_free b t = true) :
    (⟨MoveKind.hermes f [] t, b.prevent_up_next_turn⟩ : Move)
      ∈ generate_moves b := by
  have hft : t ≠ f := NEIGHBOURS_ne htN
  have hbo : build_ok_sq b f f t = true :=
    build_ok_sq_iff.mpr ⟨htN, Ne.symm hft, Or.inr hfree_t⟩
  have hvh : hermes_move_is_valid b f [] t = true := by
    simp [hermes_move_is_valid, hermes_steps, hbo]
  have hup : (b.prevent_up_next_turn
      && attempts_to_move_up b (MoveKind.hermes f [] t)) = false := by
    have hnu : attempts_to_move_up b (MoveKind.hermes f [] t) = false := by
      unfold attempts_to_move_up
      dsimp only [MoveKind.final_sq, MoveKind.from_sq]
      simp
    rw [hnu, Bool.and_false]
  have hdisp : dispatch_valid b (current_god b)
      (MoveKind.hermes f [] t) = true := by
    rw [hcg]
    show hermes_move_is_valid b f [] t = true
    exact hvh
  have hgm : god_move_match (current_god b) (MoveKind.hermes f [] t) = true := by
    rw [hcg]
    rfl
  have hkraw : MoveKind.hermes f [] t ∈ generate_moves_hermes b := by
    unfold generate_moves_hermes
    rw [List.mem_flatMap]
    refine ⟨f, hfmem, ?_⟩
    dsimp only
    have hB : MoveKind.hermes f [] t ∈ (get_build_sq b f f).map
        (fun bd => MoveKind.hermes f [] bd) := by
      rw [List.mem_map]
      refine ⟨t, ?_, rfl⟩
      unfold get_build_sq
      rw [List.mem_filter]
      exact ⟨htN, by simp [hfree_t, hft]⟩
    simp only [List.mem_append]
    tauto
  have hraw : MoveKind.hermes f [] t ∈ generate_moves_raw b := by
    unfold generate_moves_raw
    rw [show (if b.turn = 1 then b.gods.1 else b.gods.2) = God.HERMES from hcg]
    exact hkraw
  exact mem_generate_moves.mpr
    ⟨rfl, hraw, move_is_valid_true.mpr ⟨hgm, hbel, hup, hdisp⟩⟩

theorem apollo_generated_none {b : Board} (hwf : board_wf b) {f t : Nat}
    (hfmem : f ∈ get_worker_index b)
    (hbel : worker_belongs_to_current_player b f = true)
    (hcg : current_god b = God.APOLLO)
    (htN : t ∈ NEIGHBOURS f) (hocc : which_worker_is_here b t = none)
    (h4 : b.blockAt t ≠ 4)
    (hcl : b.blockAt t - b.blockAt f ≤ 1)
    (hflag : b.blockAt t - b.blockAt f = 1 → b.prevent_up_next_turn = false) :
    (⟨MoveKind.apollo f t f, b.prevent_up_next_turn⟩ : Move)
      ∈ generate_moves b := by
  have hfw := mem_workers_of_index hfmem
  have htnw : t ∉ b.workers := which_worker_none_iff.mp hocc
  obtain ⟨hfree_t, hcc, hbld, htf⟩ := standard_parts hwf hfw htN htnw h4 hcl
  obtain ⟨hmc, hbo⟩ := complete_checks_sq_iff.mp hcc
  have hf25 : f < 25 := (hwf.2.2.2.2.1 f hfw).1
  have hf3 : b.blockAt f ≤ 3 := (hwf.2.2.2.2.1 f hfw).2
  have hf4 : b.blockAt f ≠ 4 := by omega
  have hft : t ≠ f := NEIGHBOURS_ne htN
  have hho : height_ok b f t = true := height_ok_iff.mpr hcl
  have haa : adj_ok f t = true := adj_ok_iff.mpr htN
  have hup : (b.prevent_up_next_turn
      && attempts_to_move_up b (MoveKind.apollo f t f)) = false :=
    no_up_flag hcl hflag
  have hval0 : apollo_move_is_valid b f t f = true := by
    unfold apollo_move_is_valid apollo_move_is_valid.apollo_valid_tail
    rw [hocc]
    dsimp only
    rw [if_neg (by simp [hho, haa])]
    rw [if_neg (by simp)]
    rw [if_neg (by simp [h4])]
    rw [if_neg (by simp [hbo])]
    rw [if_neg (by simp [is_opponent_worker])]
  have hdisp : dispatch_valid b (current_god b) (MoveKind.apollo f t f) = true := by
    rw [hcg]
    show apollo_move_is_valid b f t f = true
    exact hval0
  have hgm : god_move_match (current_god b) (MoveKind.apollo f t f) = true := by
    rw [hcg]
    rfl
  have hkraw : MoveKind.apollo f t f ∈ generate_moves_apollo b := by
    unfold generate_moves_apollo
    rw [List.mem_flatMap]
    refine ⟨f, hfmem, ?_⟩
    rw [List.mem_flatMap]
    refine ⟨t, htN, ?_⟩
    dsimp only
    rw [hocc]
    rw [if_neg (by simp [h4]; omega)]
    rw [List.mem_map]
    refine ⟨f, ?_, rfl⟩
    rw [List.mem_filter]
    refine ⟨NEIGHBOURS_symm hf25 htN, ?_⟩
    simp [hf4, Ne.symm hft]
  have hraw : MoveKind.apollo f t f ∈ generate_moves_raw b := by
    unfold generate_moves_raw
    rw [show (if b.turn = 1 then b.gods.1 else b.gods.2) = God.APOLLO from hcg]
    exact hkraw
  exact mem_generate_moves.mpr
    ⟨rfl, hraw, move_is_valid_true.mpr ⟨hgm, hbel, hup, hdisp⟩⟩

theorem apollo_generated_swap {b : Board} (_hwf : board_wf b) {f t occ nei : Nat}
    (hfmem : f ∈ get_worker_index b)
    (hbel : worker_belongs_to_current_player b f = true)
    (hcg : current_god b = God.APOLLO)
    (htN : t ∈ NEIGHBOURS f) (hocc : which_worker_is_here b t = some occ)
    (hopp : is_opponent_worker b (some occ) = true)
    (h4 : b.blockAt t ≠ 4)
    (hcl : b.blockAt t - b.blockAt f ≤ 1)
    (hflag : b.blockAt t - b.blockAt f = 1 → b.prevent_up_next_turn = false)
    (hneiN : nei ∈ NEIGHBOURS t) (hneif : nei ≠ f)
    (hfr : is_free b nei = true) :
    (⟨MoveKind.apollo f t nei, b.prevent_up_next_turn⟩ : Move)
      ∈ generate_moves b := by
  have hho : height_ok b f t = true := height_ok_iff.mpr hcl
  have haa : adj_ok f t = true := adj_ok_iff.mpr htN
  have hnt : nei ≠ t := NEIGHBOURS_ne hneiN
  have hbo : build_ok_sq b f t nei = true :=
    build_ok_sq_iff.mpr ⟨hneiN, Ne.symm hnt, Or.inr hfr⟩
  have hup : (b.prevent_up_next_turn
      && attempts_to_move_up b (MoveKind.apollo f t nei)) = false :=
    no_up_flag hcl hflag
  have hval0 : apollo_move_is_valid b f t nei = true := by
    unfold apollo_move_is_valid apollo_move_is_valid.apollo_valid_tail
    rw [hocc]
    dsimp only
    rw [if_neg (by simp [hho, haa])]
    rw [if_pos (by simp)]
    rw [if_neg (by simp [hopp])]
    rw [if_neg (by simp [hbo])]
    rw [if_neg (by simp [Ne.symm hneif])]
  have hdisp : dispatch_valid b (current_god b)
      (MoveKind.apollo f t nei) = true := by
    rw [hcg]
    show apollo_move_is_valid b f t nei = true
    exact hval0
  have hgm : god_move_match (current_god b) (MoveKind.apollo f t nei) = true := by
    rw [hcg]
    rfl
  have hkraw : MoveKind.apollo f t nei ∈ generate_moves_apollo b := by
    unfold generate_moves_apollo
    rw [List.mem_flatMap]
    refine ⟨f, hfmem, ?_⟩
    rw [List.mem_flatMap]
    refine ⟨t, htN, ?_⟩
    dsimp only
    rw [hocc]
    rw [if_neg (by simp [h4, hopp]; omega)]
    rw [List.mem_map]
    refine ⟨nei, ?_, rfl⟩
    rw [List.mem_filter]
    refine ⟨hneiN, ?_⟩
    rw [if_neg hneif]
    simp [hfr, hnt]
  have hraw : MoveKind.apollo f t nei ∈ generate_moves_raw b := by
    unfold generate_moves_raw
    rw [show (if b.turn = 1 then b.gods.1 else b.gods.2) = God.APOLLO from hcg]
    exact hkraw
  exact mem_generate_moves.mpr
    ⟨rfl, hraw, move_is_valid_true.mpr ⟨hgm, hbel, hup, hdisp⟩⟩

theorem minotaur_generated_none {b : Board} (hwf : board_wf b) {f t : Nat}
    (hfmem : f ∈ get_worker_index b)
    (hbel : worker_belongs_to_current_player b f = true)
    (hcg : current_god b = God.MINOTAUR)
    (htN : t ∈ NEIGHBOURS f) (hocc : which_worker_is_here b t = none)
    (h4 : b.blockAt t ≠ 4)
    (hcl : b.blockAt t - b.blockAt f ≤ 1)
    (hflag : b.blockAt t - b.blockAt f = 1 → b.prevent_up_next_turn = false) :
    (⟨MoveKind.minotaur f t f false, b.prevent_up_next_turn⟩ : Move)
      ∈ generate_moves b := by
  have hfw := mem_workers_of_index hfmem
  have htnw : t ∉ b.workers := which_worker_none_iff.mp hocc
  obtain ⟨hfree_t, hcc, hbld, htf⟩ := standard_parts hwf hfw htN htnw h4 hcl
  obtain ⟨hmc, hbo⟩ := complete_checks_sq_iff.mp hcc
  have hho : height_ok b f t = true := height_ok_iff.mpr hcl
  have haa : adj_ok f t = true := adj_ok_iff.mpr htN
  have hup : (b.prevent_up_next_turn
      && attempts_to_move_up b (MoveKind.minotaur f t f false)) = false :=
    no_up_flag hcl hflag
  have hval0 : minotaur_move_is_valid b f t f = true := by
    unfold minotaur_move_is_valid
    rw [hocc]
    dsimp only
    rw [if_neg (by simp [hho, haa])]
    rw [if_neg (by simp [h4])]
    rw [if_neg (by simp [hbo])]
  have hdisp : dispatch_valid b (current_god b)
      (MoveKind.minotaur f t f false) = true := by
    rw [hcg]
    show minotaur_move_is_valid b f t f = true
    exact hval0
  have hgm : god_move_match (current_god b)
      (MoveKind.minotaur f t f false) = true := by
    rw [hcg]
    rfl
  have hkraw : MoveKind.minotaur f t f false ∈ generate_moves_minotaur b := by
    unfold generate_moves_minotaur
    rw [List.mem_flatMap]
    refine ⟨f, hfmem, ?_⟩
    dsimp only
    rw [List.mem_flatMap]
    refine ⟨t, htN, ?_⟩
    dsimp only
    rw [hocc]
    rw [if_neg (by simp)]
    rw [if_neg (by simp [h4]; omega)]
    rw [if_neg (by simp)]
    rw [List.mem_map]
    exact ⟨f, hbld, rfl⟩
  have hraw : MoveKind.minotaur f t f false ∈ generate_moves_raw b := by
    unfold generate_moves_raw
    rw [show (if b.turn = 1 then b.gods.1 else b.gods.2) = God.MINOTAUR
      from hcg]
    exact hkraw
  exact mem_generate_moves.mpr
    ⟨rfl, hraw, move_is_valid_true.mpr ⟨hgm, hbel, hup, hdisp⟩⟩

theorem minotaur_generated_push {b : Board} (hwf : board_wf b)
    {f t occ push : Nat}
    (hfmem : f ∈ get_worker_index b)
    (hbel : worker_belongs_to_current_player b f = true)
    (hcg : current_god b = God.MINOTAUR)
    (htN : t ∈ NEIGHBOURS f) (hocc : which_worker_is_here b t = some occ)
    (hopp : is_opponent_worker b (some occ) = true)
    (h4 : b.blockAt t ≠ 4)
    (hcl : b.blockAt t - b.blockAt f ≤ 1)
    (hflag : b.blockAt t - b.blockAt f = 1 → b.prevent_up_next_turn = false)
    (hcp : calculate_push_square f t = some push)
    (hfrp : is_free b push = true) :
    (⟨MoveKind.minotaur f t f true, b.prevent_up_next_turn⟩ : Move)
      ∈ generate_moves b := by
  have hfw := mem_workers_of_index hfmem
  have hf25 : f < 25 := (hwf.2.2.2.2.1 f hfw).1
  have hft : t ≠ f := NEIGHBOURS_ne htN
  have hfiN : f ∈ NEIGHBOURS t := NEIGHBOURS_symm hf25 htN
  have hpf : push ≠ f := push_square_ne hft hcp
  have hp4 : b.blockAt push < 4 := (is_free_iff.mp hfrp).2
  have hho : height_ok b f t = true := height_ok_iff.mpr hcl
  have haa : adj_ok f t = true := adj_ok_iff.mpr htN
  have hbo : build_ok_sq b f t f = true :=
    build_ok_sq_iff.mpr ⟨hfiN, hft, Or.inl rfl⟩
  have hbld : f ∈ get_build_sq b f t := by
    unfold get_build_sq
    rw [List.mem_filter]
    exact ⟨hfiN, by simp [Ne.symm hft]⟩
  have hup : (b.prevent_up_next_turn
      && attempts_to_move_up b (MoveKind.minotaur f t f true)) = false :=
    no_up_flag hcl hflag
  have hval0 : minotaur_move_is_valid b f t f = true := by
    unfold minotaur_move_is_valid
    rw [hocc]
    dsimp only
    rw [if_neg (by simp [hho, haa])]
    rw [if_neg (by simp [hopp])]
    rw [hcp]
    dsimp only
    rw [if_neg (by simp [hfrp])]
    rw [if_neg (by simp [hbo, hpf])]
  have hdisp : dispatch_valid b (current_god b)
      (MoveKind.minotaur f t f true) = true := by
    rw [hcg]
    show minotaur_move_is_valid b f t f = true
    exact hval0
  have hgm : god_move_match (current_god b)
      (MoveKind.minotaur f t f true) = true := by
    rw [hcg]
    rfl
  have hkraw : MoveKind.minotaur f t f true ∈ generate_moves_minotaur b := by
    unfold generate_moves_minotaur
    rw [List.mem_flatMap]
    refine ⟨f, hfmem, ?_⟩
    dsimp only
    rw [List.mem_flatMap]
    refine ⟨t, htN, ?_⟩
    dsimp only
    rw [hocc]
    rw [if_neg (by simp [hopp])]
    rw [if_neg (by simp [h4]; omega)]
    rw [if_pos (by simp [hopp])]
    rw [if_pos (by simp [hopp])]
    rw [hcp]
    dsimp only
    rw [if_neg (by simp [hfrp]; omega)]
    rw [List.mem_map]
    refine ⟨f, ?_, rfl⟩
    rw [List.mem_filter]
    exact ⟨hbld, by simp [hpf]⟩
  have hraw : MoveKind.minotaur f t f true ∈ generate_moves_raw b := by
    unfold generate_moves_raw
    rw [show (if b.turn = 1 then b.gods.1 else b.gods.2) = God.MINOTAUR
      from hcg]
    exact hkraw
  exact mem_generate_moves.mpr
    ⟨rfl, hraw, move_is_valid_true.mpr ⟨hgm, hbel, hup, hdisp⟩⟩

/-- whenever the quick existence check `_player_has_any_valid_move` succeeds
for the side to move, the full generator emits at least one move. -/
theorem any_move_exists {b : Board} (hwf : board_wf b)
    (h : player_has_any_valid_move b b.turn = true) :
    generate_moves b ≠ [] := by
  unfold player_has_any_valid_move at h
  dsimp only at h
  rw [List.any_eq_true] at h
  obtain ⟨wi, hwi, h2⟩ := h
  try dsimp only at h2
  rw [List.any_eq_true] at h2
  obtain ⟨t, htN, hvia⟩ := h2
  have hvia2 : any_move_via b (current_god b) (b.workerAt wi) t = true := hvia
  have hbel : worker_belongs_to_current_player b (b.workerAt wi) = true :=
    belongs_of_index hwi
  have hfmem : b.workerAt wi ∈ get_worker_index b := workerAt_mem_index hwf hwi
  obtain ⟨h4, hrest⟩ := any_move_via_cases hvia2
  cases hcg : current_god b with
  | APOLLO =>
    rw [hcg] at hrest
    rcases hrest with ⟨hgod, -⟩ | ⟨hcl, hflag, hocc3⟩
    · exact God.noConfusion hgod
    · rcases hocc3 with hoccn | ⟨occ, hocc, hopp, hsub⟩
      · exact List.ne_nil_of_mem
          (apollo_generated_none hwf hfmem hbel hcg htN hoccn h4 hcl hflag)
      · rcases hsub with ⟨-, nei, hneiN, hneif, hfr⟩ | ⟨hgod, -⟩
        · exact List.ne_nil_of_mem
            (apollo_generated_swap hwf hfmem hbel hcg htN hocc hopp h4 hcl
              hflag hneiN hneif hfr)
        · exact God.noConfusion hgod
  | ARTEMIS =>
    rw [hcg] at hrest
    rcases hrest with ⟨hgod, -⟩ | ⟨hcl, hflag, hocc3⟩
    · exact God.noConfusion hgod
    · rcases hocc3 with hoccn | ⟨occ, hocc, hopp, hsub⟩
      · exact List.ne_nil_of_mem
          (artemis_generated_of_free hwf hfmem hbel hcg htN
            (which_worker_none_iff.mp hoccn) h4 hcl hflag)
      · rcases hsub with ⟨hgod, -⟩ | ⟨hgod, -⟩ <;> exact God.noConfusion hgod
  | ATHENA =>
    rw [hcg] at hrest
    rcases hrest with ⟨hgod, -⟩ | ⟨hcl, hflag, hocc3⟩
    · exact God.noConfusion hgod
    · rcases hocc3 with hoccn | ⟨occ, hocc, hopp, hsub⟩
      · exact List.ne_nil_of_mem
          (athena_generated_of_free hwf hfmem hbel hcg htN
            (which_worker_none_iff.mp hoccn) h4 hcl hflag)
      · rcases hsub with ⟨hgod, -⟩ | ⟨hgod, -⟩ <;> exact God.noConfusion hgod
  | ATLAS =>
    rw [hcg] at hrest
    rcases hrest with ⟨hgod, -⟩ | ⟨hcl, hflag, hocc3⟩
    · exact God.noConfusion hgod
    · rcases hocc3 with hoccn | ⟨occ, hocc, hopp, hsub⟩
      · exact List.ne_nil_of_mem
          (atlas_generated_of_free hwf hfmem hbel hcg htN
            (which_worker_none_iff.mp hoccn) h4 hcl hflag)
      · rcases hsub with ⟨hgod, -⟩ | ⟨hgod, -⟩ <;> exact God.noConfusion hgod
  | DEMETER =>
    rw [hcg] at hrest
    rcases hrest with ⟨hgod, -⟩ | ⟨hcl, hflag, hocc3⟩
    · exact God.noConfusion hgod
    · rcases hocc3 with hoccn | ⟨occ, hocc, hopp, hsub⟩
      · exact List.ne_nil_of_mem
          (demeter_generated_of_free hwf hfmem hbel hcg htN
            (which_worker_none_iff.mp hoccn) h4 hcl hflag)
      · rcases hsub with ⟨hgod, -⟩ | ⟨hgod, -⟩ <;> exact God.noConfusion hgod
  | HEPHAESTUS =>
    rw [hcg] at hrest
    rcases hrest with ⟨hgod, -⟩ | ⟨hcl, hflag, hocc3⟩
    · exact God.noConfusion hgod
    · rcases hocc3 with hoccn | ⟨occ, hocc, hopp, hsub⟩
      · exact List.ne_nil_of_mem
          (hephaestus_generated_of_free hwf hfmem hbel hcg htN
            (which_worker_none_iff.mp hoccn) h4 hcl hflag)
      · rcases hsub with ⟨hgod, -⟩ | ⟨hgod, -⟩ <;> exact God.noConfusion hgod
  | HERMES =>
    rw [hcg] at hrest
    rcases hrest with ⟨-, hfree_t⟩ | ⟨hcl, hflag, hocc3⟩
    · exact List.ne_nil_of_mem
        (hermes_generated_of_free hwf hfmem hbel hcg htN hfree_t)
    · rcases hocc3 with hoccn | ⟨occ, hocc, hopp, hsub⟩
      · have htnw := which_worker_none_iff.mp hoccn
        have ht4 : b.blockAt t < 4 :=
          lt_of_le_of_ne (blockAt_le4 hwf.2.2.1 hwf.1 (NEIGHBOURS_lt25 htN)) h4
        exact List.ne_nil_of_mem
          (hermes_generated_of_free hwf hfmem hbel hcg htN
            (is_free_iff.mpr ⟨htnw, ht4⟩))
      · rcases hsub with ⟨hgod, -⟩ | ⟨hgod, -⟩ <;> exact God.noConfusion hgod
  | MINOTAUR =>
    rw [hcg] at hrest
    rcases hrest with ⟨hgod, -⟩ | ⟨hcl, hflag, hocc3⟩
    · exact God.noConfusion hgod
    · rcases hocc3 with hoccn | ⟨occ, hocc, hopp, hsub⟩
      · exact List.ne_nil_of_mem
          (minotaur_generated_none hwf hfmem hbel hcg htN hoccn h4 hcl hflag)
      · rcases hsub with ⟨hgod, -⟩ | ⟨-, push, hcp, hfrp⟩
        · exact God.noConfusion hgod
        · exact List.ne_nil_of_mem
            (minotaur_generated_push hwf hfmem hbel hcg htN hocc hopp h4 hcl
              hflag hcp hfrp)
  | PAN =>
    rw [hcg] at hrest
    rcases hrest with ⟨hgod, -⟩ | ⟨hcl, hflag, hocc3⟩
    · exact God.noConfusion hgod
    · rcases hocc3 with hoccn | ⟨occ, hocc, hopp, hsub⟩
      · exact List.ne_nil_of_mem
          (pan_generated_of_free hwf hfmem hbel hcg htN
            (which_worker_none_iff.mp hoccn) h4 hcl hflag)
      · rcases hsub with ⟨hgod, -⟩ | ⟨hgod, -⟩ <;> exact God.noConfusion hgod
  | PROMETHEUS =>
    rw [hcg] at hrest
    rcases hrest with ⟨hgod, -⟩ | ⟨hcl, hflag, hocc3⟩
    · exact God.noConfusion hgod
    · rcases hocc3 with hoccn | ⟨occ, hocc, hopp, hsub⟩
      · exact List.ne_nil_of_mem
          (prometheus_generated_of_free hwf hfmem hbel hcg htN
            (which_worker_none_iff.mp hoccn) h4 hcl hflag)
      · rcases hsub with ⟨hgod, -⟩ | ⟨hgod, -⟩ <;> exact God.noConfusion hgod

/-- C3 (amended): for every well-formed board on which `won` is false and the
Pan drop-win condition does not hold, if `generate_moves()` returns an empty
list then `check_state()` returns the opponent's win `-turn`.  (The claim's
"equivalently" clause is refuted separately: `_player_has_any_valid_move` can
return false although `generate_moves` is non-empty, so this implication is
the true content — an empty generator forces the mate answer because the
existence check never succeeds when the generator is empty.) -/
theorem empty_generator_mate {b : Board} (hwf : board_wf b)
    (hwon : b.won = false)
    (hpan : (decide (b.last_move_height_diff ≤ -2)
      && ((if -b.turn = 1 then b.gods.1 else b.gods.2) == God.PAN)) = false)
    (hemp : generate_moves b = []) :
    check_state b = -b.turn := by
  have hph : player_has_any_valid_move b b.turn = false := by
    cases hp : player_has_any_valid_move b b.turn
    · rfl
    · exact absurd hemp (any_move_exists hwf hp)
  unfold check_state
  dsimp only
  rw [if_neg (by simp [hwon])]
  rw [if_neg (by simp [hpan])]
  rw [hph]
  rfl

/-- A board on which Gray (Artemis, playing under a raised athena flag) can
only move by stepping up one level and immediately back down — a move the
quick existence check cannot see. -/
def artemis_flag_board : Board :=
  ⟨((((List.replicate 25 (0 : Int)).set 2 1).set 5 4).set 6 4).set 7 1,
    [0, 1, 23, 24], 1, (God.ARTEMIS, God.ATHENA), true, 0, false⟩

/-- C3 counterexample (to the claim's "equivalently" clause): on
`artemis_flag_board` the generator emits the legal Artemis move
`1 → 2 → 3, build 2` (net height change zero, so the athena flag permits it),
yet `_player_has_any_valid_move` — which only inspects single-square
displacements and skips every climb while the flag is raised — returns false,
and `check_state` therefore reports the opponent's win although a legal move
exists. -/
theorem mate_check_misses_artemis_moves :
    board_wf artemis_flag_board ∧
      artemis_flag_board.won = false ∧
      (⟨.artemis 1 3 2 (some 2), true⟩ : Move)
        ∈ generate_moves artemis_flag_board ∧
      player_has_any_valid_move artemis_flag_board artemis_flag_board.turn
        = false ∧
      check_state artemis_flag_board = -artemis_flag_board.turn :=
  ⟨by decide, by decide, by decide, by decide, by decide⟩

/-- Witness for the amended C3 at a concrete input: the terminal test board
where Gray's Apollo has no legal move. -/
theorem empty_generator_mate_witness :
    board_wf misc_board ∧ misc_board.won = false ∧
      (decide (misc_board.last_move_height_diff ≤ -2)
        && ((if -misc_board.turn = 1 then misc_board.gods.1
          else misc_board.gods.2) == God.PAN)) = false ∧
      generate_moves misc_board = [] ∧
      check_state misc_board = -misc_board.turn :=
  ⟨by decide, by decide, by decide, by decide,
    empty_generator_mate (by decide) (by decide) (by decide) (by decide)⟩

/-- The board produced by the witness move of C9 below: Gray's Apollo worker
steps 0 → 5 and builds on the vacated square 0. -/
def sample_after : Board :=
  ⟨(List.replicate 25 (0 : Int)).set 0 1, [5, 1, 23, 24], -1,
    (God.APOLLO, God.ARTEMIS), false, 0, false⟩

/-- Witness for C9 at a concrete input. -/
theorem make_move_preserves_worker_invariants_witness :
    board_wf sample_board ∧
      (make_move sample_board ⟨.apollo 0 5 0, false⟩).toOption = some sample_after ∧
      (sample_after.workers.Nodup ∧
        ∀ w ∈ sample_after.workers, sample_after.blockAt w ≤ 3) :=
  ⟨by decide, by decide,
    @make_move_preserves_worker_invariants sample_board
      ⟨.apollo 0 5 0, false⟩ sample_after (by decide)
      (except_ok_of_toOption (by decide))⟩

/-- Witness for the amended C1 round trip at a concrete input: the generated
Apollo move `(0 → 5, build 0)` on `sample_board` is made and then unmade, and
the original position comes back with the flag and diff as stated. -/
theorem generated_round_trip_witness :
    board_wf sample_board ∧
      (⟨.apollo 0 5 0, false⟩ : Move) ∈ generate_moves sample_board ∧
      make_move sample_board ⟨.apollo 0 5 0, false⟩ = Except.ok sample_after ∧
      ∃ b2, unmake_move sample_after (⟨.apollo 0 5 0, false⟩ : Move)
          = Except.ok b2 ∧
        b2.blocks = sample_board.blocks ∧ b2.workers = sample_board.workers ∧
        b2.turn = sample_board.turn ∧ b2.won = false ∧
        b2.prevent_up_next_turn =
          (if current_god sample_board = God.ATHENA then false
            else sample_board.prevent_up_next_turn) ∧
        (current_god sample_board ≠ God.ATHENA →
          b2.last_move_height_diff = 0) ∧
        (current_god sample_board = God.ATHENA → b2.last_move_height_diff =
          sample_board.blockAt
              (MoveKind.apollo 0 5 0).final_sq -
            sample_board.blockAt (MoveKind.apollo 0 5 0).from_sq) :=
  ⟨by decide, by decide, except_ok_of_toOption (by decide),
    @generated_round_trip sample_board ⟨.apollo 0 5 0, false⟩ sample_after
      (by decide) (by decide) (except_ok_of_toOption (by decide))⟩

end FitosBot
